import Mathlib

/-!
# copilot-go: protocol translation, model names, authentication and instances

A shallow embedding of parts of the gateway:

* `anthropic/utils.go`: the finish-reason map;
* `anthropic/types.go`: the stream events and the per-stream state;
* `anthropic/stream_translation.go`: the chunk-to-events state machine;
* `instance/handler.go`: the loop of `handleAnthropicStream` over SSE lines;
* `store/model_map.go`: the two lookups of the model-name mapper;
* `store/account.go`: the account lookups and the pool configuration;
* `instance/load_balancer.go`: the pool selector;
* `instance/manager.go`: start, stop and token refresh of the instances;
* `handler/proxy.go`: the token resolution of `proxyAuth`;
* `anthropic/translate_request.go`, `anthropic/translate_response.go`: the
  translators of unary requests and responses.

Modelling conventions.

* Go `string` is `String`; Go `int` is `Int`. The only arithmetic on a Go
  `int` in the embedded code is `state.ContentBlockIndex++`, executed once per
  emitted `content_block_stop`; from `0` it needs `2^63` such events in one
  stream to wrap, so the increment is modelled without wrap-around.
* A Go pointer that may be `nil` (`*ChoiceMsg`, `*string`, `*int`,
  `*OpenAIUsage`) is an `Option`.
* `map[int]*ToolCallState` is an association list with unique keys.
* An `interface{}` that holds decoded JSON is a `JSON` value (`nil` is
  `JSON.null`); a finite `float64` is a `Rat`; a `map[string]interface{}` is a
  list of fields read by key.
* `json.Marshal` and `json.Unmarshal` are parameters of the functions that call
  them.
* `atomic.Int64` wraps modulo `2^64`; `int` is taken to be 64 bits wide where an
  `int64` is converted to it.
* A function that mutates `*AnthropicStreamState` and returns events takes the
  state and returns the new state together with the events.
* `time.Now().UnixNano()` is a parameter `now`.
* The result of an upstream HTTP request (the session-token exchange, the model
  fetch, the editor version) is a parameter of the function that makes it, and
  the requests made are returned with the result.
* The registry `map[string]*ProxyInstance` is an association list read at the
  first entry of a key; an assignment through a pointer of the map rewrites that
  entry. The mutexes are left out: every function is one atomic step.
* A `chan struct{}` that is only ever closed is `StopChan`: nil, made, closed.
* Field `Type` of the Go structs is spelled `Type_`.

Method. A call of `TranslateChunkToAnthropicEvents` is shown to be a run of
`perform` over the actions of the chunk (`translateChunk_eq`), so a property of
the emitted stream is proved once per action and carried along the run.
-/

/-! # Part I: definitions -/

namespace Anthropic

/-! ## anthropic/utils.go -/

/-- Finish-reason map of `utils.go`: a `switch` on the OpenAI finish reason. -/
def MapOpenAIStopReasonToAnthropic (reason : String) : String :=
  if reason = "stop" then "end_turn"
  else if reason = "length" then "max_tokens"
  else if reason = "tool_calls" then "tool_use"
  else if reason = "content_filter" then "end_turn"
  else "end_turn"

/-! ## anthropic/types.go -/

/-- What `json.Unmarshal` stores in an `interface{}`: `nil`, `bool`, `float64`,
`string`, `[]interface{}` or `map[string]interface{}`. -/
inductive JSON where
  | null
  | bool (b : Bool)
  | number (n : Rat)
  | str (s : String)
  | arr (items : List JSON)
  | obj (fields : List (String × JSON))
  deriving Repr

mutual
/-- Equality of JSON values is decidable. -/
def JSON.decEq : (a b : JSON) → Decidable (a = b)
  | .null, .null => isTrue rfl
  | .bool a, .bool b =>
    if h : a = b then isTrue (by rw [h]) else isFalse (by intro e; cases e; exact h rfl)
  | .number a, .number b =>
    if h : a = b then isTrue (by rw [h]) else isFalse (by intro e; cases e; exact h rfl)
  | .str a, .str b =>
    if h : a = b then isTrue (by rw [h]) else isFalse (by intro e; cases e; exact h rfl)
  | .arr a, .arr b =>
    match JSON.decEqList a b with
    | isTrue h => isTrue (by rw [h])
    | isFalse h => isFalse (by intro e; cases e; exact h rfl)
  | .obj a, .obj b =>
    match JSON.decEqFields a b with
    | isTrue h => isTrue (by rw [h])
    | isFalse h => isFalse (by intro e; cases e; exact h rfl)
  | .null, .bool _ | .null, .number _ | .null, .str _ | .null, .arr _ | .null, .obj _
  | .bool _, .null | .bool _, .number _ | .bool _, .str _ | .bool _, .arr _ | .bool _, .obj _
  | .number _, .null | .number _, .bool _ | .number _, .str _ | .number _, .arr _
  | .number _, .obj _
  | .str _, .null | .str _, .bool _ | .str _, .number _ | .str _, .arr _ | .str _, .obj _
  | .arr _, .null | .arr _, .bool _ | .arr _, .number _ | .arr _, .str _ | .arr _, .obj _
  | .obj _, .null | .obj _, .bool _ | .obj _, .number _ | .obj _, .str _ | .obj _, .arr _ =>
    isFalse (by intro e; cases e)
/-- Equality of lists of JSON values is decidable. -/
def JSON.decEqList : (a b : List JSON) → Decidable (a = b)
  | [], [] => isTrue rfl
  | [], _ :: _ => isFalse (by intro e; cases e)
  | _ :: _, [] => isFalse (by intro e; cases e)
  | x :: xs, y :: ys =>
    match JSON.decEq x y, JSON.decEqList xs ys with
    | isTrue h1, isTrue h2 => isTrue (by rw [h1, h2])
    | isFalse h1, _ => isFalse (by intro e; cases e; exact h1 rfl)
    | _, isFalse h2 => isFalse (by intro e; cases e; exact h2 rfl)
/-- Equality of lists of JSON fields is decidable. -/
def JSON.decEqFields : (a b : List (String × JSON)) → Decidable (a = b)
  | [], [] => isTrue rfl
  | [], _ :: _ => isFalse (by intro e; cases e)
  | _ :: _, [] => isFalse (by intro e; cases e)
  | (k, x) :: xs, (l, y) :: ys =>
    if hk : k = l then
      match JSON.decEq x y, JSON.decEqFields xs ys with
      | isTrue h1, isTrue h2 => isTrue (by rw [hk, h1, h2])
      | isFalse h1, _ => isFalse (by intro e; cases e; exact h1 rfl)
      | _, isFalse h2 => isFalse (by intro e; cases e; exact h2 rfl)
    else isFalse (by intro e; cases e; exact hk rfl)
end

instance : DecidableEq JSON := JSON.decEq

/-- Go `v, ok := m[key]` on a `map[string]interface{}`. -/
def JSON.lookup (fields : List (String × JSON)) (key : String) : Option JSON :=
  (fields.find? (fun p => decide (p.1 = key))).map Prod.snd

/-- Go `s, ok := x.(string)` on the result of a map read. -/
def JSON.asString : Option JSON → Option String
  | some (.str s) => some s
  | _ => none

structure AnthropicUsage where
  InputTokens : Int := 0
  OutputTokens : Int := 0
  CacheCreationInputTokens : Int := 0
  CacheReadInputTokens : Int := 0
  deriving DecidableEq, Repr

structure AnthropicContentBlock where
  Type_ : String := ""
  Text : String := ""
  ID : String := ""
  Name : String := ""
  Input : JSON := .null
  deriving DecidableEq, Repr

structure AnthropicResponse where
  ID : String := ""
  Type_ : String := ""
  Role : String := ""
  Content : List AnthropicContentBlock := []
  Model : String := ""
  StopReason : String := ""
  StopSequence : Option String := none
  Usage : AnthropicUsage := {}
  deriving DecidableEq, Repr

structure MessageStartEvent where
  Type_ : String := ""
  Message : AnthropicResponse := {}
  deriving DecidableEq, Repr

structure ContentBlockStartEvent where
  Type_ : String := ""
  Index : Int := 0
  ContentBlock : AnthropicContentBlock := {}
  deriving DecidableEq, Repr

structure DeltaBlock where
  Type_ : String := ""
  Text : String := ""
  PartialJSON : String := ""
  deriving DecidableEq, Repr

structure ContentBlockDeltaEvent where
  Type_ : String := ""
  Index : Int := 0
  Delta : DeltaBlock := {}
  deriving DecidableEq, Repr

structure ContentBlockStopEvent where
  Type_ : String := ""
  Index : Int := 0
  deriving DecidableEq, Repr

structure MessageDelta where
  StopReason : String := ""
  StopSequence : Option String := none
  deriving DecidableEq, Repr

structure DeltaUsage where
  OutputTokens : Int := 0
  deriving DecidableEq, Repr

structure MessageDeltaEvent where
  Type_ : String := ""
  Delta : MessageDelta := {}
  Usage : Option DeltaUsage := none
  deriving DecidableEq, Repr

structure PingEvent where
  Type_ : String := ""
  deriving DecidableEq, Repr

/-- The values stored in `StreamEvent.Data` (an `interface{}` in Go): one
constructor per concrete type the embedded code puts there. The last one is the
`map[string]string` literal that `handleAnthropicStream` writes on `[DONE]`. -/
inductive EventData where
  | messageStart (d : MessageStartEvent)
  | ping (d : PingEvent)
  | contentBlockStart (d : ContentBlockStartEvent)
  | contentBlockDelta (d : ContentBlockDeltaEvent)
  | contentBlockStop (d : ContentBlockStopEvent)
  | messageDelta (d : MessageDeltaEvent)
  | stringMap (d : List (String × String))
  deriving DecidableEq, Repr

structure StreamEvent where
  Event : String
  Data : EventData
  deriving DecidableEq, Repr

structure FunctionCall where
  Name : String := ""
  Arguments : String := ""
  deriving DecidableEq, Repr

structure ToolCall where
  ID : String := ""
  Type_ : String := ""
  Function : FunctionCall := {}
  Index : Option Int := none
  deriving DecidableEq, Repr

structure ChoiceMsg where
  Role : String := ""
  Content : String := ""
  ToolCalls : List ToolCall := []
  deriving DecidableEq, Repr

structure Choice where
  Index : Int := 0
  Message : Option ChoiceMsg := none
  Delta : Option ChoiceMsg := none
  FinishReason : Option String := none
  deriving DecidableEq, Repr

structure PromptTokensDetails where
  CachedTokens : Int := 0
  deriving DecidableEq, Repr

structure CompletionTokensDetails where
  ReasoningTokens : Int := 0
  deriving DecidableEq, Repr

structure OpenAIUsage where
  PromptTokens : Int := 0
  CompletionTokens : Int := 0
  TotalTokens : Int := 0
  PromptTokensDetails : Option PromptTokensDetails := none
  CompletionTokensDetails : Option CompletionTokensDetails := none
  deriving DecidableEq, Repr

structure ChatCompletionResponse where
  ID : String := ""
  Object : String := ""
  Created : Int := 0
  Model : String := ""
  Choices : List Choice := []
  Usage : Option OpenAIUsage := none
  SystemFingerprint : String := ""
  deriving DecidableEq, Repr

structure ToolCallState where
  ID : String := ""
  Name : String := ""
  Arguments : String := ""
  deriving DecidableEq, Repr

/-- Go `m[k] = v` on a map kept as an association list with unique keys. -/
def mapSet (m : List (Int × ToolCallState)) (k : Int) (v : ToolCallState) :
    List (Int × ToolCallState) :=
  (k, v) :: m.filter (fun p => decide (p.1 ≠ k))

/-- Go `v, ok := m[k]`. -/
def mapGet (m : List (Int × ToolCallState)) (k : Int) : Option ToolCallState :=
  (m.find? (fun p => decide (p.1 = k))).map Prod.snd

/-- Go `m[k].Arguments += s` through the stored pointer, for a key that may be
absent (then nothing changes). -/
def mapAppendArguments (m : List (Int × ToolCallState)) (k : Int) (s : String) :
    List (Int × ToolCallState) :=
  m.map (fun p => if p.1 = k then (p.1, { p.2 with Arguments := p.2.Arguments ++ s }) else p)

structure AnthropicStreamState where
  MessageStartSent : Bool := false
  ContentBlockIndex : Int := 0
  ContentBlockOpen : Bool := false
  ToolCalls : List (Int × ToolCallState) := []
  InputTokens : Int := 0
  OutputTokens : Int := 0
  Model : String := ""
  ID : String := ""
  deriving DecidableEq, Repr

def NewStreamState : AnthropicStreamState :=
  { ContentBlockIndex := 0, ToolCalls := [] }

/-! ## anthropic/stream_translation.go -/

/-- The state of a running `TranslateChunkToAnthropicEvents` call: the stream
state behind the pointer and the local slice `events`. -/
abbrev Cfg := AnthropicStreamState × List StreamEvent

def closeContentBlock (state : AnthropicStreamState) :
    AnthropicStreamState × List StreamEvent :=
  if state.ContentBlockOpen = false then (state, [])
  else
    let event : StreamEvent :=
      { Event := "content_block_stop",
        Data := .contentBlockStop
          { Type_ := "content_block_stop", Index := state.ContentBlockIndex } }
    ({ state with
        ContentBlockOpen := false,
        ContentBlockIndex := state.ContentBlockIndex + 1 }, [event])

/-- The statement `events = append(events, closeContentBlock(state)...)`. -/
def appendClose (c : Cfg) : Cfg :=
  ((closeContentBlock c.1).1, c.2 ++ (closeContentBlock c.1).2)

/-- The statement `events = append(events, e)`. -/
def appendEvent (c : Cfg) (e : StreamEvent) : Cfg :=
  (c.1, c.2 ++ [e])

/-- The `message_delta` event built in both finish-reason branches. -/
def messageDeltaEvent (state : AnthropicStreamState) (finishReason : String) :
    StreamEvent :=
  { Event := "message_delta",
    Data := .messageDelta
      { Type_ := "message_delta",
        Delta := { StopReason := MapOpenAIStopReasonToAnthropic finishReason },
        Usage := some { OutputTokens := state.OutputTokens } } }

/-- The `if choice.FinishReason != nil` block (lines 63-77 and 162-176). -/
def finishStep (c : Cfg) (finishReason : Option String) : Cfg :=
  match finishReason with
  | none => c
  | some r =>
    let c1 := appendClose c
    appendEvent c1 (messageDeltaEvent c1.1 r)

/-- The `if delta.Content != ""` block (lines 82-110). -/
def textStep (c : Cfg) (content : String) : Cfg :=
  if content = "" then c
  else
    let c1 : Cfg :=
      if c.1.ContentBlockOpen = false ∨ c.1.ToolCalls.length > 0 then
        let c2 := appendClose c
        let c3 := appendEvent c2
          { Event := "content_block_start",
            Data := .contentBlockStart
              { Type_ := "content_block_start",
                Index := c2.1.ContentBlockIndex,
                ContentBlock := { Type_ := "text", Text := "" } } }
        ({ c3.1 with ContentBlockOpen := true }, c3.2)
      else c
    appendEvent c1
      { Event := "content_block_delta",
        Data := .contentBlockDelta
          { Type_ := "content_block_delta",
            Index := c1.1.ContentBlockIndex,
            Delta := { Type_ := "text_delta", Text := content } } }

/-- The `if tc.ID != ""` block (lines 120-140), for the map key `idx`. -/
def toolStartStep (c : Cfg) (idx : Int) (tc : ToolCall) : Cfg :=
  if tc.ID = "" then c
  else
    let c1 := appendClose c
    let c2 : Cfg :=
      ({ c1.1 with
          ToolCalls := mapSet c1.1.ToolCalls idx { ID := tc.ID, Name := tc.Function.Name } },
        c1.2)
    let c3 := appendEvent c2
      { Event := "content_block_start",
        Data := .contentBlockStart
          { Type_ := "content_block_start",
            Index := c2.1.ContentBlockIndex,
            ContentBlock := { Type_ := "tool_use", ID := tc.ID, Name := tc.Function.Name } } }
    ({ c3.1 with ContentBlockOpen := true }, c3.2)

/-- The `if tc.Function.Arguments != ""` block (lines 142-157). -/
def toolArgumentsStep (c : Cfg) (idx : Int) (tc : ToolCall) : Cfg :=
  if tc.Function.Arguments = "" then c
  else
    let c1 : Cfg :=
      match mapGet c.1.ToolCalls idx with
      | some _ =>
        ({ c.1 with
            ToolCalls := mapAppendArguments c.1.ToolCalls idx tc.Function.Arguments }, c.2)
      | none => c
    appendEvent c1
      { Event := "content_block_delta",
        Data := .contentBlockDelta
          { Type_ := "content_block_delta",
            Index := c1.1.ContentBlockIndex,
            Delta := { Type_ := "input_json_delta",
                       PartialJSON := tc.Function.Arguments } } }

/-- Body of `for _, tc := range delta.ToolCalls` (lines 114-158). -/
def toolCallStep (c : Cfg) (tc : ToolCall) : Cfg :=
  let idx : Int := match tc.Index with
    | some i => i
    | none => 0
  toolArgumentsStep (toolStartStep c idx tc) idx tc

/-- Body of `for _, choice := range chunk.Choices` (lines 59-177). -/
def choiceStep (c : Cfg) (choice : Choice) : Cfg :=
  match choice.Delta with
  | none => finishStep c choice.FinishReason
  | some delta =>
    let c1 := textStep c delta.Content
    let c2 := delta.ToolCalls.foldl toolCallStep c1
    finishStep c2 choice.FinishReason

/-- Lines 16-57: the model and id are recorded, `message_start` and `ping` are
emitted when not yet sent, then the usage of the chunk is recorded. -/
def chunkHead (now : Int) (chunk : ChatCompletionResponse)
    (state : AnthropicStreamState) : Cfg :=
  let s1 : AnthropicStreamState :=
    if chunk.Model ≠ "" then { state with Model := chunk.Model } else state
  let s2 : AnthropicStreamState :=
    if chunk.ID ≠ "" then { s1 with ID := chunk.ID } else s1
  let c3 : Cfg :=
    if s2.MessageStartSent = false then
      let s3 : AnthropicStreamState := { s2 with MessageStartSent := true }
      let id : String := if s3.ID = "" then "msg_" ++ toString now else s3.ID
      (s3,
        [ { Event := "message_start",
            Data := .messageStart
              { Type_ := "message_start",
                Message :=
                  { ID := id,
                    Type_ := "message",
                    Role := "assistant",
                    Model := s3.Model,
                    Content := [],
                    Usage := { InputTokens := s3.InputTokens, OutputTokens := 0 } } } },
          { Event := "ping", Data := .ping { Type_ := "ping" } } ])
    else (s2, [])
  match chunk.Usage with
  | some u =>
    ({ c3.1 with InputTokens := u.PromptTokens, OutputTokens := u.CompletionTokens }, c3.2)
  | none => c3

/-- The function `TranslateChunkToAnthropicEvents`: the new state and the
returned events. -/
def TranslateChunkToAnthropicEvents (now : Int) (chunk : ChatCompletionResponse)
    (state : AnthropicStreamState) : AnthropicStreamState × List StreamEvent :=
  chunk.Choices.foldl choiceStep (chunkHead now chunk state)

/-- Successive calls of `TranslateChunkToAnthropicEvents` on one state, with
every event returned so far. -/
def translateFrom (now : Int) (c : Cfg) (chunks : List ChatCompletionResponse) : Cfg :=
  chunks.foldl
    (fun acc chunk =>
      ((TranslateChunkToAnthropicEvents now chunk acc.1).1,
        acc.2 ++ (TranslateChunkToAnthropicEvents now chunk acc.1).2))
    c

/-- A chunk sequence processed from `NewStreamState`. -/
def translateAll (now : Int) (chunks : List ChatCompletionResponse) : Cfg :=
  translateFrom now (NewStreamState, []) chunks

/-- One effective unit of work inside `TranslateChunkToAnthropicEvents`, in the
order in which the function reaches it: the head of the call, a non-empty text
delta, a tool-call entry with a non-empty id, a tool-call entry with non-empty
arguments, a finish reason. -/
inductive Action where
  | head (now : Int) (chunk : ChatCompletionResponse)
  | text (content : String)
  | toolStart (idx : Int) (tc : ToolCall)
  | toolArguments (idx : Int) (tc : ToolCall)
  | finish (reason : String)
  deriving DecidableEq, Repr

/-- Lines 16-57 on the events of the whole stream so far. -/
def headStep (now : Int) (chunk : ChatCompletionResponse) (c : Cfg) : Cfg :=
  ((chunkHead now chunk c.1).1, c.2 ++ (chunkHead now chunk c.1).2)

/-- The code that an action stands for. -/
def perform (c : Cfg) : Action → Cfg
  | .head now chunk => headStep now chunk c
  | .text content => textStep c content
  | .toolStart idx tc => toolStartStep c idx tc
  | .toolArguments idx tc => toolArgumentsStep c idx tc
  | .finish reason => finishStep c (some reason)

def toolCallIndex (tc : ToolCall) : Int :=
  match tc.Index with
  | some i => i
  | none => 0

def actionsOfToolCall (tc : ToolCall) : List Action :=
  (if tc.ID = "" then [] else [Action.toolStart (toolCallIndex tc) tc]) ++
  (if tc.Function.Arguments = "" then [] else [Action.toolArguments (toolCallIndex tc) tc])

def actionsOfFinish : Option String → List Action
  | none => []
  | some r => [Action.finish r]

def actionsOfChoice (choice : Choice) : List Action :=
  match choice.Delta with
  | none => actionsOfFinish choice.FinishReason
  | some delta =>
    (if delta.Content = "" then [] else [Action.text delta.Content]) ++
    delta.ToolCalls.flatMap actionsOfToolCall ++
    actionsOfFinish choice.FinishReason

def actionsOfChunk (now : Int) (chunk : ChatCompletionResponse) : List Action :=
  Action.head now chunk :: chunk.Choices.flatMap actionsOfChoice

def actionsOfChunks (now : Int) (chunks : List ChatCompletionResponse) : List Action :=
  chunks.flatMap (actionsOfChunk now)

/-- A step works on the events accumulated so far only by appending to them. -/
def Appending (f : Cfg → Cfg) : Prop :=
  ∀ (st : AnthropicStreamState) (pre l : List StreamEvent),
    f (st, pre ++ l) = ((f (st, l)).1, pre ++ (f (st, l)).2)

/-- The index carried by a `content_block_start`, `content_block_delta` or
`content_block_stop` event. -/
def StreamEvent.blockIndex (e : StreamEvent) : Option Int :=
  match e.Data with
  | .contentBlockStart d => some d.Index
  | .contentBlockDelta d => some d.Index
  | .contentBlockStop d => some d.Index
  | _ => none

/-- The type of the block that a `content_block_start` event opens. -/
def StreamEvent.blockType (e : StreamEvent) : Option String :=
  match e.Data with
  | .contentBlockStart d => some d.ContentBlock.Type_
  | _ => none

/-- The type of the delta that a `content_block_delta` event carries. -/
def StreamEvent.deltaType (e : StreamEvent) : Option String :=
  match e.Data with
  | .contentBlockDelta d => some d.Delta.Type_
  | _ => none

/-- A property of every event of a stream and the events before it. -/
def Always (φ : List StreamEvent → StreamEvent → Prop) (evs : List StreamEvent) : Prop :=
  ∀ pre e suf, evs = pre ++ e :: suf → φ pre e

/-- A `content_block_stop` is preceded by a `content_block_start` of the same
index, with no `content_block_stop` of that index in between. -/
def StopMatched (pre : List StreamEvent) (e : StreamEvent) : Prop :=
  e.Event = "content_block_stop" → ∀ i, e.blockIndex = some i →
    ∃ p1 s p2, pre = p1 ++ s :: p2 ∧ s.Event = "content_block_start" ∧
      s.blockIndex = some i ∧
      ∀ x ∈ p2, ¬ (x.Event = "content_block_stop" ∧ x.blockIndex = some i)

/-- Between a `content_block_start` and any earlier one there is a
`content_block_stop`. -/
def StartSeparated (pre : List StreamEvent) (e : StreamEvent) : Prop :=
  e.Event = "content_block_start" → ∀ p1 s p2, pre = p1 ++ s :: p2 →
    s.Event = "content_block_start" → ∃ x ∈ p2, x.Event = "content_block_stop"

/-- A delta of the given type is preceded by a `content_block_start` of the
same index whose block has the given type. -/
def DeltaInBlock (deltaType blockType : String) (pre : List StreamEvent)
    (e : StreamEvent) : Prop :=
  e.Event = "content_block_delta" → e.deltaType = some deltaType →
    ∀ i, e.blockIndex = some i →
      ∃ s ∈ pre, s.Event = "content_block_start" ∧ s.blockIndex = some i ∧
        s.blockType = some blockType

/-- Indices do not decrease from an event to a later one. -/
def IndexLe (a b : StreamEvent) : Prop :=
  ∀ i j, a.blockIndex = some i → b.blockIndex = some j → i ≤ j

/-- Two `content_block_start` events carry increasing indices. -/
def StartLt (a b : StreamEvent) : Prop :=
  a.Event = "content_block_start" → b.Event = "content_block_start" →
    ∀ i j, a.blockIndex = some i → b.blockIndex = some j → i < j

/-- What holds of the events `h` emitted so far in a stream whose state has
`ContentBlockIndex = idx` and `ContentBlockOpen = op`; `noTools` stands for
`len(state.ToolCalls) == 0`. -/
structure Good (idx : Int) (op : Bool) (noTools : Prop) (h : List StreamEvent) : Prop where
  idx_le : ∀ e ∈ h, ∀ i, e.blockIndex = some i → i ≤ idx
  stop_lt : ∀ e ∈ h, e.Event = "content_block_stop" → ∀ i, e.blockIndex = some i → i < idx
  start_lt : ∀ e ∈ h, e.Event = "content_block_start" → ∀ i, e.blockIndex = some i →
    i < idx ∨ (op = true ∧ i = idx)
  open_start : op = true →
    ∃ s ∈ h, s.Event = "content_block_start" ∧ s.blockIndex = some idx
  starts_closed : ∀ p1 s p2, h = p1 ++ s :: p2 → s.Event = "content_block_start" →
    (∃ x ∈ p2, x.Event = "content_block_stop") ∨ op = true
  text_only : noTools → ∀ e ∈ h, e.Event = "content_block_start" →
    e.blockType = some "text"
  mono : h.Pairwise IndexLe
  start_uniq : h.Pairwise StartLt
  stop_matched : Always StopMatched h
  start_separated : Always StartSeparated h
  text_delta : Always (DeltaInBlock "text_delta" "text") h

def GoodCfg (c : Cfg) : Prop :=
  Good c.1.ContentBlockIndex c.1.ContentBlockOpen (c.1.ToolCalls.length = 0) c.2

/-- The events of a stream whose `message_start` has been sent: `message_start`,
`ping`, then events that are no `message_start`. -/
def HeadSent (c : Cfg) : Prop :=
  c.1.MessageStartSent = true ∧
  ∃ (d : MessageStartEvent) (rest : List StreamEvent),
    c.2 = { Event := "message_start", Data := .messageStart d } ::
          { Event := "ping", Data := .ping { Type_ := "ping" } } :: rest ∧
    ∀ e ∈ rest, e.Event ≠ "message_start"

/-- The SSE event name of an event agrees with the kind of its data. -/
def Tagged (e : StreamEvent) : Prop :=
  match e.Data with
  | .messageStart _ => e.Event = "message_start"
  | .ping _ => e.Event = "ping"
  | .contentBlockStart _ => e.Event = "content_block_start"
  | .contentBlockDelta _ => e.Event = "content_block_delta"
  | .contentBlockStop _ => e.Event = "content_block_stop"
  | .messageDelta _ => e.Event = "message_delta"
  | .stringMap _ => e.Event = "message_stop"

/-- An action that the function really reaches: the guard of its block holds. -/
def Action.Effective : Action → Prop
  | .head _ _ => True
  | .text content => content ≠ ""
  | .toolStart _ tc => tc.ID ≠ ""
  | .toolArguments _ tc => tc.Function.Arguments ≠ ""
  | .finish _ => True

/-- Whether, after action `a`, the latest delta of the stream belongs to a tool
call (`b` tells it for the actions before `a`). -/
def toolFlag (b : Bool) : Action → Bool
  | .head _ _ => b
  | .toolStart _ _ => true
  | .toolArguments _ _ => b
  | _ => false

/-- An arguments entry is in place only when `b` holds. -/
def argumentsAllowed (b : Bool) : Action → Bool
  | .toolArguments _ _ => b
  | _ => true

/-- Every tool-call entry with non-empty arguments comes directly after a
tool-call entry with a non-empty id (possibly the same entry) or after another
such arguments entry: no text delta and no finish reason in between, chunk and
choice boundaries ignored. -/
def argumentsFollowTool : Bool → List Action → Bool
  | _, [] => true
  | b, a :: r => argumentsAllowed b a && argumentsFollowTool (toolFlag b a) r

/-- The open block is a `tool_use` block. -/
def ToolOpen (c : Cfg) : Prop :=
  c.1.ContentBlockOpen = true ∧
  ∃ s ∈ c.2, s.Event = "content_block_start" ∧
    s.blockIndex = some c.1.ContentBlockIndex ∧ s.blockType = some "tool_use"

/-- Chunks of the C6 counterexample: a text delta "A", then a tool-call entry
that has arguments and no id. -/
def orphanArgumentsChunks : List ChatCompletionResponse :=
  [ { Choices := [ { Delta := some { Content := "A" } } ] },
    { Choices := [ { Delta := some { ToolCalls :=
        [ { Function := { Arguments := "1" }, Index := some 0 } ] } } ] } ]

/-- Where the upstream stream stands, as far as the event grammar goes: no
chunk yet, no block open, a block open, finish reason seen, or out of order. -/
inductive Phase where
  | fresh | idle | inBlock | finished | broken
  deriving DecidableEq, Repr

def Phase.step : Phase → Action → Phase
  | .broken, _ => .broken
  | .fresh, .head _ _ => .idle
  | .fresh, _ => .broken
  | p, .head _ _ => p
  | .idle, .text _ => .inBlock
  | .idle, .toolStart _ _ => .inBlock
  | .idle, .toolArguments _ _ => .broken
  | .idle, .finish _ => .finished
  | .inBlock, .text _ => .inBlock
  | .inBlock, .toolStart _ _ => .inBlock
  | .inBlock, .toolArguments _ _ => .inBlock
  | .inBlock, .finish _ => .finished
  | .finished, _ => .broken

end Anthropic

namespace Handler

open Anthropic

/-! ## instance/handler.go -/

/-- What the scanner loop of `handleAnthropicStream` distinguishes in a line:
`data: [DONE]`, `data: <json>` that unmarshals to a chunk, and every other line
(no `data: ` prefix, or JSON that does not parse), which is skipped. -/
inductive SSELine where
  | done
  | data (chunk : ChatCompletionResponse)
  | skipped
  deriving DecidableEq, Repr

/-- The event written on `[DONE]`. -/
def messageStopEvent : StreamEvent :=
  { Event := "message_stop", Data := .stringMap [("type", "message_stop")] }

/-- The scanner loop of `handleAnthropicStream`, from a given stream state:
the events written, in order. -/
def streamLoop (now : Int) : AnthropicStreamState → List SSELine → List StreamEvent
  | _, [] => []
  | state, .skipped :: rest => streamLoop now state rest
  | _, .done :: _ => [messageStopEvent]
  | state, .data chunk :: rest =>
    (TranslateChunkToAnthropicEvents now chunk state).2 ++
      streamLoop now (TranslateChunkToAnthropicEvents now chunk state).1 rest

def handleAnthropicStream (now : Int) (lines : List SSELine) : List StreamEvent :=
  streamLoop now NewStreamState lines

/-- A chunk with one choice. -/
def chunkOf (id model : String) (choice : Choice) : ChatCompletionResponse :=
  { ID := id, Model := model, Choices := [choice] }

/-- The five chunks of scenario S2, with the id and model that the upstream
puts on every chunk; `finishDelta` is the delta of the last chunk (absent or
empty). -/
def s2Chunks (id model : String) (finishDelta : Option ChoiceMsg) :
    List ChatCompletionResponse :=
  [ chunkOf id model { Delta := some { Content := "A" } },
    chunkOf id model { Delta := some { ToolCalls :=
      [ { ID := "t1", Function := { Name := "f" }, Index := some 0 } ] } },
    chunkOf id model { Delta := some { ToolCalls :=
      [ { Function := { Arguments := "\x7b\"x\":" }, Index := some 0 } ] } },
    chunkOf id model { Delta := some { ToolCalls :=
      [ { Function := { Arguments := "1\x7d" }, Index := some 0 } ] } },
    chunkOf id model { Delta := finishDelta, FinishReason := some "tool_calls" } ]

/-- The events that scenario S2 expects, for the message id `msgID`. -/
def s2Events (msgID model : String) : List StreamEvent :=
  [ { Event := "message_start",
      Data := .messageStart
        { Type_ := "message_start",
          Message := { ID := msgID, Type_ := "message", Role := "assistant", Model := model,
                       Content := [], Usage := { InputTokens := 0, OutputTokens := 0 } } } },
    { Event := "ping", Data := .ping { Type_ := "ping" } },
    { Event := "content_block_start",
      Data := .contentBlockStart
        { Type_ := "content_block_start", Index := 0,
          ContentBlock := { Type_ := "text", Text := "" } } },
    { Event := "content_block_delta",
      Data := .contentBlockDelta
        { Type_ := "content_block_delta", Index := 0,
          Delta := { Type_ := "text_delta", Text := "A" } } },
    { Event := "content_block_stop",
      Data := .contentBlockStop { Type_ := "content_block_stop", Index := 0 } },
    { Event := "content_block_start",
      Data := .contentBlockStart
        { Type_ := "content_block_start", Index := 1,
          ContentBlock := { Type_ := "tool_use", ID := "t1", Name := "f" } } },
    { Event := "content_block_delta",
      Data := .contentBlockDelta
        { Type_ := "content_block_delta", Index := 1,
          Delta := { Type_ := "input_json_delta", PartialJSON := "\x7b\"x\":" } } },
    { Event := "content_block_delta",
      Data := .contentBlockDelta
        { Type_ := "content_block_delta", Index := 1,
          Delta := { Type_ := "input_json_delta", PartialJSON := "1\x7d" } } },
    { Event := "content_block_stop",
      Data := .contentBlockStop { Type_ := "content_block_stop", Index := 1 } },
    { Event := "message_delta",
      Data := .messageDelta
        { Type_ := "message_delta",
          Delta := { StopReason := "tool_use" },
          Usage := some { OutputTokens := 0 } } },
    { Event := "message_stop", Data := .stringMap [("type", "message_stop")] } ]

end Handler

namespace Store

/-! ## store/model_map.go -/

structure ModelMapping where
  CopilotID : String := ""
  DisplayID : String := ""
  DisplayName : String := ""
  deriving DecidableEq, Repr

/-- The function `ToDisplayID` over the mappings that `readModelMap` returned. -/
def ToDisplayID (mappings : List ModelMapping) (copilotID : String) : String :=
  match mappings with
  | [] => copilotID
  | m :: rest => if m.CopilotID = copilotID then m.DisplayID else ToDisplayID rest copilotID

/-- The function `ToCopilotID` over the mappings that `readModelMap` returned. -/
def ToCopilotID (mappings : List ModelMapping) (displayID : String) : String :=
  match mappings with
  | [] => displayID
  | m :: rest => if m.DisplayID = displayID then m.CopilotID else ToCopilotID rest displayID

/-- Data-model invariant of the mapping table: at most one mapping per upstream
id (`CopilotID`). -/
def UniqueUpstream (mappings : List ModelMapping) : Prop :=
  (mappings.map (fun m => m.CopilotID)).Nodup

/-- No two mappings share a display id. -/
def UniqueDisplay (mappings : List ModelMapping) : Prop :=
  (mappings.map (fun m => m.DisplayID)).Nodup

instance (mappings : List ModelMapping) : Decidable (UniqueUpstream mappings) := by
  unfold UniqueUpstream; infer_instance

instance (mappings : List ModelMapping) : Decidable (UniqueDisplay mappings) := by
  unfold UniqueDisplay; infer_instance

/-- The table of the C9 counterexample: two upstream ids share one display id. -/
def sharedDisplayTable : List ModelMapping :=
  [ { CopilotID := "gpt-4o", DisplayID := "default" },
    { CopilotID := "gpt-4.1", DisplayID := "default" } ]

/-- A table for the round-trip witnesses: distinct upstream ids and distinct
display ids. -/
def sampleTable : List ModelMapping :=
  [ { CopilotID := "gpt-4o", DisplayID := "fast" },
    { CopilotID := "claude-sonnet-4", DisplayID := "smart", DisplayName := "Smart" } ]


/-! ## store/account.go -/

structure Account where
  ID : String := ""
  Name : String := ""
  GithubToken : String := ""
  AccountType : String := ""
  ApiKey : String := ""
  Enabled : Bool := false
  CreatedAt : String := ""
  Priority : Int := 0
  deriving DecidableEq, Repr

/-- The function `GetEnabledAccounts`, over what `GetAccounts` returned: the
accounts of the file, or the error of reading it. -/
def GetEnabledAccounts (stored : Except String (List Account)) :
    Except String (List Account) :=
  match stored with
  | .error err => .error err
  | .ok accounts =>
    .ok (accounts.foldl (fun enabled a => if a.Enabled then enabled ++ [a] else enabled) [])

/-- The struct `PoolConfig`. -/
structure PoolConfig where
  Enabled : Bool := false
  Strategy : String := ""
  ApiKey : String := ""
  deriving DecidableEq, Repr

/-- The function `GetAccountByApiKey`, over what `GetAccounts` returned: the
first account with the key, `none` for the nil pointer, or the error. -/
def GetAccountByApiKey (stored : Except String (List Account)) (apiKey : String) :
    Except String (Option Account) :=
  match stored with
  | .error err => .error err
  | .ok accounts => .ok (accounts.find? (fun a => decide (a.ApiKey = apiKey)))

/-- The function `GetPoolConfig`, over the decoded content of the pool-config
file (`none` when the file cannot be read or decoded). The returned pointer is
never nil and the returned error is always nil. -/
def GetPoolConfig (stored : Option PoolConfig) : Option PoolConfig :=
  match stored with
  | none => some { Strategy := "round-robin" }
  | some cfg => if cfg.Strategy = "" then some { cfg with Strategy := "round-robin" } else some cfg

end Store

namespace Config

/-! ## config/config.go -/

structure ModelEntry where
  ID : String := ""
  Object : String := ""
  Created : Int := 0
  OwnedBy : String := ""
  deriving DecidableEq, Repr

structure ModelsResponse where
  Object : String := ""
  Data : List ModelEntry := []
  deriving DecidableEq, Repr

/-- The struct `State` without its lock. -/
structure State where
  GithubToken : String := ""
  CopilotToken : String := ""
  AccountType : String := ""
  Models : Option ModelsResponse := none
  VSCodeVersion : String := ""
  deriving DecidableEq, Repr

def NewState : State := {}

end Config

namespace Instance

open Store

/-! ## instance/manager.go: the instance -/

/-- A Go `chan struct{}` on which nothing is sent: the nil channel of a struct
literal that does not set it, a channel after `make`, or a closed channel. -/
inductive StopChan where
  | unmade
  | made
  | closed
  deriving DecidableEq, Repr

/-- The struct `ProxyInstance`. `State` is the state behind the pointer: every
instance that `StartInstance` builds has one. -/
structure ProxyInstance where
  Account : Store.Account := {}
  State : Config.State := {}
  Status : String := ""
  Error : String := ""
  stopChan : StopChan := .unmade
  deriving DecidableEq, Repr

/-! ## instance/load_balancer.go -/

/-- Go `inst, ok := instances[id]` on the registry `map[string]*ProxyInstance`. -/
def lookupInstance (instances : List (String × ProxyInstance)) (id : String) :
    Option ProxyInstance :=
  (instances.find? (fun p => decide (p.1 = id))).map Prod.snd

/-- Go `exclude != nil && exclude[id]` on a `map[string]bool` that may be nil. -/
def isExcluded (exclude : Option (List (String × Bool))) (id : String) : Bool :=
  match exclude with
  | none => false
  | some m =>
    match m.find? (fun p => decide (p.1 = id)) with
    | some p => p.2
    | none => false

/-- A Go `int64` after an operation that may overflow: the value modulo `2^64`
in the range from `-2^63` to `2^63 - 1`. -/
def wrapInt64 (x : Int) : Int :=
  (x + 2 ^ 63) % 2 ^ 64 - 2 ^ 63

/-- Go `accounts[i]` for an `int` index: the element, or `none` where Go panics
with an index out of range. -/
def indexAccounts (accounts : List Account) (i : Int) : Option Account :=
  if i < 0 then none else accounts[i.toNat]?

/-- The function `selectRoundRobin` for the counter value `rrIndex`: the new
counter value and the selected account; `none` stands for a run-time panic
(remainder by zero, or index out of range). -/
def selectRoundRobin (rrIndex : Int) (accounts : List Account) : Int × Option Account :=
  let added := wrapInt64 (rrIndex + 1)
  let idx := wrapInt64 (added - 1)
  (added,
    if accounts.length = 0 then none
    else indexAccounts accounts (Int.tmod idx (accounts.length : Int)))

/-- The function `selectByPriority`; `none` stands for the panic of
`accounts[0]` on an empty slice. -/
def selectByPriority (accounts : List Account) : Option Account :=
  match accounts with
  | [] => none
  | first :: rest =>
    some (rest.foldl (fun best a => if a.Priority > best.Priority then a else best) first)

/-- What a call of `SelectAccount` ends in. -/
inductive Selection where
  | failed (err : String)
  | noCandidate
  | selected (account : Account)
  | panicked
  deriving DecidableEq, Repr

/-- The filter loop of `SelectAccount` (lines 21-30). -/
def availableAccounts (instances : List (String × ProxyInstance))
    (exclude : Option (List (String × Bool))) (accounts : List Account) : List Account :=
  accounts.foldl
    (fun available a =>
      if isExcluded exclude a.ID then available
      else
        match lookupInstance instances a.ID with
        | some inst => if inst.Status = "running" then available ++ [a] else available
        | none => available)
    []

/-- A pointer result of a selector as the result of `SelectAccount`. -/
def selectionOf : Option Account → Selection
  | some a => .selected a
  | none => .panicked

/-- The function `SelectAccount`, over the stored accounts, the counter
`rrIndex` and the registry `instances`: the new counter value and the result. -/
def SelectAccount (stored : Except String (List Account)) (rrIndex : Int)
    (instances : List (String × ProxyInstance)) (strategy : String)
    (exclude : Option (List (String × Bool))) : Int × Selection :=
  match GetEnabledAccounts stored with
  | .error err => (rrIndex, .failed err)
  | .ok accounts =>
    let available := availableAccounts instances exclude accounts
    if available.length = 0 then (rrIndex, .noCandidate)
    else if strategy = "priority" then (rrIndex, selectionOf (selectByPriority available))
    else
      ((selectRoundRobin rrIndex available).1,
        selectionOf (selectRoundRobin rrIndex available).2)

/-- Successive calls of `selectRoundRobin` on one list: the accounts returned,
in call order. -/
def roundRobinCalls (accounts : List Account) : Int → Nat → List (Option Account)
  | _, 0 => []
  | rrIndex, n + 1 =>
    (selectRoundRobin rrIndex accounts).2 ::
      roundRobinCalls accounts (selectRoundRobin rrIndex accounts).1 n

/-- Three accounts for the selector witnesses. -/
def sampleAccounts : List Account :=
  [ { ID := "a", Enabled := true, Priority := 1 },
    { ID := "b", Enabled := true, Priority := 3 },
    { ID := "c", Enabled := true, Priority := 3 } ]

/-- An account that `SelectAccount` may return: enabled, not excluded, and with
a registered instance whose status is "running". -/
def Eligible (instances : List (String × ProxyInstance))
    (exclude : Option (List (String × Bool))) (a : Account) : Prop :=
  a.Enabled = true ∧ isExcluded exclude a.ID = false ∧
    ∃ inst, lookupInstance instances a.ID = some inst ∧ inst.Status = "running"

/-- A registry for the selector witnesses: "a" and "c" run, "b" is stopped. -/
def sampleInstances : List (String × ProxyInstance) :=
  [ ("a", { Status := "running" }), ("b", { Status := "stopped" }),
    ("c", { Status := "running" }) ]


/-! ## instance/manager.go -/

/-- Go `instances[id] = inst` on the registry: the entry of the key is replaced,
a new key is added. -/
def setInstance : List (String × ProxyInstance) → String → ProxyInstance →
    List (String × ProxyInstance)
  | [], id, inst => [(id, inst)]
  | p :: rest, id, inst =>
    if p.1 = id then (id, inst) :: rest else p :: setInstance rest id inst

/-- An assignment to fields of the instance behind the pointer `instances[id]`. -/
def updateInstance : List (String × ProxyInstance) → String →
    (ProxyInstance → ProxyInstance) → List (String × ProxyInstance)
  | [], _, _ => []
  | p :: rest, id, f =>
    if p.1 = id then (p.1, f p.2) :: rest else p :: updateInstance rest id f

/-- Go `close(ch)`; `none` stands for the panic on a nil or closed channel. -/
def closeChan : StopChan → Option StopChan
  | .made => some .closed
  | .unmade => none
  | .closed => none

/-- The function `refreshCopilotToken`: the state afterwards and the returned
error. `exchange` is what the request for a session token gave: the text of the
error, or the token of the decoded response. -/
def refreshCopilotToken (exchange : Except String String) (state : Config.State) :
    Config.State × Option String :=
  match exchange with
  | .error err => (state, some err)
  | .ok token => ({ state with CopilotToken := token }, none)

/-- The function `fetchModels`: the state afterwards and the returned error.
`fetch` is what the request and the decoding of its body gave: the text of the
error, or the decoded `models`. -/
def fetchModels (fetch : Except String Config.ModelsResponse) (state : Config.State) :
    Config.State × Option String :=
  match fetch with
  | .error err => (state, some err)
  | .ok models =>
    let models : Config.ModelsResponse :=
      if models.Object = "" then { models with Object := "list" } else models
    ({ state with Models := some models }, none)

/-- An upstream request made by the manager. -/
inductive Call where
  | vsCodeVersion
  | copilotToken
  | models
  deriving DecidableEq, Repr

/-- What a call of `StartInstance` leaves: the registry, the returned error and
the upstream requests it made, in order. -/
structure Started where
  instances : List (String × ProxyInstance)
  err : Option String
  calls : List Call
  deriving DecidableEq, Repr

/-- The function `StartInstance` on the registry `instances`. `vsVer` is what
`copilot.GetVSCodeVersion` returned; `exchange` and `fetch` are the results of
the two upstream requests, read only when the request is made. An instance with
a made `stopChan` has its `tokenRefreshLoop` started. -/
def StartInstance (vsVer : String) (exchange : Except String String)
    (fetch : Except String Config.ModelsResponse)
    (instances : List (String × ProxyInstance)) (account : Account) : Started :=
  let running : Bool :=
    match lookupInstance instances account.ID with
    | some inst => decide (inst.Status = "running")
    | none => false
  if running then { instances := instances, err := none, calls := [] }
  else
    let state0 : Config.State :=
      { Config.NewState with
          GithubToken := account.GithubToken, AccountType := account.AccountType }
    let state1 : Config.State := { state0 with VSCodeVersion := vsVer }
    match refreshCopilotToken exchange state1 with
    | (state2, some err) =>
      { instances :=
          setInstance instances account.ID
            { Account := account, State := state2, Status := "error", Error := err },
        err := some err,
        calls := [.vsCodeVersion, .copilotToken] }
    | (state2, none) =>
      let state3 := (fetchModels fetch state2).1
      { instances :=
          setInstance instances account.ID
            { Account := account, State := state3, Status := "running", stopChan := .made },
        err := none,
        calls := [.vsCodeVersion, .copilotToken, .models] }

/-- The function `StopInstance`; `none` stands for the panic of `close`. -/
def StopInstance (instances : List (String × ProxyInstance)) (accountID : String) :
    Option (List (String × ProxyInstance)) :=
  match lookupInstance instances accountID with
  | none => some instances
  | some inst =>
    if inst.Status = "running" then
      match closeChan inst.stopChan with
      | none => none
      | some ch =>
        some (updateInstance instances accountID
          (fun i => { i with stopChan := ch, Status := "stopped" }))
    else
      some (updateInstance instances accountID (fun i => { i with Status := "stopped" }))

/-- The case `<-ticker.C` of `tokenRefreshLoop` on the instance of the loop. -/
def refreshTick (exchange : Except String String)
    (fetch : Except String Config.ModelsResponse) (inst : ProxyInstance) : ProxyInstance :=
  match refreshCopilotToken exchange inst.State with
  | (state, some err) => { inst with State := state, Status := "error", Error := err }
  | (state, none) => { inst with State := (fetchModels fetch state).1 }

/-- A step of the manager: a call of `StartInstance`, a call of `StopInstance`,
or a tick in the refresh loop of the instance registered for an account, each
with the results of its upstream requests. -/
inductive Op where
  | start (vsVer : String) (exchange : Except String String)
      (fetch : Except String Config.ModelsResponse) (account : Account)
  | stop (accountID : String)
  | tick (accountID : String) (exchange : Except String String)
      (fetch : Except String Config.ModelsResponse)

/-- The registry after a step; `none` for a panic. A tick needs a loop, which
only an instance with a made `stopChan` has; after `close` the `select` of the
loop may still take a tick that is ready at the same time. The loop of an
instance that was replaced in the registry works on its own object, out of reach
of the registry, and is not a step here (`refreshTick` covers it). -/
def step (instances : List (String × ProxyInstance)) : Op →
    Option (List (String × ProxyInstance))
  | .start vsVer exchange fetch account =>
    some (StartInstance vsVer exchange fetch instances account).instances
  | .stop accountID => StopInstance instances accountID
  | .tick accountID exchange fetch =>
    match lookupInstance instances accountID with
    | none => some instances
    | some inst =>
      if inst.stopChan = .unmade then some instances
      else some (updateInstance instances accountID (refreshTick exchange fetch))

/-- Steps in sequence from a registry. -/
def run : List (String × ProxyInstance) → List Op → Option (List (String × ProxyInstance))
  | instances, [] => some instances
  | instances, op :: rest =>
    match step instances op with
    | none => none
    | some next => run next rest

/-- Status and error message of the instance registered for an account. -/
def statusOf (instances : List (String × ProxyInstance)) (id : String) :
    Option (String × String) :=
  (lookupInstance instances id).map (fun inst => (inst.Status, inst.Error))

/-- The session-token exchange of a step, if the step makes one for the account
`id`: a start of an account with that id that does not return early, or a tick
of a loop of that id. -/
def exchangeOf (instances : List (String × ProxyInstance)) (id : String) :
    Op → Option (Except String String)
  | .start vsVer exchange fetch account =>
    if account.ID = id ∧
        (StartInstance vsVer exchange fetch instances account).calls.contains .copilotToken
    then some exchange else none
  | .stop _ => none
  | .tick accountID exchange _ =>
    match lookupInstance instances accountID with
    | none => none
    | some inst => if accountID = id ∧ inst.stopChan ≠ .unmade then some exchange else none

/-- The step with another result of its model fetch. -/
def Op.withFetch (fetch : Except String Config.ModelsResponse) : Op → Op
  | .start vsVer exchange _ account => .start vsVer exchange fetch account
  | .stop accountID => .stop accountID
  | .tick accountID exchange _ => .tick accountID exchange fetch

/-- In every registry that the manager builds, an instance with status
"running" has a made, open `stopChan`. -/
def RunningOpen (instances : List (String × ProxyInstance)) : Prop :=
  ∀ p ∈ instances, p.2.Status = "running" → p.2.stopChan = .made

/-- An account for the manager examples. -/
def sampleAccount : Account :=
  { ID := "a", Name := "A", GithubToken := "gho_1", AccountType := "individual",
    ApiKey := "sk-a", Enabled := true }

end Instance

namespace Handler

/-! ## handler/proxy.go -/

/-- Go `strings.TrimPrefix`. The prefix used is ASCII, so characters stand for
bytes. -/
def TrimPrefix (s pre : String) : String :=
  if pre.data.isPrefixOf s.data then ⟨s.data.drop pre.data.length⟩ else s

/-- What `proxyAuth` leaves in the request context, or its rejection. -/
inductive AuthResult where
  | unauthorized (error : String)
  | pool (poolStrategy : String)
  | account (accountID : String)
  deriving DecidableEq, Repr

/-- The handler returned by `proxyAuth`, for the request headers `Authorization`
and `x-api-key` (empty when absent), over the stored pool configuration and
accounts. `unauthorized` is the abort with status 401, `pool` sets `isPool` to
true and `poolStrategy`, `account` sets `accountID` and `isPool` to false. -/
def proxyAuth (storedPool : Option Store.PoolConfig)
    (storedAccounts : Except String (List Store.Account))
    (authorization xApiKey : String) : AuthResult :=
  let authHeader : String :=
    if authorization = "" then
      if xApiKey ≠ "" then "Bearer " ++ xApiKey else authorization
    else authorization
  if authHeader = "" then .unauthorized "missing authorization"
  else
    let token := TrimPrefix authHeader "Bearer "
    let viaPool : Option String :=
      match Store.GetPoolConfig storedPool with
      | some poolCfg =>
        if poolCfg.Enabled = true ∧ poolCfg.ApiKey = token then some poolCfg.Strategy else none
      | none => none
    match viaPool with
    | some strategy => .pool strategy
    | none =>
      match Store.GetAccountByApiKey storedAccounts token with
      | .error _ => .unauthorized "invalid API key"
      | .ok none => .unauthorized "invalid API key"
      | .ok (some account) => .account account.ID

end Handler

namespace Anthropic

/-! ## anthropic/types.go: request and response payloads -/

structure ImageSource where
  Type_ : String := ""
  MediaType : String := ""
  Data : String := ""
  deriving DecidableEq, Repr

structure ContentBlock where
  Type_ : String := ""
  Text : String := ""
  Source : Option ImageSource := none
  ID : String := ""
  Name : String := ""
  Input : JSON := .null
  ToolUseID : String := ""
  Content2 : JSON := .null
  IsError : Bool := false
  Thinking : String := ""
  deriving DecidableEq, Repr

structure SystemBlock where
  Type_ : String := ""
  Text : String := ""
  deriving DecidableEq, Repr

structure AnthropicTool where
  Name : String := ""
  Description : String := ""
  InputSchema : JSON := .null
  deriving DecidableEq, Repr

structure Metadata where
  UserID : String := ""
  deriving DecidableEq, Repr

structure AnthropicMessage where
  Role : String := ""
  Content : JSON := .null
  deriving DecidableEq, Repr

structure AnthropicMessagesPayload where
  Model : String := ""
  Messages : List AnthropicMessage := []
  System : JSON := .null
  MaxTokens : Int := 0
  Temperature : Option Rat := none
  TopP : Option Rat := none
  TopK : Option Int := none
  Stream : Bool := false
  StopSequences : List String := []
  Tools : List AnthropicTool := []
  ToolChoice : JSON := .null
  Metadata : Option Metadata := none
  deriving DecidableEq, Repr

structure OpenAIImageURL where
  URL : String := ""
  Detail : String := ""
  deriving DecidableEq, Repr

structure OpenAIContentPart where
  Type_ : String := ""
  Text : String := ""
  ImageURL : Option OpenAIImageURL := none
  deriving DecidableEq, Repr

/-- The values that the request translator stores in `OpenAIMessage.Content`
(an `interface{}`): nothing, a string, a `[]interface{}` of content parts, or a
`[]OpenAIContentPart`. -/
inductive MessageContent where
  | absent
  | text (s : String)
  | parts (ps : List OpenAIContentPart)
  | contentParts (ps : List OpenAIContentPart)
  deriving DecidableEq, Repr

structure OpenAIMessage where
  Role : String := ""
  Content : MessageContent := .absent
  Name : String := ""
  ToolCalls : List ToolCall := []
  ToolCallID : String := ""
  deriving DecidableEq, Repr

structure OpenAIFunction where
  Name : String := ""
  Description : String := ""
  Parameters : JSON := .null
  deriving DecidableEq, Repr

structure OpenAITool where
  Type_ : String := ""
  Function : OpenAIFunction := {}
  deriving DecidableEq, Repr

structure StreamOptions where
  IncludeUsage : Bool := false
  deriving DecidableEq, Repr

structure ChatCompletionsPayload where
  Model : String := ""
  Messages : List OpenAIMessage := []
  MaxTokens : Int := 0
  MaxCompletionTokens : Int := 0
  Temperature : Option Rat := none
  TopP : Option Rat := none
  Stream : Bool := false
  StreamOptions : Option StreamOptions := none
  Stop : Option (List String) := none
  Tools : List OpenAITool := []
  ToolChoice : JSON := .null
  N : Int := 0
  deriving DecidableEq, Repr

/-! ## anthropic/translate_request.go -/

/-- The loop that collects `m["text"].(string)` over the items that are maps
(lines 78-85 and 274-281). -/
def collectTexts (items : List JSON) : List String :=
  items.foldl
    (fun parts item =>
      match item with
      | .obj m =>
        match JSON.asString (JSON.lookup m "text") with
        | some t => parts ++ [t]
        | none => parts
      | _ => parts)
    []

/-- The function `extractSystemText`. In the default branch the value is a
`nil`, a `bool`, a `float64` or a map: `json.Marshal` succeeds, and
`json.Unmarshal` into `[]SystemBlock` succeeds only on `null`, with no block. -/
def extractSystemText (marshal : JSON → String) (system : JSON) : String :=
  match system with
  | .str v => v
  | .arr v => "\n".intercalate (collectTexts v)
  | .null => "\n".intercalate []
  | v => marshal v

/-- The function `extractToolResultContent`. -/
def extractToolResultContent (marshal : JSON → String) (block : ContentBlock) : String :=
  match block.Content2 with
  | .null => ""
  | .str v => v
  | .arr v => "\n".intercalate (collectTexts v)
  | v => marshal v

/-- The function `convertToolChoice`. -/
def convertToolChoice (tc : JSON) : JSON :=
  match tc with
  | .str v =>
    if v = "auto" then .str "auto"
    else if v = "any" then .str "required"
    else if v = "none" then .str "none"
    else .str "auto"
  | .obj v =>
    let t : String := (JSON.asString (JSON.lookup v "type")).getD ""
    if t = "auto" then .str "auto"
    else if t = "any" then .str "required"
    else if t = "none" then .str "none"
    else if t = "tool" then
      let name : String := (JSON.asString (JSON.lookup v "name")).getD ""
      .obj [("type", .str "function"), ("function", .obj [("name", .str name)])]
    else .str "auto"
  | _ => .str "auto"

/-- The function `parseContentBlocks`; `unmarshalBlocks` stands for
`json.Unmarshal(json.Marshal(content), &blocks)`, with `none` for an error. -/
def parseContentBlocks (unmarshalBlocks : JSON → Option (List ContentBlock))
    (content : JSON) : List ContentBlock :=
  match unmarshalBlocks content with
  | some blocks => blocks
  | none => []

/-- Body of the loop of `convertAssistantMessage` on `textParts`, `toolCalls`. -/
def assistantStep (marshal : JSON → String) (acc : List String × List ToolCall)
    (block : ContentBlock) : List String × List ToolCall :=
  if block.Type_ = "text" then (acc.1 ++ [block.Text], acc.2)
  else if block.Type_ = "thinking" then
    if block.Thinking ≠ "" then (acc.1 ++ [block.Thinking], acc.2) else acc
  else if block.Type_ = "tool_use" then
    (acc.1,
      acc.2 ++ [{ ID := block.ID, Type_ := "function",
                  Function := { Name := block.Name, Arguments := marshal block.Input } }])
  else acc

/-- The function `convertAssistantMessage`. -/
def convertAssistantMessage (marshal : JSON → String) (blocks : List ContentBlock) :
    List OpenAIMessage :=
  let acc := blocks.foldl (assistantStep marshal) ([], [])
  let msg : OpenAIMessage := { Role := "assistant" }
  let msg : OpenAIMessage :=
    if acc.1.length > 0 then { msg with Content := .text ("\n".intercalate acc.1) } else msg
  let msg : OpenAIMessage :=
    if acc.2.length > 0 then { msg with ToolCalls := acc.2 } else msg
  [msg]

/-- The `data:` URI of an image source (`fmt.Sprintf("data:%s;base64,%s", ...)`). -/
def dataURI (source : ImageSource) : String :=
  "data:" ++ source.MediaType ++ ";base64," ++ source.Data

/-- Body of the loop of lines 198-216 on `contentParts`. -/
def userPartStep (contentParts : List OpenAIContentPart) (block : ContentBlock) :
    List OpenAIContentPart :=
  if block.Type_ = "text" then contentParts ++ [{ Type_ := "text", Text := block.Text }]
  else if block.Type_ = "image" then
    match block.Source with
    | some source =>
      contentParts ++ [{ Type_ := "image_url", ImageURL := some { URL := dataURI source } }]
    | none => contentParts
  else contentParts

/-- Body of the loop of lines 234-262 on `result`. -/
def userSplitStep (marshal : JSON → String) (result : List OpenAIMessage)
    (block : ContentBlock) : List OpenAIMessage :=
  if block.Type_ = "tool_result" then
    result ++ [{ Role := "tool", Content := .text (extractToolResultContent marshal block),
                 ToolCallID := block.ToolUseID }]
  else if block.Type_ = "text" then
    result ++ [{ Role := "user", Content := .text block.Text }]
  else if block.Type_ = "image" then
    match block.Source with
    | some source =>
      result ++ [{ Role := "user",
                   Content := .contentParts
                     [{ Type_ := "image_url", ImageURL := some { URL := dataURI source } }] }]
    | none => result
  else result

/-- The function `convertUserMessage`. -/
def convertUserMessage (marshal : JSON → String) (blocks : List ContentBlock) :
    List OpenAIMessage :=
  let hasToolResults : Bool :=
    blocks.foldl (fun has block => if block.Type_ = "tool_result" then true else has) false
  if hasToolResults = false then
    let contentParts := blocks.foldl userPartStep []
    match contentParts with
    | [tp] =>
      if tp.Type_ = "text" then [{ Role := "user", Content := .text tp.Text }]
      else [{ Role := "user", Content := .parts contentParts }]
    | _ => [{ Role := "user", Content := .parts contentParts }]
  else blocks.foldl (userSplitStep marshal) []

/-- The function `convertMessage`. -/
def convertMessage (marshal : JSON → String)
    (unmarshalBlocks : JSON → Option (List ContentBlock)) (msg : AnthropicMessage) :
    List OpenAIMessage :=
  match msg.Content with
  | .str str => [{ Role := msg.Role, Content := .text str }]
  | content =>
    let blocks := parseContentBlocks unmarshalBlocks content
    if blocks.length = 0 then [{ Role := msg.Role, Content := .text "" }]
    else if msg.Role = "assistant" then convertAssistantMessage marshal blocks
    else if msg.Role = "user" then convertUserMessage marshal blocks
    else
      let texts := blocks.foldl
        (fun texts b => if b.Type_ = "text" then texts ++ [b.Text] else texts) []
      [{ Role := msg.Role, Content := .text ("\n".intercalate texts) }]

/-- Lines 33-42 of `TranslateToOpenAI`: the messages before the loop. -/
def systemMessages (marshal : JSON → String) (system : JSON) : List OpenAIMessage :=
  if system ≠ .null then
    let systemText := extractSystemText marshal system
    if systemText ≠ "" then [{ Role := "system", Content := .text systemText }] else []
  else []

/-- The function `TranslateToOpenAI`; `mappings` is the table that
`store.ToCopilotID` reads. -/
def TranslateToOpenAI (mappings : List Store.ModelMapping) (marshal : JSON → String)
    (unmarshalBlocks : JSON → Option (List ContentBlock))
    (payload : AnthropicMessagesPayload) : ChatCompletionsPayload :=
  let result : ChatCompletionsPayload :=
    { Model := Store.ToCopilotID mappings payload.Model,
      Stream := payload.Stream,
      Temperature := payload.Temperature,
      TopP := payload.TopP }
  let result : ChatCompletionsPayload :=
    if payload.MaxTokens > 0 then { result with MaxTokens := payload.MaxTokens } else result
  let result : ChatCompletionsPayload :=
    if payload.Stream = true then
      { result with StreamOptions := some { IncludeUsage := true } }
    else result
  let result : ChatCompletionsPayload :=
    if payload.StopSequences.length > 0 then
      { result with Stop := some payload.StopSequences }
    else result
  let messages : List OpenAIMessage :=
    payload.Messages.foldl
      (fun messages msg => messages ++ convertMessage marshal unmarshalBlocks msg)
      (systemMessages marshal payload.System)
  let result : ChatCompletionsPayload := { result with Messages := messages }
  let result : ChatCompletionsPayload :=
    if payload.Tools.length > 0 then
      { result with
          Tools := payload.Tools.foldl
            (fun tools tool =>
              tools ++ [{ Type_ := "function",
                          Function := { Name := tool.Name, Description := tool.Description,
                                        Parameters := tool.InputSchema } }])
            result.Tools }
    else result
  if payload.ToolChoice ≠ .null then
    { result with ToolChoice := convertToolChoice payload.ToolChoice }
  else result

/-! ## anthropic/translate_response.go -/

/-- The function `parseJSONSafe`; `unmarshal` stands for `json.Unmarshal` into an
`interface{}`, with `none` for an error. -/
def parseJSONSafe (unmarshal : String → Option JSON) (s : String) : JSON :=
  match unmarshal s with
  | some result => result
  | none => .obj []

/-- Body of the loop over `msg.ToolCalls` (lines 30-42) on `content`. -/
def responseToolStep (unmarshal : String → Option JSON)
    (content : List AnthropicContentBlock) (tc : ToolCall) : List AnthropicContentBlock :=
  let input : JSON :=
    if tc.Function.Arguments ≠ "" then parseJSONSafe unmarshal tc.Function.Arguments
    else .null
  content ++ [{ Type_ := "tool_use", ID := tc.ID, Name := tc.Function.Name, Input := input }]

/-- Body of the loop over `resp.Choices` (lines 13-43) on `content` and
`stopReason`. -/
def responseChoiceStep (unmarshal : String → Option JSON)
    (acc : List AnthropicContentBlock × String) (choice : Choice) :
    List AnthropicContentBlock × String :=
  match choice.Message with
  | none => acc
  | some msg =>
    let stopReason : String :=
      match choice.FinishReason with
      | some r => MapOpenAIStopReasonToAnthropic r
      | none => acc.2
    let content : List AnthropicContentBlock :=
      if msg.Content ≠ "" then acc.1 ++ [{ Type_ := "text", Text := msg.Content }] else acc.1
    (msg.ToolCalls.foldl (responseToolStep unmarshal) content, stopReason)

/-- The function `TranslateToAnthropic`. -/
def TranslateToAnthropic (unmarshal : String → Option JSON) (now : Int)
    (resp : ChatCompletionResponse) : AnthropicResponse :=
  let acc := resp.Choices.foldl (responseChoiceStep unmarshal) ([], "end_turn")
  let content : List AnthropicContentBlock :=
    if acc.1.length = 0 then acc.1 ++ [{ Type_ := "text", Text := "" }] else acc.1
  let usage : AnthropicUsage :=
    match resp.Usage with
    | some u =>
      let usage : AnthropicUsage :=
        { InputTokens := u.PromptTokens, OutputTokens := u.CompletionTokens }
      match u.PromptTokensDetails with
      | some d => { usage with CacheReadInputTokens := d.CachedTokens }
      | none => usage
    | none => {}
  let id : String := if resp.ID = "" then "msg_" ++ toString now else resp.ID
  { ID := id, Type_ := "message", Role := "assistant", Content := content,
    Model := resp.Model, StopReason := acc.2, Usage := usage }


/-! ## Request and response translators: what the properties speak of -/

/-- The text of an item of a JSON sequence: the string under "text" of an item
that is an object. -/
def textOfItem : JSON → Option String
  | .obj m => JSON.asString (JSON.lookup m "text")
  | _ => none

/-- A `{type, text}` block as a JSON value. -/
def SystemBlock.toJSON (b : SystemBlock) : JSON :=
  .obj [("type", .str b.Type_), ("text", .str b.Text)]

/-- The flattened content of a tool result: the string itself, the text parts
of a sequence joined by newlines, nothing when there is no content, and the JSON
text of any other value. -/
def flattenedResult (marshal : JSON → String) : JSON → String
  | .str s => s
  | .arr items => "\n".intercalate (items.filterMap textOfItem)
  | .null => ""
  | v => marshal v

/-- The `image_url` part of an image source. -/
def imagePart (source : ImageSource) : OpenAIContentPart :=
  { Type_ := "image_url",
    ImageURL := some { URL := "data:" ++ source.MediaType ++ ";base64," ++ source.Data } }

/-- The messages that one block of a user message with tool results gives. -/
def userBlockMessages (marshal : JSON → String) (block : ContentBlock) :
    List OpenAIMessage :=
  if block.Type_ = "tool_result" then
    [{ Role := "tool", Content := .text (flattenedResult marshal block.Content2),
       ToolCallID := block.ToolUseID }]
  else if block.Type_ = "text" then [{ Role := "user", Content := .text block.Text }]
  else if block.Type_ = "image" then
    match block.Source with
    | some source => [{ Role := "user", Content := .contentParts [imagePart source] }]
    | none => []
  else []

/-- The content parts that one block of a user message without tool results
gives. -/
def userBlockParts (block : ContentBlock) : List OpenAIContentPart :=
  if block.Type_ = "text" then [{ Type_ := "text", Text := block.Text }]
  else if block.Type_ = "image" then
    match block.Source with
    | some source => [imagePart source]
    | none => []
  else []

/-- The text parts of an assistant message as the code joins them: the text of
a text block, the thinking of a thinking block when it is not empty. -/
def assistantBlockTexts (block : ContentBlock) : List String :=
  if block.Type_ = "text" then [block.Text]
  else if block.Type_ = "thinking" then
    if block.Thinking = "" then [] else [block.Thinking]
  else []

/-- The text parts of an assistant message with the thinking of every thinking
block, empty or not. -/
def assistantBlockTextsAll (block : ContentBlock) : List String :=
  if block.Type_ = "text" then [block.Text]
  else if block.Type_ = "thinking" then [block.Thinking]
  else []

/-- The tool call of a `tool_use` block. -/
def toolCallOfBlock (marshal : JSON → String) (block : ContentBlock) : ToolCall :=
  { ID := block.ID, Type_ := "function",
    Function := { Name := block.Name, Arguments := marshal block.Input } }

/-- The structured content of a message: the blocks that `convertMessage`
parses, none for a string content. -/
def messageBlocks (unmarshalBlocks : JSON → Option (List ContentBlock))
    (msg : AnthropicMessage) : List ContentBlock :=
  match msg.Content with
  | .str _ => []
  | content => parseContentBlocks unmarshalBlocks content

/-- The `tool_result` blocks of all messages of a payload, in order. -/
def toolResultBlocks (unmarshalBlocks : JSON → Option (List ContentBlock))
    (payload : AnthropicMessagesPayload) : List ContentBlock :=
  payload.Messages.flatMap
    (fun msg => (messageBlocks unmarshalBlocks msg).filter
      (fun b => decide (b.Type_ = "tool_result")))

/-- The elements of a structured message content as the client sent it: the
items of a JSON array; a content of another kind has none. -/
def contentItems : JSON → List JSON
  | .arr items => items
  | _ => []

/-- A field of an element of a content, `null` when the element is no object or
has no such field. -/
def itemField (item : JSON) (key : String) : JSON :=
  match item with
  | .obj fields => (JSON.lookup fields key).getD .null
  | _ => .null

/-- A string field of an element of a content, empty when it is absent or no
string. -/
def itemString (item : JSON) (key : String) : String :=
  (JSON.asString (some (itemField item key))).getD ""

/-- The element `item` is a `tool_result` block. -/
def isToolResultItem (item : JSON) : Bool :=
  decide (itemString item "type" = "tool_result")

/-- The `tool_result` elements of the structured contents of the role "user"
messages of a payload, in order, for the messages whose content `json.Unmarshal`
decodes without error. -/
def userToolResultItems (unmarshalBlocks : JSON → Option (List ContentBlock))
    (payload : AnthropicMessagesPayload) : List JSON :=
  payload.Messages.flatMap
    (fun msg =>
      if msg.Role = "user" ∧ (unmarshalBlocks msg.Content).isSome = true then
        (contentItems msg.Content).filter isToolResultItem
      else [])

/-- The role "tool" message of a `tool_result` element. -/
def toolMessageOfItem (marshal : JSON → String) (item : JSON) : OpenAIMessage :=
  { Role := "tool", Content := .text (flattenedResult marshal (itemField item "content")),
    ToolCallID := itemString item "tool_use_id" }

/-- The block `b` carries the type, the tool-use id and the content of the
element `item`. -/
def ReadsItem (item : JSON) (b : ContentBlock) : Prop :=
  b.Type_ = itemString item "type" ∧ b.ToolUseID = itemString item "tool_use_id" ∧
    b.Content2 = itemField item "content"

/-- What `json.Unmarshal` into `[]ContentBlock` does when it succeeds on the
content of a role "user" message of the payload: one block per element, with the
type, tool-use id and content of the element. It holds of `json.Unmarshal` on
elements that spell their keys as the struct tags do. -/
def DecodesItems (unmarshalBlocks : JSON → Option (List ContentBlock))
    (payload : AnthropicMessagesPayload) : Prop :=
  ∀ m ∈ payload.Messages, m.Role = "user" → (∀ s, m.Content ≠ .str s) →
    ∀ blocks, unmarshalBlocks m.Content = some blocks →
      List.Forall₂ ReadsItem (contentItems m.Content) blocks

/-- The role "tool" messages of a translated payload, in order. -/
def toolMessages (out : ChatCompletionsPayload) : List OpenAIMessage :=
  out.Messages.filter (fun m => decide (m.Role = "tool"))

/-- The blocks that one choice of a unary response gives: a text block for a
non-empty content, then one `tool_use` block per tool call. -/
def choiceBlocks (unmarshal : String → Option JSON) (choice : Choice) :
    List AnthropicContentBlock :=
  match choice.Message with
  | none => []
  | some msg =>
    (if msg.Content = "" then [] else [{ Type_ := "text", Text := msg.Content }]) ++
    msg.ToolCalls.map
      (fun tc =>
        { Type_ := "tool_use", ID := tc.ID, Name := tc.Function.Name,
          Input := if tc.Function.Arguments = "" then .null
                   else parseJSONSafe unmarshal tc.Function.Arguments })

/-- Stand-in for `json.Marshal` in examples that never call it. -/
def marshalUnused : JSON → String := fun _ => ""

/-- A string field of a JSON object read into a struct field: absent or `null`
leaves the zero value, another type is an error. -/
def decodeStringField (fields : List (String × JSON)) (key : String) : Option String :=
  match JSON.lookup fields key with
  | none => some ""
  | some .null => some ""
  | some (.str s) => some s
  | some _ => none

/-- A bool field of a JSON object read into a struct field: absent or `null`
leaves `false`, another type is an error. -/
def decodeBoolField (fields : List (String × JSON)) (key : String) : Option Bool :=
  match JSON.lookup fields key with
  | none => some false
  | some .null => some false
  | some (.bool b) => some b
  | some _ => none

/-- The field `source` read into `*ImageSource`: absent or `null` leaves nil, an
object is read field by field, another type is an error. -/
def decodeSource (fields : List (String × JSON)) : Option (Option ImageSource) :=
  match JSON.lookup fields "source" with
  | none => some none
  | some .null => some none
  | some (.obj src) =>
    match decodeStringField src "type", decodeStringField src "media_type",
      decodeStringField src "data" with
    | some type, some mediaType, some data =>
      some (some { Type_ := type, MediaType := mediaType, Data := data })
    | _, _, _ => none
  | some _ => none

/-- One element of a JSON array read into a `ContentBlock`: every field of the
struct (`type`, `text`, `source`, `id`, `name`, `input`, `tool_use_id`,
`content`, `is_error`, `thinking`), for elements that spell their keys as the
struct tags do; `null` gives the zero block, an element that is no object or a
field of the wrong kind is an error. -/
def decodeContentBlock : JSON → Option ContentBlock
  | .null => some {}
  | .obj fields =>
    match decodeStringField fields "type", decodeStringField fields "text",
      decodeSource fields,
      decodeStringField fields "id", decodeStringField fields "name",
      decodeStringField fields "tool_use_id", decodeBoolField fields "is_error",
      decodeStringField fields "thinking" with
    | some type, some text, some source, some id, some name, some toolUseID, some isError,
        some thinking =>
      some { Type_ := type, Text := text, Source := source, ID := id, Name := name,
             Input := (JSON.lookup fields "input").getD .null,
             ToolUseID := toolUseID,
             Content2 := (JSON.lookup fields "content").getD .null,
             IsError := isError,
             Thinking := thinking }
    | _, _, _, _, _, _, _, _ => none
  | _ => none

/-- A decoder of content blocks for the examples: `null` gives no block, an
array is read element by element, anything else is an error. -/
def decodeContentBlocks : JSON → Option (List ContentBlock)
  | .null => some []
  | .arr items => items.mapM decodeContentBlock
  | _ => none

/-- Payload of the C14 counterexample: one assistant message whose content is
`[{"type":"tool_result","tool_use_id":"t1","content":"42"}]`. -/
def assistantToolResultPayload : AnthropicMessagesPayload :=
  { Messages :=
      [ { Role := "assistant",
          Content := .arr [ .obj [("type", .str "tool_result"),
                                  ("tool_use_id", .str "t1"), ("content", .str "42")] ] } ] }

/-- A payload with one user message whose content holds a tool result for "t1"
and a text block whose `text` is the number 5: `json.Unmarshal` fails on it. -/
def malformedSiblingPayload : AnthropicMessagesPayload :=
  { Messages :=
      [ { Role := "user",
          Content := .arr [ .obj [("type", .str "tool_result"),
                                  ("tool_use_id", .str "t1"), ("content", .str "42")],
                            .obj [("type", .str "text"), ("text", .number 5)] ] } ] }

/-- A payload with one user message that carries the S3 blocks. -/
def s3Payload : AnthropicMessagesPayload :=
  { Messages :=
      [ { Role := "user",
          Content := .arr [ .obj [("type", .str "tool_result"),
                                  ("tool_use_id", .str "t1"), ("content", .str "42")],
                            .obj [("type", .str "text"), ("text", .str "done")] ] } ] }

/-- The S3 blocks: a tool result "42" for "t1", then the text "done". -/
def s3Blocks : List ContentBlock :=
  [ { Type_ := "tool_result", ToolUseID := "t1", Content2 := .str "42" },
    { Type_ := "text", Text := "done" } ]

/-- Blocks of the C19 counterexample: a thinking block without thinking between
two text blocks. -/
def emptyThinkingBlocks : List ContentBlock :=
  [ { Type_ := "text", Text := "a" }, { Type_ := "thinking", Thinking := "" },
    { Type_ := "text", Text := "b" } ]

/-- A PNG image source. -/
def pngSource : ImageSource :=
  { Type_ := "base64", MediaType := "image/png", Data := "AAA" }

/-- Two blocks without tool result: a text and a PNG image. -/
def textAndImageBlocks : List ContentBlock :=
  [ { Type_ := "text", Text := "look" }, { Type_ := "image", Source := some pngSource } ]

/-- A payload whose system prompt is two `{type, text}` blocks. -/
def systemBlocksPayload : AnthropicMessagesPayload :=
  { System := .arr [ SystemBlock.toJSON { Type_ := "text", Text := "You are terse." },
                     SystemBlock.toJSON { Type_ := "text", Text := "Answer in French." } ],
    Messages := [ { Role := "user", Content := .str "hi" } ] }

/-- A payload without system field whose only message has the role "system". -/
def systemRolePayload : AnthropicMessagesPayload :=
  { Messages := [ { Role := "system", Content := .str "be brief" } ] }

/-- A payload with the empty string as system field and a message with the role
"system" and the empty content. -/
def emptySystemPayload : AnthropicMessagesPayload :=
  { System := .str "", Messages := [ { Role := "system", Content := .str "" } ] }


/-! ## Stream translator: the deltas of one choice -/

/-- Lines 81-159 of `TranslateChunkToAnthropicEvents` for one choice: its text
delta, then its tool-call entries; nothing for a nil delta. The finish reason of
the choice is looked at after them. -/
def deltaSteps (c : Cfg) (choice : Choice) : Cfg :=
  match choice.Delta with
  | none => c
  | some delta => delta.ToolCalls.foldl toolCallStep (textStep c delta.Content)

/-- The `content_block_delta` event of a text fragment. -/
def textDeltaEvent (index : Int) (text : String) : StreamEvent :=
  { Event := "content_block_delta",
    Data := .contentBlockDelta
      { Type_ := "content_block_delta", Index := index,
        Delta := { Type_ := "text_delta", Text := text } } }

/-- The `content_block_start` event of a text block. -/
def textStartEvent (index : Int) : StreamEvent :=
  { Event := "content_block_start",
    Data := .contentBlockStart
      { Type_ := "content_block_start", Index := index,
        ContentBlock := { Type_ := "text", Text := "" } } }

/-- The `content_block_stop` event. -/
def blockStopEvent (index : Int) : StreamEvent :=
  { Event := "content_block_stop",
    Data := .contentBlockStop { Type_ := "content_block_stop", Index := index } }

/-- The last `content_block_start` of the events is of type `text` and no
`content_block_stop` comes after it. -/
def TextBlockOpen (evs : List StreamEvent) : Prop :=
  ∃ pre s suf, evs = pre ++ s :: suf ∧ s.Event = "content_block_start" ∧
    s.blockType = some "text" ∧
    ∀ e ∈ suf, e.Event ≠ "content_block_start" ∧ e.Event ≠ "content_block_stop"

/-- A stream with a tool call first and a text delta after it. -/
def toolThenTextChunks : List ChatCompletionResponse :=
  [ { ID := "c", Model := "m",
      Choices := [{ Delta := some { ToolCalls :=
        [{ Index := some 0, ID := "t1", Function := { Name := "f", Arguments := "\x7b\x7d" } }] } }] },
    { Choices := [{ Delta := some { Content := "A" } }] } ]

/-- A first chunk that carries usage. -/
def usageFirstChunk : ChatCompletionResponse :=
  { ID := "c", Model := "m", Choices := [{ Delta := some { Content := "A" } }],
    Usage := some { PromptTokens := 7, CompletionTokens := 2, TotalTokens := 9 } }

/-- The `message_start` event of a stream from `NewStreamState` whose first
chunk is `chunk`. -/
def firstMessageStart (now : Int) (chunk : ChatCompletionResponse) : StreamEvent :=
  { Event := "message_start",
    Data := .messageStart
      { Type_ := "message_start",
        Message :=
          { ID := if chunk.ID = "" then "msg_" ++ toString now else chunk.ID,
            Type_ := "message", Role := "assistant", Model := chunk.Model, Content := [],
            Usage := { InputTokens := 0, OutputTokens := 0 } } } }

/-- The `message_start` events of a stream are all the event `m`. -/
def OnlyStart (m : StreamEvent) (c : Cfg) : Prop :=
  c.1.MessageStartSent = true ∧ ∀ e ∈ c.2, e.Event = "message_start" → e = m

/-! ## Response translator: examples -/

/-- Stand-in for `json.Unmarshal` in examples: it decodes the two texts used
there and, as `json.Unmarshal` does, fails on the empty text and on `oops`. -/
def unmarshalSample (s : String) : Option JSON :=
  if s = "\x7b\x7d" then some (.obj [])
  else if s = "\x7b\"x\":1\x7d" then some (.obj [("x", .number 1)])
  else none

/-- The upstream response of scenario S1. -/
def s1Response : ChatCompletionResponse :=
  { ID := "x", Model := "gpt-4o",
    Choices := [{ Message := some { Content := "hello" }, FinishReason := some "stop" }],
    Usage := some { PromptTokens := 1, CompletionTokens := 1, TotalTokens := 0 } }

/-- Three tool calls: arguments that parse, the empty string, and text that is
not JSON. -/
def sampleToolCalls : List ToolCall :=
  [ { ID := "t1", Function := { Name := "f", Arguments := "\x7b\"x\":1\x7d" } },
    { ID := "t2", Function := { Name := "g", Arguments := "" } },
    { ID := "t3", Function := { Name := "h", Arguments := "oops" } } ]

/-- A response whose only choice carries `sampleToolCalls`. -/
def toolCallsResponse : ChatCompletionResponse :=
  { ID := "x", Model := "gpt-4o",
    Choices := [{ Message := some { ToolCalls := sampleToolCalls },
                  FinishReason := some "tool_calls" }] }

/-- The tool calls of one choice of a unary response, none without a message. -/
def choiceToolCalls (choice : Choice) : List ToolCall :=
  match choice.Message with
  | none => []
  | some msg => msg.ToolCalls

/-- The `tool_use` blocks of a response content. -/
def toolUseBlocks (content : List AnthropicContentBlock) : List AnthropicContentBlock :=
  content.filter (fun b => decide (b.Type_ = "tool_use"))

end Anthropic

/-! # Part II: theorems -/

namespace Anthropic

/-- C7: `MapOpenAIStopReasonToAnthropic` maps "stop" to "end_turn", "length" to
"max_tokens", "tool_calls" to "tool_use", "content_filter" to "end_turn", and
every other string to "end_turn". -/
theorem mapStopReason_table :
    MapOpenAIStopReasonToAnthropic "stop" = "end_turn" ∧
    MapOpenAIStopReasonToAnthropic "length" = "max_tokens" ∧
    MapOpenAIStopReasonToAnthropic "tool_calls" = "tool_use" ∧
    MapOpenAIStopReasonToAnthropic "content_filter" = "end_turn" ∧
    ∀ reason : String, reason ≠ "stop" → reason ≠ "length" → reason ≠ "tool_calls" →
      reason ≠ "content_filter" → MapOpenAIStopReasonToAnthropic reason = "end_turn" := by
  refine ⟨by decide, by decide, by decide, by decide, ?_⟩
  intro reason h1 h2 h3 h4
  simp [MapOpenAIStopReasonToAnthropic, h1, h2, h3, h4]

/-- The default branch of C7 at the reason "function_call". -/
theorem mapStopReason_table_witness :
    "function_call" ≠ "stop" ∧ "function_call" ≠ "length" ∧
    "function_call" ≠ "tool_calls" ∧ "function_call" ≠ "content_filter" ∧
    MapOpenAIStopReasonToAnthropic "function_call" = "end_turn" :=
  ⟨by decide, by decide, by decide, by decide,
    mapStopReason_table.2.2.2.2 "function_call" (by decide) (by decide) (by decide) (by decide)⟩

/-- C8 as stated fails: on "length" the second application gives "end_turn",
not "max_tokens". -/
theorem mapStopReason_twice_length :
    MapOpenAIStopReasonToAnthropic (MapOpenAIStopReasonToAnthropic "length") ≠
      MapOpenAIStopReasonToAnthropic "length" := by
  decide

/-- C8 amended: applying the finish-reason map twice always gives "end_turn";
so the second application changes nothing exactly for the inputs other than
"length" and "tool_calls", among them "stop" and "content_filter". -/
theorem mapStopReason_twice (x : String) :
    MapOpenAIStopReasonToAnthropic (MapOpenAIStopReasonToAnthropic x) = "end_turn" ∧
    (MapOpenAIStopReasonToAnthropic (MapOpenAIStopReasonToAnthropic x) =
        MapOpenAIStopReasonToAnthropic x ↔ (x ≠ "length" ∧ x ≠ "tool_calls")) ∧
    MapOpenAIStopReasonToAnthropic (MapOpenAIStopReasonToAnthropic "stop") =
      MapOpenAIStopReasonToAnthropic "stop" ∧
    MapOpenAIStopReasonToAnthropic (MapOpenAIStopReasonToAnthropic "content_filter") =
      MapOpenAIStopReasonToAnthropic "content_filter" := by
  refine ⟨?_, ?_, by decide, by decide⟩
  · have h : MapOpenAIStopReasonToAnthropic x = "end_turn" ∨
        MapOpenAIStopReasonToAnthropic x = "max_tokens" ∨
        MapOpenAIStopReasonToAnthropic x = "tool_use" := by
      unfold MapOpenAIStopReasonToAnthropic
      split_ifs <;> simp
    rcases h with h | h | h <;> rw [h] <;> decide
  · unfold MapOpenAIStopReasonToAnthropic
    by_cases h2 : x = "length"
    · subst h2; decide
    · by_cases h3 : x = "tool_calls"
      · subst h3; decide
      · simp [h2, h3]

/-! ## The calls as runs of actions -/

theorem toolCallStep_eq (c : Cfg) (tc : ToolCall) :
    toolCallStep c tc = (actionsOfToolCall tc).foldl perform c := by
  unfold toolCallStep actionsOfToolCall
  by_cases h1 : tc.ID = "" <;> by_cases h2 : tc.Function.Arguments = "" <;>
    simp [h1, h2, perform, toolStartStep, toolArgumentsStep, toolCallIndex]

theorem foldl_toolCallStep_eq (tcs : List ToolCall) (c : Cfg) :
    tcs.foldl toolCallStep c = (tcs.flatMap actionsOfToolCall).foldl perform c := by
  induction tcs generalizing c with
  | nil => rfl
  | cons tc r ih =>
    simp only [List.foldl_cons, List.flatMap_cons, List.foldl_append, ih, toolCallStep_eq]

theorem finishStep_eq (c : Cfg) (fr : Option String) :
    finishStep c fr = (actionsOfFinish fr).foldl perform c := by
  cases fr <;> simp [finishStep, actionsOfFinish, perform]

theorem choiceStep_eq (c : Cfg) (choice : Choice) :
    choiceStep c choice = (actionsOfChoice choice).foldl perform c := by
  unfold choiceStep actionsOfChoice
  cases hd : choice.Delta with
  | none => simp [finishStep_eq]
  | some delta =>
    by_cases h1 : delta.Content = ""
    · simp [h1, finishStep_eq, foldl_toolCallStep_eq, List.foldl_append, textStep]
    · simp [h1, finishStep_eq, foldl_toolCallStep_eq, List.foldl_append, perform]

theorem foldl_choiceStep_eq (cs : List Choice) (c : Cfg) :
    cs.foldl choiceStep c = (cs.flatMap actionsOfChoice).foldl perform c := by
  induction cs generalizing c with
  | nil => rfl
  | cons ch r ih =>
    simp only [List.foldl_cons, List.flatMap_cons, List.foldl_append, ih, choiceStep_eq]

theorem appending_perform (a : Action) : Appending (fun c => perform c a) := by
  intro st pre l
  cases a with
  | head now chunk => simp [perform, headStep, List.append_assoc]
  | text content =>
    simp only [perform, textStep, appendClose, appendEvent, closeContentBlock]
    split_ifs <;> simp [List.append_assoc]
  | toolStart idx tc =>
    simp only [perform, toolStartStep, appendClose, appendEvent, closeContentBlock]
    split_ifs <;> simp [List.append_assoc]
  | toolArguments idx tc =>
    simp only [perform, toolArgumentsStep, appendClose, appendEvent, closeContentBlock]
    split_ifs <;> cases mapGet st.ToolCalls idx <;> simp [List.append_assoc]
  | finish reason =>
    simp only [perform, finishStep, appendClose, appendEvent, closeContentBlock]
    split_ifs <;> simp [List.append_assoc]

theorem appending_foldl (as : List Action) : Appending (fun c => as.foldl perform c) := by
  induction as with
  | nil => intro st pre l; rfl
  | cons a r ih =>
    intro st pre l
    have h1 := appending_perform a st pre l
    have h2 := ih (perform (st, l) a).1 pre (perform (st, l) a).2
    beta_reduce at h1 h2
    simp only [List.foldl_cons]
    rw [h1, h2]

/-- One call of `TranslateChunkToAnthropicEvents`, with its events appended to
those of the stream so far, is the run of the actions of the chunk. -/
theorem translateChunk_eq (now : Int) (chunk : ChatCompletionResponse) (c : Cfg) :
    ((TranslateChunkToAnthropicEvents now chunk c.1).1,
      c.2 ++ (TranslateChunkToAnthropicEvents now chunk c.1).2) =
    (actionsOfChunk now chunk).foldl perform c := by
  unfold TranslateChunkToAnthropicEvents actionsOfChunk
  rw [foldl_choiceStep_eq, List.foldl_cons]
  have h := appending_foldl (chunk.Choices.flatMap actionsOfChoice)
    (chunkHead now chunk c.1).1 c.2 (chunkHead now chunk c.1).2
  beta_reduce at h
  simp only [perform, headStep]
  rw [h]

theorem translateFrom_eq (now : Int) (chunks : List ChatCompletionResponse) (c : Cfg) :
    translateFrom now c chunks = (actionsOfChunks now chunks).foldl perform c := by
  unfold translateFrom actionsOfChunks
  induction chunks generalizing c with
  | nil => rfl
  | cons ch r ih =>
    simp only [List.foldl_cons, List.flatMap_cons, List.foldl_append]
    rw [translateChunk_eq, ih]

/-! ## Invariant of the emitted events -/

theorem snoc_eq_split {α : Type} (h : List α) (e : α) (p1 : List α) (s : α) (p2 : List α)
    (heq : h ++ [e] = p1 ++ s :: p2) :
    (p2 = [] ∧ s = e ∧ p1 = h) ∨ (∃ q, p2 = q ++ [e] ∧ h = p1 ++ s :: q) := by
  rcases List.eq_nil_or_concat p2 with rfl | ⟨q, y, rfl⟩
  · left
    have := List.append_inj' heq rfl
    simp_all
  · right
    have h2 : h ++ [e] = (p1 ++ s :: q) ++ [y] := by simpa using heq
    have := List.append_inj' h2 rfl
    refine ⟨q, ?_, this.1⟩
    simp_all

theorem always_nil (φ : List StreamEvent → StreamEvent → Prop) : Always φ [] := by
  intro pre e suf h
  simp at h

theorem always_snoc {φ : List StreamEvent → StreamEvent → Prop} {h : List StreamEvent}
    {e : StreamEvent} (hh : Always φ h) (he : φ h e) : Always φ (h ++ [e]) := by
  intro pre x suf heq
  rcases snoc_eq_split h e pre x suf heq with ⟨_, hx, hp⟩ | ⟨q, _, hq⟩
  · rw [hx, hp]; exact he
  · exact hh pre x q hq

theorem good_init : Good 0 false True [] where
  idx_le := by simp
  stop_lt := by simp
  start_lt := by simp
  open_start := by simp
  starts_closed := by simp
  text_only := by simp
  mono := List.Pairwise.nil
  start_uniq := List.Pairwise.nil
  stop_matched := always_nil _
  start_separated := always_nil _
  text_delta := always_nil _

theorem good_weaken {idx : Int} {op : Bool} {nt nt2 : Prop} {h : List StreamEvent}
    (g : Good idx op nt h) (hn : nt2 → nt) : Good idx op nt2 h :=
  { g with text_only := fun x => g.text_only (hn x) }

/-- Emitting `content_block_stop` at the current index and closing the block. -/
theorem good_stop {idx : Int} {nt : Prop} {h : List StreamEvent}
    (g : Good idx true nt h) (d : ContentBlockStopEvent) (hd : d.Index = idx) :
    Good (idx + 1) false nt
      (h ++ [{ Event := "content_block_stop", Data := .contentBlockStop d }]) where
  idx_le := by
    intro e he i hi
    rcases List.mem_append.1 he with he | he
    · have := g.idx_le e he i hi; omega
    · simp at he; subst he; simp [StreamEvent.blockIndex] at hi; omega
  stop_lt := by
    intro e he hs i hi
    rcases List.mem_append.1 he with he | he
    · have := g.stop_lt e he hs i hi; omega
    · simp at he; subst he; simp [StreamEvent.blockIndex] at hi; omega
  start_lt := by
    intro e he hs i hi
    rcases List.mem_append.1 he with he | he
    · rcases g.start_lt e he hs i hi with h1 | h1
      · left; omega
      · left; omega
    · simp at he; subst he; simp at hs
  open_start := by simp
  starts_closed := by
    intro p1 s p2 heq hs
    rcases snoc_eq_split _ _ _ _ _ heq with ⟨_, hx, _⟩ | ⟨q, hq, _⟩
    · subst hx; simp at hs
    · left; subst hq
      exact ⟨_, List.mem_append_right _ (List.mem_singleton_self _), rfl⟩
  text_only := by
    intro hn e he hs
    rcases List.mem_append.1 he with he | he
    · exact g.text_only hn e he hs
    · simp at he; subst he; simp at hs
  mono := by
    refine List.pairwise_append.2 ⟨g.mono, List.pairwise_singleton _ _, ?_⟩
    intro a ha b hb i j hi hj
    simp at hb; subst hb; simp [StreamEvent.blockIndex] at hj
    have := g.idx_le a ha i hi; omega
  start_uniq := by
    refine List.pairwise_append.2 ⟨g.start_uniq, List.pairwise_singleton _ _, ?_⟩
    intro a _ b hb _ hs
    simp at hb; subst hb; simp at hs
  stop_matched := by
    refine always_snoc g.stop_matched ?_
    intro _ i hi
    simp [StreamEvent.blockIndex] at hi
    obtain ⟨s, hs, hse, hsi⟩ := g.open_start rfl
    obtain ⟨p1, p2, hp⟩ := List.append_of_mem hs
    refine ⟨p1, s, p2, hp, hse, by rw [hsi, ← hi, hd], ?_⟩
    intro x hx hxs
    have hxh : x ∈ h := by rw [hp]; simp [hx]
    have := g.stop_lt x hxh hxs.1 i hxs.2
    omega
  start_separated := by
    refine always_snoc g.start_separated ?_
    intro hs; simp at hs
  text_delta := by
    refine always_snoc g.text_delta ?_
    intro hs; simp at hs

/-- Emitting `content_block_start` at the current index and marking the block
open, when no block was open. -/
theorem good_start {idx : Int} {nt nt2 : Prop} {h : List StreamEvent}
    (g : Good idx false nt h) (d : ContentBlockStartEvent) (hd : d.Index = idx)
    (hn : nt2 → nt ∧ d.ContentBlock.Type_ = "text") :
    Good idx true nt2
      (h ++ [{ Event := "content_block_start", Data := .contentBlockStart d }]) where
  idx_le := by
    intro e he i hi
    rcases List.mem_append.1 he with he | he
    · exact g.idx_le e he i hi
    · simp at he; subst he; simp [StreamEvent.blockIndex] at hi; omega
  stop_lt := by
    intro e he hs i hi
    rcases List.mem_append.1 he with he | he
    · exact g.stop_lt e he hs i hi
    · simp at he; subst he; simp at hs
  start_lt := by
    intro e he hs i hi
    rcases List.mem_append.1 he with he | he
    · rcases g.start_lt e he hs i hi with h1 | h1
      · left; exact h1
      · simp at h1
    · simp at he; subst he; simp [StreamEvent.blockIndex] at hi; right; exact ⟨rfl, by omega⟩
  open_start := by
    intro _
    exact ⟨_, List.mem_append_right _ (List.mem_singleton_self _), rfl,
      by simp [StreamEvent.blockIndex, hd]⟩
  starts_closed := by
    intro p1 s p2 heq hs
    right; rfl
  text_only := by
    intro hn2 e he hs
    rcases List.mem_append.1 he with he | he
    · exact g.text_only (hn hn2).1 e he hs
    · simp at he; subst he; simp [StreamEvent.blockType, (hn hn2).2]
  mono := by
    refine List.pairwise_append.2 ⟨g.mono, List.pairwise_singleton _ _, ?_⟩
    intro a ha b hb i j hi hj
    simp at hb; subst hb; simp [StreamEvent.blockIndex] at hj
    have := g.idx_le a ha i hi; omega
  start_uniq := by
    refine List.pairwise_append.2 ⟨g.start_uniq, List.pairwise_singleton _ _, ?_⟩
    intro a ha b hb hsa _ i j hi hj
    simp at hb; subst hb; simp [StreamEvent.blockIndex] at hj
    rcases g.start_lt a ha hsa i hi with h1 | h1
    · omega
    · simp at h1
  stop_matched := by
    refine always_snoc g.stop_matched ?_
    intro hs; simp at hs
  start_separated := by
    refine always_snoc g.start_separated ?_
    intro _ p1 s p2 hp hs
    rcases g.starts_closed p1 s p2 hp hs with h1 | h1
    · exact h1
    · simp at h1
  text_delta := by
    refine always_snoc g.text_delta ?_
    intro hs; simp at hs

/-- Emitting `content_block_delta` at the current index. -/
theorem good_delta {idx : Int} {op : Bool} {nt nt2 : Prop} {h : List StreamEvent}
    (g : Good idx op nt h) (d : ContentBlockDeltaEvent) (hd : d.Index = idx)
    (hn : nt2 → nt)
    (ht : d.Delta.Type_ = "text_delta" →
      ∃ s ∈ h, s.Event = "content_block_start" ∧ s.blockIndex = some idx ∧
        s.blockType = some "text") :
    Good idx op nt2
      (h ++ [{ Event := "content_block_delta", Data := .contentBlockDelta d }]) where
  idx_le := by
    intro e he i hi
    rcases List.mem_append.1 he with he | he
    · exact g.idx_le e he i hi
    · simp at he; subst he; simp [StreamEvent.blockIndex] at hi; omega
  stop_lt := by
    intro e he hs i hi
    rcases List.mem_append.1 he with he | he
    · exact g.stop_lt e he hs i hi
    · simp at he; subst he; simp at hs
  start_lt := by
    intro e he hs i hi
    rcases List.mem_append.1 he with he | he
    · exact g.start_lt e he hs i hi
    · simp at he; subst he; simp at hs
  open_start := by
    intro ho
    obtain ⟨s, hs, h1, h2⟩ := g.open_start ho
    exact ⟨s, List.mem_append_left _ hs, h1, h2⟩
  starts_closed := by
    intro p1 s p2 heq hs
    rcases snoc_eq_split _ _ _ _ _ heq with ⟨_, hx, _⟩ | ⟨q, hq, hh⟩
    · subst hx; simp at hs
    · rcases g.starts_closed p1 s q hh hs with ⟨x, hx, hxs⟩ | h1
      · left; subst hq; exact ⟨x, List.mem_append_left _ hx, hxs⟩
      · right; exact h1
  text_only := by
    intro hn2 e he hs
    rcases List.mem_append.1 he with he | he
    · exact g.text_only (hn hn2) e he hs
    · simp at he; subst he; simp at hs
  mono := by
    refine List.pairwise_append.2 ⟨g.mono, List.pairwise_singleton _ _, ?_⟩
    intro a ha b hb i j hi hj
    simp at hb; subst hb; simp [StreamEvent.blockIndex] at hj
    have := g.idx_le a ha i hi; omega
  start_uniq := by
    refine List.pairwise_append.2 ⟨g.start_uniq, List.pairwise_singleton _ _, ?_⟩
    intro a _ b hb _ hs
    simp at hb; subst hb; simp at hs
  stop_matched := by
    refine always_snoc g.stop_matched ?_
    intro hs; simp at hs
  start_separated := by
    refine always_snoc g.start_separated ?_
    intro hs; simp at hs
  text_delta := by
    refine always_snoc g.text_delta ?_
    intro _ hdt i hi
    simp [StreamEvent.deltaType] at hdt
    simp [StreamEvent.blockIndex] at hi
    obtain ⟨s, hs, h1, h2, h3⟩ := ht hdt
    exact ⟨s, hs, h1, by rw [h2, ← hi, hd], h3⟩

/-- Emitting an event that is no `content_block_*` event. -/
theorem good_plain {idx : Int} {op : Bool} {nt : Prop} {h : List StreamEvent}
    (g : Good idx op nt h) (e : StreamEvent)
    (h1 : e.Event ≠ "content_block_start") (h2 : e.Event ≠ "content_block_stop")
    (h3 : e.Event ≠ "content_block_delta") (h4 : e.blockIndex = none) :
    Good idx op nt (h ++ [e]) where
  idx_le := by
    intro x he i hi
    rcases List.mem_append.1 he with he | he
    · exact g.idx_le x he i hi
    · simp at he; subst he; simp [h4] at hi
  stop_lt := by
    intro x he hs i hi
    rcases List.mem_append.1 he with he | he
    · exact g.stop_lt x he hs i hi
    · simp at he; subst he; exact absurd hs h2
  start_lt := by
    intro x he hs i hi
    rcases List.mem_append.1 he with he | he
    · exact g.start_lt x he hs i hi
    · simp at he; subst he; exact absurd hs h1
  open_start := by
    intro ho
    obtain ⟨s, hs, h1, h2⟩ := g.open_start ho
    exact ⟨s, List.mem_append_left _ hs, h1, h2⟩
  starts_closed := by
    intro p1 s p2 heq hs
    rcases snoc_eq_split _ _ _ _ _ heq with ⟨_, hx, _⟩ | ⟨q, hq, hh⟩
    · subst hx; exact absurd hs h1
    · rcases g.starts_closed p1 s q hh hs with ⟨x, hx, hxs⟩ | h1
      · left; subst hq; exact ⟨x, List.mem_append_left _ hx, hxs⟩
      · right; exact h1
  text_only := by
    intro hn2 x he hs
    rcases List.mem_append.1 he with he | he
    · exact g.text_only hn2 x he hs
    · simp at he; subst he; exact absurd hs h1
  mono := by
    refine List.pairwise_append.2 ⟨g.mono, List.pairwise_singleton _ _, ?_⟩
    intro a ha b hb i j hi hj
    simp at hb; subst hb; simp [h4] at hj
  start_uniq := by
    refine List.pairwise_append.2 ⟨g.start_uniq, List.pairwise_singleton _ _, ?_⟩
    intro a _ b hb _ hs
    simp at hb; subst hb; exact absurd hs h1
  stop_matched := by
    refine always_snoc g.stop_matched ?_
    intro hs; exact absurd hs h2
  start_separated := by
    refine always_snoc g.start_separated ?_
    intro hs; exact absurd hs h1
  text_delta := by
    refine always_snoc g.text_delta ?_
    intro hs; exact absurd hs h3

/-! ## The invariant along the steps of the translator -/

theorem goodCfg_appendClose (c : Cfg) (g : GoodCfg c) :
    GoodCfg (appendClose c) ∧ (appendClose c).1.ContentBlockOpen = false ∧
      (appendClose c).1.ToolCalls = c.1.ToolCalls := by
  unfold GoodCfg at *
  unfold appendClose closeContentBlock
  cases ho : c.1.ContentBlockOpen with
  | false =>
    simp only [if_true, List.append_nil, and_self, and_true]
    rw [ho] at g
    exact ⟨by rw [ho]; exact g, ho⟩
  | true =>
    rw [ho] at g
    simp only [Bool.true_eq_false, if_false, and_self, and_true]
    exact good_stop g { Type_ := "content_block_stop", Index := c.1.ContentBlockIndex } rfl

theorem goodCfg_textStep (c : Cfg) (content : String) (g : GoodCfg c) :
    GoodCfg (textStep c content) := by
  unfold textStep
  by_cases h0 : content = ""
  · simp only [h0, if_true]; exact g
  · simp only [h0, if_false]
    by_cases h1 : c.1.ContentBlockOpen = false ∨ c.1.ToolCalls.length > 0
    · simp only [h1, if_true]
      obtain ⟨g1, ho, ht⟩ := goodCfg_appendClose c g
      unfold GoodCfg at g1 ⊢
      rw [ho] at g1
      simp only [appendEvent]
      refine good_delta (good_start g1 _ rfl (fun x => ⟨x, rfl⟩)) _ rfl id ?_
      intro _
      exact ⟨_, List.mem_append_right _ (List.mem_singleton_self _), rfl, rfl, rfl⟩
    · simp only [h1, if_false]
      have ho : c.1.ContentBlockOpen = true := by
        by_contra hc; exact h1 (Or.inl (by simpa using hc))
      have hl : c.1.ToolCalls.length = 0 := by
        by_contra hc; exact h1 (Or.inr (by omega))
      unfold GoodCfg at g ⊢
      simp only [appendEvent]
      refine good_delta g _ rfl id ?_
      intro _
      obtain ⟨s, hs, h2, h3⟩ := g.open_start ho
      exact ⟨s, hs, h2, h3, g.text_only hl s hs h2⟩

theorem goodCfg_toolStartStep (c : Cfg) (idx : Int) (tc : ToolCall) (g : GoodCfg c) :
    GoodCfg (toolStartStep c idx tc) := by
  unfold toolStartStep
  by_cases h0 : tc.ID = ""
  · simp only [h0, if_true]; exact g
  · simp only [h0, if_false]
    obtain ⟨g1, ho, ht⟩ := goodCfg_appendClose c g
    unfold GoodCfg at g1 ⊢
    rw [ho] at g1
    simp only [appendEvent]
    refine good_start g1 _ rfl ?_
    intro x
    simp [mapSet] at x

theorem goodCfg_toolArgumentsStep (c : Cfg) (idx : Int) (tc : ToolCall) (g : GoodCfg c) :
    GoodCfg (toolArgumentsStep c idx tc) := by
  unfold toolArgumentsStep
  by_cases h0 : tc.Function.Arguments = ""
  · simp only [h0, if_true]; exact g
  · simp only [h0, if_false]
    unfold GoodCfg at g ⊢
    cases hg : mapGet c.1.ToolCalls idx with
    | none =>
      simp only [appendEvent]
      exact good_delta g _ rfl id (by intro x; simp at x)
    | some v =>
      simp only [appendEvent]
      refine good_delta g _ rfl ?_ (by intro x; simp at x)
      intro x
      simpa [mapAppendArguments] using x

theorem goodCfg_finishStep (c : Cfg) (r : String) (g : GoodCfg c) :
    GoodCfg (finishStep c (some r)) := by
  unfold finishStep
  obtain ⟨g1, _, _⟩ := goodCfg_appendClose c g
  unfold GoodCfg at g1 ⊢
  simp only [appendEvent]
  exact good_plain g1 (messageDeltaEvent _ r) (by simp [messageDeltaEvent])
    (by simp [messageDeltaEvent]) (by simp [messageDeltaEvent]) rfl

theorem chunkHead_fields (now : Int) (chunk : ChatCompletionResponse)
    (st : AnthropicStreamState) :
    (chunkHead now chunk st).1.ContentBlockIndex = st.ContentBlockIndex ∧
    (chunkHead now chunk st).1.ContentBlockOpen = st.ContentBlockOpen ∧
    (chunkHead now chunk st).1.ToolCalls = st.ToolCalls ∧
    (chunkHead now chunk st).1.MessageStartSent = true := by
  unfold chunkHead
  cases hs : st.MessageStartSent <;> cases chunk.Usage <;>
    by_cases hm : chunk.Model = "" <;> by_cases hi : chunk.ID = "" <;>
    simp [hs, hm, hi]

theorem chunkHead_events (now : Int) (chunk : ChatCompletionResponse)
    (st : AnthropicStreamState) :
    (st.MessageStartSent = true → (chunkHead now chunk st).2 = []) ∧
    (st.MessageStartSent = false → ∃ d : MessageStartEvent,
      (chunkHead now chunk st).2 =
        [ { Event := "message_start", Data := .messageStart d },
          { Event := "ping", Data := .ping { Type_ := "ping" } } ]) := by
  unfold chunkHead
  cases hs : st.MessageStartSent <;> cases chunk.Usage <;>
    by_cases hm : chunk.Model = "" <;> by_cases hi : chunk.ID = "" <;>
    simp [hs, hm, hi]

theorem goodCfg_headStep (now : Int) (chunk : ChatCompletionResponse) (c : Cfg)
    (g : GoodCfg c) : GoodCfg (headStep now chunk c) := by
  unfold GoodCfg at g ⊢
  unfold headStep
  obtain ⟨h1, h2, h3, _⟩ := chunkHead_fields now chunk c.1
  simp only [h1, h2, h3]
  cases hs : c.1.MessageStartSent with
  | true =>
    rw [(chunkHead_events now chunk c.1).1 hs, List.append_nil]
    exact g
  | false =>
    obtain ⟨d, hd⟩ := (chunkHead_events now chunk c.1).2 hs
    rw [hd, show ∀ (a b : StreamEvent), c.2 ++ [a, b] = (c.2 ++ [a]) ++ [b] by simp]
    exact good_plain
      (good_plain g { Event := "message_start", Data := .messageStart d }
        (by simp) (by simp) (by simp) rfl)
      { Event := "ping", Data := .ping { Type_ := "ping" } } (by simp) (by simp) (by simp) rfl

theorem goodCfg_perform (c : Cfg) (a : Action) (g : GoodCfg c) : GoodCfg (perform c a) := by
  cases a with
  | head now chunk => exact goodCfg_headStep now chunk c g
  | text content => exact goodCfg_textStep c content g
  | toolStart idx tc => exact goodCfg_toolStartStep c idx tc g
  | toolArguments idx tc => exact goodCfg_toolArgumentsStep c idx tc g
  | finish reason => exact goodCfg_finishStep c reason g

theorem goodCfg_foldl (as : List Action) (c : Cfg) (g : GoodCfg c) :
    GoodCfg (as.foldl perform c) := by
  induction as generalizing c with
  | nil => exact g
  | cons a r ih => exact ih _ (goodCfg_perform c a g)

theorem goodCfg_translateAll (now : Int) (chunks : List ChatCompletionResponse) :
    GoodCfg (translateAll now chunks) := by
  unfold translateAll
  rw [translateFrom_eq]
  exact goodCfg_foldl _ _ (good_weaken good_init (fun _ => trivial))

/-! ## The head of the stream -/

/-- What an action other than the head of a call appends. -/
theorem perform_appends (c : Cfg) (a : Action) (ha : ∀ now chunk, a ≠ Action.head now chunk) :
    (perform c a).1.MessageStartSent = c.1.MessageStartSent ∧
    ∃ l, (perform c a).2 = c.2 ++ l ∧ ∀ e ∈ l, e.Event ≠ "message_start" := by
  cases a with
  | head now chunk => exact absurd rfl (ha now chunk)
  | text content =>
    simp only [perform, textStep, appendClose, appendEvent, closeContentBlock]
    split_ifs <;> simp
  | toolStart idx tc =>
    simp only [perform, toolStartStep, appendClose, appendEvent, closeContentBlock]
    split_ifs <;> simp
  | toolArguments idx tc =>
    simp only [perform, toolArgumentsStep, appendClose, appendEvent, closeContentBlock]
    split_ifs <;> cases mapGet c.1.ToolCalls idx <;> simp
  | finish reason =>
    simp only [perform, finishStep, appendClose, appendEvent, closeContentBlock,
      messageDeltaEvent]
    split_ifs <;> simp

theorem headSent_perform (c : Cfg) (a : Action) (hc : HeadSent c) : HeadSent (perform c a) := by
  obtain ⟨hs, d, rest, hr, hn⟩ := hc
  by_cases ha : ∃ now chunk, a = Action.head now chunk
  · obtain ⟨now, chunk, rfl⟩ := ha
    refine ⟨(chunkHead_fields now chunk c.1).2.2.2, d, rest, ?_, hn⟩
    simp only [perform, headStep]
    rw [(chunkHead_events now chunk c.1).1 hs, List.append_nil, hr]
  · have ha2 : ∀ now chunk, a ≠ Action.head now chunk := fun now chunk h => ha ⟨now, chunk, h⟩
    obtain ⟨h1, l, h2, h3⟩ := perform_appends c a ha2
    refine ⟨by rw [h1, hs], d, rest ++ l, by rw [h2, hr]; simp, ?_⟩
    intro e he
    rcases List.mem_append.1 he with he | he
    · exact hn e he
    · exact h3 e he

theorem headSent_foldl (as : List Action) (c : Cfg) (hc : HeadSent c) :
    HeadSent (as.foldl perform c) := by
  induction as generalizing c with
  | nil => exact hc
  | cons a r ih => exact ih _ (headSent_perform c a hc)

theorem headSent_translateAll (now : Int) (chunk : ChatCompletionResponse)
    (chunks : List ChatCompletionResponse) : HeadSent (translateAll now (chunk :: chunks)) := by
  unfold translateAll
  rw [translateFrom_eq]
  simp only [actionsOfChunks, List.flatMap_cons, actionsOfChunk, List.cons_append,
    List.foldl_cons]
  apply headSent_foldl
  obtain ⟨d, hd⟩ := (chunkHead_events now chunk NewStreamState).2 rfl
  refine ⟨(chunkHead_fields now chunk NewStreamState).2.2.2, d, [], ?_, by simp⟩
  simp only [perform, headStep, List.nil_append]
  exact hd

/-! ## Block indices, message_start, block starts -/

theorem perform_tagged (c : Cfg) (a : Action) :
    ∃ l, (perform c a).2 = c.2 ++ l ∧ ∀ e ∈ l, Tagged e := by
  cases a with
  | head now chunk =>
    simp only [perform, headStep]
    refine ⟨_, rfl, ?_⟩
    cases hs : c.1.MessageStartSent with
    | true => rw [(chunkHead_events now chunk c.1).1 hs]; simp
    | false =>
      obtain ⟨d, hd⟩ := (chunkHead_events now chunk c.1).2 hs
      rw [hd]; simp [Tagged]
  | text content =>
    simp only [perform, textStep, appendClose, appendEvent, closeContentBlock]
    split_ifs <;> simp [Tagged]
  | toolStart idx tc =>
    simp only [perform, toolStartStep, appendClose, appendEvent, closeContentBlock]
    split_ifs <;> simp [Tagged]
  | toolArguments idx tc =>
    simp only [perform, toolArgumentsStep, appendClose, appendEvent, closeContentBlock]
    split_ifs <;> cases mapGet c.1.ToolCalls idx <;> simp [Tagged]
  | finish reason =>
    simp only [perform, finishStep, appendClose, appendEvent, closeContentBlock,
      messageDeltaEvent]
    split_ifs <;> simp [Tagged]

theorem tagged_foldl (as : List Action) (c : Cfg) (hc : ∀ e ∈ c.2, Tagged e) :
    ∀ e ∈ (as.foldl perform c).2, Tagged e := by
  induction as generalizing c with
  | nil => exact hc
  | cons a r ih =>
    apply ih
    obtain ⟨l, hl, ht⟩ := perform_tagged c a
    intro e he
    rw [hl] at he
    rcases List.mem_append.1 he with he | he
    · exact hc e he
    · exact ht e he

theorem tagged_translateAll (now : Int) (chunks : List ChatCompletionResponse) :
    ∀ e ∈ (translateAll now chunks).2, Tagged e := by
  unfold translateAll
  rw [translateFrom_eq]
  exact tagged_foldl _ _ (by simp)

theorem tagged_blockIndex (e : StreamEvent) (h : Tagged e) :
    (e.Event = "content_block_start" ∨ e.Event = "content_block_delta" ∨
      e.Event = "content_block_stop") ↔ ∃ i, e.blockIndex = some i := by
  obtain ⟨ev, data⟩ := e
  cases data <;> simp [Tagged] at h <;> subst h <;> simp [StreamEvent.blockIndex]

theorem perform_index_le (c : Cfg) (a : Action) :
    c.1.ContentBlockIndex ≤ (perform c a).1.ContentBlockIndex := by
  cases a with
  | head now chunk =>
    simp only [perform, headStep]
    rw [(chunkHead_fields now chunk c.1).1]
  | text content =>
    simp only [perform, textStep, appendClose, appendEvent, closeContentBlock]
    split_ifs <;> simp
  | toolStart idx tc =>
    simp only [perform, toolStartStep, appendClose, appendEvent, closeContentBlock]
    split_ifs <;> simp
  | toolArguments idx tc =>
    simp only [perform, toolArgumentsStep, appendClose, appendEvent, closeContentBlock]
    split_ifs <;> cases mapGet c.1.ToolCalls idx <;> simp
  | finish reason =>
    simp only [perform, finishStep, appendClose, appendEvent, closeContentBlock]
    split_ifs <;> simp

theorem foldl_index_le (as : List Action) (c : Cfg) :
    c.1.ContentBlockIndex ≤ (as.foldl perform c).1.ContentBlockIndex := by
  induction as generalizing c with
  | nil => exact le_refl _
  | cons a r ih => exact le_trans (perform_index_le c a) (ih _)

theorem translateChunk_index_le (now : Int) (chunk : ChatCompletionResponse)
    (st : AnthropicStreamState) :
    st.ContentBlockIndex ≤
      (TranslateChunkToAnthropicEvents now chunk st).1.ContentBlockIndex := by
  have h := translateChunk_eq now chunk (st, [])
  have h2 := foldl_index_le (actionsOfChunk now chunk) (st, [])
  rw [← h] at h2
  exact h2

/-- C3: for every chunk sequence processed from `NewStreamState`, the
`content_block_start`, `content_block_delta` and `content_block_stop` events are
the events that carry an index; that index does not decrease from an event to
any later one; and every `content_block_stop` is preceded by a
`content_block_start` of the same index with no `content_block_stop` of that
index in between. -/
theorem block_index_monotone_and_stop_matched (now : Int)
    (chunks : List ChatCompletionResponse) :
    (∀ e ∈ (translateAll now chunks).2,
      (e.Event = "content_block_start" ∨ e.Event = "content_block_delta" ∨
        e.Event = "content_block_stop") ↔ ∃ i, e.blockIndex = some i) ∧
    (translateAll now chunks).2.Pairwise
      (fun a b => ∀ i j, a.blockIndex = some i → b.blockIndex = some j → i ≤ j) ∧
    ∀ pre e suf i, (translateAll now chunks).2 = pre ++ e :: suf →
      e.Event = "content_block_stop" → e.blockIndex = some i →
      ∃ p1 s p2, pre = p1 ++ s :: p2 ∧ s.Event = "content_block_start" ∧
        s.blockIndex = some i ∧
        ∀ x ∈ p2, ¬ (x.Event = "content_block_stop" ∧ x.blockIndex = some i) := by
  have g := goodCfg_translateAll now chunks
  refine ⟨fun e he => tagged_blockIndex e (tagged_translateAll now chunks e he), g.mono, ?_⟩
  intro pre e suf i h hs hi
  exact g.stop_matched pre e suf h hs i hi

/-- C4: for every non-empty chunk sequence processed from `NewStreamState`, the
first event is a `message_start`, the second is a `ping` (whatever the first
chunk holds), no later event is a `message_start`, so exactly one is emitted,
and every `content_block_*` event comes after both. -/
theorem message_start_once_then_ping (now : Int) (chunks : List ChatCompletionResponse)
    (hne : chunks ≠ []) :
    ∃ (m p : StreamEvent) (rest : List StreamEvent),
      (translateAll now chunks).2 = m :: p :: rest ∧
      m.Event = "message_start" ∧ p.Event = "ping" ∧
      (∀ e ∈ p :: rest, e.Event ≠ "message_start") ∧
      (translateAll now chunks).2.countP (fun e => decide (e.Event = "message_start")) = 1 ∧
      ∀ pre e suf, (translateAll now chunks).2 = pre ++ e :: suf →
        (e.Event = "content_block_start" ∨ e.Event = "content_block_delta" ∨
          e.Event = "content_block_stop") → ∃ q, pre = m :: p :: q := by
  obtain ⟨chunk, r, rfl⟩ := List.exists_cons_of_ne_nil hne
  obtain ⟨_, d, rest, hr, hn⟩ := headSent_translateAll now chunk r
  refine ⟨_, _, rest, hr, rfl, rfl, ?_, ?_, ?_⟩
  · intro e he
    rcases List.mem_cons.1 he with he | he
    · subst he; simp
    · exact hn e he
  · rw [hr]
    have h0 : rest.countP (fun e => decide (e.Event = "message_start")) = 0 := by
      rw [List.countP_eq_zero]
      intro e he
      simpa using hn e he
    simp [List.countP_cons, h0]
  · intro pre e suf h he
    rw [hr] at h
    match pre, h with
    | [], h =>
      simp only [List.nil_append, List.cons.injEq] at h
      rw [← h.1] at he; simp at he
    | [x], h =>
      simp only [List.cons_append, List.nil_append, List.cons.injEq] at h
      rw [← h.2.1] at he; simp at he
    | x :: y :: q, h =>
      simp only [List.cons_append, List.cons.injEq] at h
      exact ⟨q, by rw [h.1, h.2.1]⟩

/-- C4 at a single chunk that has no choices, no content and no usage. -/
theorem message_start_once_then_ping_witness :
    ([({} : ChatCompletionResponse)] ≠ []) ∧
    ∃ (m p : StreamEvent) (rest : List StreamEvent),
      (translateAll 0 [({} : ChatCompletionResponse)]).2 = m :: p :: rest ∧
      m.Event = "message_start" ∧ p.Event = "ping" ∧
      (∀ e ∈ p :: rest, e.Event ≠ "message_start") ∧
      (translateAll 0 [({} : ChatCompletionResponse)]).2.countP
        (fun e => decide (e.Event = "message_start")) = 1 ∧
      ∀ pre e suf, (translateAll 0 [({} : ChatCompletionResponse)]).2 = pre ++ e :: suf →
        (e.Event = "content_block_start" ∨ e.Event = "content_block_delta" ∨
          e.Event = "content_block_stop") → ∃ q, pre = m :: p :: q :=
  ⟨by simp, message_start_once_then_ping 0 [{}] (by simp)⟩

/-- C5: for every chunk sequence processed from `NewStreamState`, between any
two `content_block_start` events of the emitted stream there is a
`content_block_stop`, and `ContentBlockIndex` after a further call of
`TranslateChunkToAnthropicEvents` is not below its value before the call. -/
theorem starts_separated_by_stop (now : Int) (chunks : List ChatCompletionResponse) :
    (∀ p1 s1 p2 s2 p3, (translateAll now chunks).2 = p1 ++ s1 :: (p2 ++ s2 :: p3) →
      s1.Event = "content_block_start" → s2.Event = "content_block_start" →
      ∃ x ∈ p2, x.Event = "content_block_stop") ∧
    (∀ chunk : ChatCompletionResponse,
      (translateAll now chunks).1.ContentBlockIndex ≤
        (TranslateChunkToAnthropicEvents now chunk
          (translateAll now chunks).1).1.ContentBlockIndex) ∧
    (∀ more : List ChatCompletionResponse,
      (translateAll now chunks).1.ContentBlockIndex ≤
        (translateAll now (chunks ++ more)).1.ContentBlockIndex) := by
  have g := goodCfg_translateAll now chunks
  refine ⟨?_, fun chunk => translateChunk_index_le now chunk _, ?_⟩
  · intro p1 s1 p2 s2 p3 h hs1 hs2
    exact g.start_separated (p1 ++ s1 :: p2) s2 p3 (by rw [h]; simp) hs2 p1 s1 p2 rfl hs1
  · intro more
    unfold translateAll
    rw [translateFrom_eq, translateFrom_eq]
    simp only [actionsOfChunks, List.flatMap_append, List.foldl_append]
    exact foldl_index_le _ _

/-! ## Deltas of tool-call arguments -/

theorem effective_actionsOfChunks (now : Int) (chunks : List ChatCompletionResponse) :
    ∀ a ∈ actionsOfChunks now chunks, a.Effective := by
  intro a ha
  simp only [actionsOfChunks, actionsOfChunk, List.mem_flatMap, List.mem_cons] at ha
  obtain ⟨chunk, _, ha | ⟨choice, _, ha⟩⟩ := ha
  · subst ha; trivial
  · unfold actionsOfChoice at ha
    have hf : ∀ fr, a ∈ actionsOfFinish fr → a.Effective := by
      intro fr h
      cases fr with
      | none => simp [actionsOfFinish] at h
      | some r => simp [actionsOfFinish] at h; subst h; trivial
    cases hd : choice.Delta with
    | none => rw [hd] at ha; exact hf _ ha
    | some delta =>
      rw [hd] at ha
      simp only [List.mem_append, List.mem_flatMap] at ha
      rcases ha with (ha | ⟨tc, _, ha⟩) | ha
      · by_cases h0 : delta.Content = ""
        · simp [h0] at ha
        · simp [h0] at ha; subst ha; exact h0
      · unfold actionsOfToolCall at ha
        rcases List.mem_append.1 ha with ha | ha
        · by_cases h0 : tc.ID = ""
          · simp [h0] at ha
          · simp [h0] at ha; subst ha; exact h0
        · by_cases h0 : tc.Function.Arguments = ""
          · simp [h0] at ha
          · simp [h0] at ha; subst ha; exact h0
      · exact hf _ ha

theorem always_append {φ : List StreamEvent → StreamEvent → Prop} (l : List StreamEvent) :
    ∀ (h : List StreamEvent), Always φ h → (∀ e ∈ l, ∀ pre, φ pre e) → Always φ (h ++ l) := by
  induction l with
  | nil => intro h hh _; simpa using hh
  | cons x r ih =>
    intro h hh hl
    have h1 : h ++ x :: r = (h ++ [x]) ++ r := by simp
    rw [h1]
    exact ih _ (always_snoc hh (hl x (by simp) h)) (fun e he => hl e (by simp [he]))

/-- An action other than a tool-call arguments entry appends no
`input_json_delta`. -/
theorem perform_appends_no_json (c : Cfg) (a : Action)
    (ha : ∀ idx tc, a ≠ Action.toolArguments idx tc) :
    ∃ l, (perform c a).2 = c.2 ++ l ∧ ∀ e ∈ l, e.deltaType ≠ some "input_json_delta" := by
  cases a with
  | head now chunk =>
    simp only [perform, headStep]
    refine ⟨_, rfl, ?_⟩
    cases hs : c.1.MessageStartSent with
    | true => rw [(chunkHead_events now chunk c.1).1 hs]; simp
    | false =>
      obtain ⟨d, hd⟩ := (chunkHead_events now chunk c.1).2 hs
      rw [hd]; simp [StreamEvent.deltaType]
  | text content =>
    simp only [perform, textStep, appendClose, appendEvent, closeContentBlock]
    split_ifs <;> simp [StreamEvent.deltaType]
  | toolStart idx tc =>
    simp only [perform, toolStartStep, appendClose, appendEvent, closeContentBlock]
    split_ifs <;> simp [StreamEvent.deltaType]
  | toolArguments idx tc => exact absurd rfl (ha idx tc)
  | finish reason =>
    simp only [perform, finishStep, appendClose, appendEvent, closeContentBlock,
      messageDeltaEvent]
    split_ifs <;> simp [StreamEvent.deltaType]

theorem toolOpen_toolStart (c : Cfg) (idx : Int) (tc : ToolCall) (h : tc.ID ≠ "") :
    ToolOpen (toolStartStep c idx tc) := by
  unfold ToolOpen toolStartStep
  simp only [h, if_false, appendEvent, true_and]
  exact ⟨_, List.mem_append_right _ (List.mem_singleton_self _), rfl, rfl, rfl⟩

theorem toolOpen_toolArguments (c : Cfg) (idx : Int) (tc : ToolCall) (h : ToolOpen c) :
    ToolOpen (toolArgumentsStep c idx tc) := by
  obtain ⟨ho, s, hs, h1, h2, h3⟩ := h
  unfold ToolOpen toolArgumentsStep
  by_cases h0 : tc.Function.Arguments = ""
  · simp only [h0, if_true]; exact ⟨ho, s, hs, h1, h2, h3⟩
  · simp only [h0, if_false, appendEvent]
    cases mapGet c.1.ToolCalls idx <;>
      exact ⟨ho, s, List.mem_append_left _ hs, h1, h2, h3⟩

theorem toolOpen_headStep (now : Int) (chunk : ChatCompletionResponse) (c : Cfg)
    (h : ToolOpen c) : ToolOpen (headStep now chunk c) := by
  obtain ⟨ho, s, hs, h1, h2, h3⟩ := h
  obtain ⟨f1, f2, _, _⟩ := chunkHead_fields now chunk c.1
  unfold ToolOpen headStep
  simp only [f1, f2]
  exact ⟨ho, s, List.mem_append_left _ hs, h1, h2, h3⟩

theorem json_toolArguments (c : Cfg) (idx : Int) (tc : ToolCall) (ho : ToolOpen c)
    (hj : Always (DeltaInBlock "input_json_delta" "tool_use") c.2) :
    Always (DeltaInBlock "input_json_delta" "tool_use") (toolArgumentsStep c idx tc).2 := by
  obtain ⟨_, s, hs, h1, h2, h3⟩ := ho
  unfold toolArgumentsStep
  by_cases h0 : tc.Function.Arguments = ""
  · simp only [h0, if_true]; exact hj
  · simp only [h0, if_false, appendEvent]
    cases mapGet c.1.ToolCalls idx <;>
    · refine always_snoc hj ?_
      intro _ _ i hi
      simp [StreamEvent.blockIndex] at hi
      exact ⟨s, hs, h1, by rw [h2, ← hi], h3⟩

theorem json_perform (c : Cfg) (a : Action) (b : Bool) (he : a.Effective)
    (hj : Always (DeltaInBlock "input_json_delta" "tool_use") c.2)
    (hb : b = true → ToolOpen c)
    (hw : argumentsAllowed b a = true) :
    Always (DeltaInBlock "input_json_delta" "tool_use") (perform c a).2 ∧
    (toolFlag b a = true → ToolOpen (perform c a)) := by
  have key : (∀ idx tc, a ≠ Action.toolArguments idx tc) →
      Always (DeltaInBlock "input_json_delta" "tool_use") (perform c a).2 := by
    intro ha
    obtain ⟨l, hl, hn⟩ := perform_appends_no_json c a ha
    rw [hl]
    exact always_append l c.2 hj (fun e he pre _ hd => absurd hd (hn e he))
  cases a with
  | head now chunk =>
    exact ⟨key (by simp), fun hf => toolOpen_headStep now chunk c (hb hf)⟩
  | text content => exact ⟨key (by simp), by simp [toolFlag]⟩
  | toolStart idx tc => exact ⟨key (by simp), fun _ => toolOpen_toolStart c idx tc he⟩
  | toolArguments idx tc =>
    have hb2 : b = true := hw
    exact ⟨json_toolArguments c idx tc (hb hb2) hj,
      fun _ => toolOpen_toolArguments c idx tc (hb hb2)⟩
  | finish reason => exact ⟨key (by simp), by simp [toolFlag]⟩

theorem json_foldl (as : List Action) (he : ∀ a ∈ as, a.Effective) :
    ∀ (c : Cfg) (b : Bool),
      Always (DeltaInBlock "input_json_delta" "tool_use") c.2 →
      (b = true → ToolOpen c) → argumentsFollowTool b as = true →
      Always (DeltaInBlock "input_json_delta" "tool_use") (as.foldl perform c).2 := by
  induction as with
  | nil => intro c b hj _ _; exact hj
  | cons a r ih =>
    intro c b hj hb hw
    simp only [argumentsFollowTool, Bool.and_eq_true] at hw
    obtain ⟨h1, h2⟩ := json_perform c a b (he a (by simp)) hj hb hw.1
    exact ih (fun x hx => he x (by simp [hx])) _ _ h1 h2 hw.2

/-! ## Deltas and the type of their block -/

theorem start_type_unique (h : List StreamEvent) (hu : h.Pairwise StartLt) :
    ∀ s ∈ h, ∀ t ∈ h, s.Event = "content_block_start" → t.Event = "content_block_start" →
      ∀ i, s.blockIndex = some i → t.blockIndex = some i → s.blockType = t.blockType := by
  have hp : h.Pairwise (fun s t => s.Event = "content_block_start" →
      t.Event = "content_block_start" →
      ∀ i, s.blockIndex = some i → t.blockIndex = some i → s.blockType = t.blockType) := by
    refine hu.imp ?_
    intro a b hab ha hb i hi hj
    exact absurd (hab ha hb i i hi hj) (lt_irrefl i)
  refine List.Pairwise.forall_of_forall ?_ ?_ hp
  · intro x y hxy hy hx i hi hj
    exact (hxy hx hy i hj hi).symm
  · intro x _ _ _ _ _ _
    rfl

theorem delta_block_of_always (dt bt : String) (evs : List StreamEvent)
    (hu : evs.Pairwise StartLt) (ha : Always (DeltaInBlock dt bt) evs) :
    ∀ pre e suf i, evs = pre ++ e :: suf → e.Event = "content_block_delta" →
      e.deltaType = some dt → e.blockIndex = some i →
      (∃ s ∈ pre, s.Event = "content_block_start" ∧ s.blockIndex = some i ∧
        s.blockType = some bt) ∧
      (∀ s ∈ evs, s.Event = "content_block_start" → s.blockIndex = some i →
        s.blockType = some bt) := by
  intro pre e suf i h he hd hi
  obtain ⟨s, hs, h1, h2, h3⟩ := ha pre e suf h he hd i hi
  refine ⟨⟨s, hs, h1, h2, h3⟩, ?_⟩
  intro t ht ht1 ht2
  have hsm : s ∈ evs := by rw [h]; exact List.mem_append_left _ hs
  rw [← start_type_unique evs hu s hsm t ht h1 ht1 i h2 ht2]
  exact h3

/-- C6 as stated fails: after the text delta "A", arguments of a tool call that
never carried an id give an `input_json_delta` at index 0, the index of the open
text block, and the stream has no `content_block_start` of type `tool_use` at
index 0. -/
theorem input_json_delta_in_text_block :
    ∃ pre e suf, (translateAll 0 orphanArgumentsChunks).2 = pre ++ e :: suf ∧
      e.Event = "content_block_delta" ∧ e.deltaType = some "input_json_delta" ∧
      e.blockIndex = some 0 ∧
      (∃ s ∈ pre, s.Event = "content_block_start" ∧ s.blockIndex = some 0 ∧
        s.blockType = some "text") ∧
      ¬ ∃ s ∈ (translateAll 0 orphanArgumentsChunks).2,
        s.Event = "content_block_start" ∧ s.blockIndex = some 0 ∧
          s.blockType = some "tool_use" := by
  refine ⟨((translateAll 0 orphanArgumentsChunks).2).take 4,
    { Event := "content_block_delta",
      Data := .contentBlockDelta
        { Type_ := "content_block_delta", Index := 0,
          Delta := { Type_ := "input_json_delta", PartialJSON := "1" } } },
    [], by decide, rfl, rfl, rfl, by decide, by decide⟩

/-- C6 amended: for every chunk sequence processed from `NewStreamState`, every
`text_delta` carries the index of a block whose `content_block_start` came
before it and had type `text`; and when every tool-call entry with arguments
comes directly after a tool-call entry with an id or after another arguments
entry, every `input_json_delta` carries the index of a block whose
`content_block_start` came before it and had type `tool_use`. No other
`content_block_start` carries that index. -/
theorem delta_in_block_of_its_type (now : Int) (chunks : List ChatCompletionResponse) :
    (∀ pre e suf i, (translateAll now chunks).2 = pre ++ e :: suf →
      e.Event = "content_block_delta" → e.deltaType = some "text_delta" →
      e.blockIndex = some i →
      (∃ s ∈ pre, s.Event = "content_block_start" ∧ s.blockIndex = some i ∧
        s.blockType = some "text") ∧
      (∀ s ∈ (translateAll now chunks).2, s.Event = "content_block_start" →
        s.blockIndex = some i → s.blockType = some "text")) ∧
    (argumentsFollowTool false (actionsOfChunks now chunks) = true →
      ∀ pre e suf i, (translateAll now chunks).2 = pre ++ e :: suf →
        e.Event = "content_block_delta" → e.deltaType = some "input_json_delta" →
        e.blockIndex = some i →
        (∃ s ∈ pre, s.Event = "content_block_start" ∧ s.blockIndex = some i ∧
          s.blockType = some "tool_use") ∧
        (∀ s ∈ (translateAll now chunks).2, s.Event = "content_block_start" →
          s.blockIndex = some i → s.blockType = some "tool_use")) := by
  have g := goodCfg_translateAll now chunks
  refine ⟨delta_block_of_always _ _ _ g.start_uniq g.text_delta, ?_⟩
  intro hw
  refine delta_block_of_always _ _ _ g.start_uniq ?_
  unfold translateAll
  rw [translateFrom_eq]
  exact json_foldl _ (effective_actionsOfChunks now chunks) _ false (always_nil _)
    (by simp) hw

/-! ## The event grammar and its automaton -/

end Anthropic

namespace Handler

open Anthropic

/-- C2: scenario S2. From `NewStreamState`, the five chunks (text delta "A";
tool-call start index 0, id "t1", name "f"; arguments `{"x":`; arguments `1}`;
finish reason "tool_calls", with an empty or an absent delta) followed by
`[DONE]` give exactly the eleven expected events, in order. The id of
`message_start` is the chunk id, or `msg_<now>` when the chunks carry none. -/
theorem scenario_s2 (now : Int) (id model : String) :
    handleAnthropicStream now
        ((s2Chunks id model (some {})).map SSELine.data ++ [SSELine.done]) =
      s2Events (if id = "" then "msg_" ++ toString now else id) model ∧
    handleAnthropicStream now
        ((s2Chunks id model none).map SSELine.data ++ [SSELine.done]) =
      s2Events (if id = "" then "msg_" ++ toString now else id) model := by
  by_cases hi : id = "" <;> by_cases hm : model = "" <;>
    simp [hi, hm, handleAnthropicStream, streamLoop, s2Chunks, s2Events, chunkOf,
      TranslateChunkToAnthropicEvents, chunkHead, choiceStep, textStep, toolCallStep,
      toolStartStep, toolArgumentsStep, finishStep, appendClose, appendEvent,
      closeContentBlock, messageDeltaEvent, NewStreamState, messageStopEvent, mapSet,
      mapGet, mapAppendArguments, MapOpenAIStopReasonToAnthropic]

/-- C6 amended, at the chunks of scenario S2: the arguments entries follow the
tool-call start, and both kinds of delta lie in a block of their type. -/
theorem delta_in_block_of_its_type_witness :
    argumentsFollowTool false (actionsOfChunks 0 (s2Chunks "" "" (some {}))) = true ∧
    ∀ pre e suf i, (translateAll 0 (s2Chunks "" "" (some {}))).2 = pre ++ e :: suf →
      e.Event = "content_block_delta" → e.deltaType = some "input_json_delta" →
      e.blockIndex = some i →
      (∃ s ∈ pre, s.Event = "content_block_start" ∧ s.blockIndex = some i ∧
        s.blockType = some "tool_use") ∧
      (∀ s ∈ (translateAll 0 (s2Chunks "" "" (some {}))).2,
        s.Event = "content_block_start" → s.blockIndex = some i →
        s.blockType = some "tool_use") :=
  ⟨by decide, (delta_in_block_of_its_type 0 (s2Chunks "" "" (some {}))).2 (by decide)⟩

end Handler

namespace Store

/-- A lookup by upstream id that hits returns the display id of some mapping
with that upstream id. -/
theorem toDisplayID_hit (t : List ModelMapping) (x : String)
    (hx : x ∈ t.map (fun m => m.CopilotID)) :
    ∃ m ∈ t, m.CopilotID = x ∧ ToDisplayID t x = m.DisplayID := by
  induction t with
  | nil => simp at hx
  | cons h r ih =>
    by_cases hh : h.CopilotID = x
    · exact ⟨h, by simp, hh, by simp [ToDisplayID, hh]⟩
    · have hx2 : x ∈ r.map (fun m => m.CopilotID) := by
        simp only [List.map_cons, List.mem_cons] at hx
        rcases hx with hx | hx
        · exact absurd hx.symm hh
        · exact hx
      obtain ⟨m, hm, hmx, hd⟩ := ih hx2
      exact ⟨m, by simp [hm], hmx, by simp [ToDisplayID, hh, hd]⟩

/-- A lookup by display id that hits returns the upstream id of some mapping
with that display id. -/
theorem toCopilotID_hit (t : List ModelMapping) (y : String)
    (hy : y ∈ t.map (fun m => m.DisplayID)) :
    ∃ m ∈ t, m.DisplayID = y ∧ ToCopilotID t y = m.CopilotID := by
  induction t with
  | nil => simp at hy
  | cons h r ih =>
    by_cases hh : h.DisplayID = y
    · exact ⟨h, by simp, hh, by simp [ToCopilotID, hh]⟩
    · have hy2 : y ∈ r.map (fun m => m.DisplayID) := by
        simp only [List.map_cons, List.mem_cons] at hy
        rcases hy with hy | hy
        · exact absurd hy.symm hh
        · exact hy
      obtain ⟨m, hm, hmy, hd⟩ := ih hy2
      exact ⟨m, by simp [hm], hmy, by simp [ToCopilotID, hh, hd]⟩

/-- With unique display ids, the display id of a mapping of the table resolves
to the upstream id of that very mapping. -/
theorem toCopilotID_of_mem (t : List ModelMapping) (hu : UniqueDisplay t)
    (m : ModelMapping) (hm : m ∈ t) : ToCopilotID t m.DisplayID = m.CopilotID := by
  induction t with
  | nil => simp at hm
  | cons h r ih =>
    unfold UniqueDisplay at hu
    simp only [List.map_cons, List.nodup_cons] at hu
    by_cases hh : h.DisplayID = m.DisplayID
    · rcases List.mem_cons.1 hm with hm1 | hm1
      · simp [ToCopilotID, hm1]
      · exact absurd (hh ▸ List.mem_map_of_mem (fun m => m.DisplayID) hm1) hu.1
    · rcases List.mem_cons.1 hm with hm1 | hm1
      · exact absurd (by rw [hm1]) hh
      · simp [ToCopilotID, hh, ih hu.2 hm1]

/-- With unique upstream ids, the upstream id of a mapping of the table
resolves to the display id of that very mapping. -/
theorem toDisplayID_of_mem (t : List ModelMapping) (hu : UniqueUpstream t)
    (m : ModelMapping) (hm : m ∈ t) : ToDisplayID t m.CopilotID = m.DisplayID := by
  induction t with
  | nil => simp at hm
  | cons h r ih =>
    unfold UniqueUpstream at hu
    simp only [List.map_cons, List.nodup_cons] at hu
    by_cases hh : h.CopilotID = m.CopilotID
    · rcases List.mem_cons.1 hm with hm1 | hm1
      · simp [ToDisplayID, hm1]
      · exact absurd (hh ▸ List.mem_map_of_mem (fun m => m.CopilotID) hm1) hu.1
    · rcases List.mem_cons.1 hm with hm1 | hm1
      · exact absurd (by rw [hm1]) hh
      · simp [ToDisplayID, hh, ih hu.2 hm1]

/-- C9 as stated fails: the table has one mapping per upstream id, "gpt-4.1"
appears in it as an upstream id, and the round trip returns "gpt-4o". -/
theorem toCopilotID_toDisplayID_shared_display :
    UniqueUpstream sharedDisplayTable ∧
    "gpt-4.1" ∈ sharedDisplayTable.map (fun m => m.CopilotID) ∧
    ToCopilotID sharedDisplayTable (ToDisplayID sharedDisplayTable "gpt-4.1") = "gpt-4o" ∧
    ToCopilotID sharedDisplayTable (ToDisplayID sharedDisplayTable "gpt-4.1") ≠ "gpt-4.1" := by
  decide

/-- C9 amended: for every mapping table in which no two mappings share a
display id, and every upstream id `x` that appears in the table,
`ToCopilotID (ToDisplayID x) = x`. -/
theorem toCopilotID_toDisplayID (t : List ModelMapping) (x : String)
    (hu : UniqueDisplay t) (hx : x ∈ t.map (fun m => m.CopilotID)) :
    ToCopilotID t (ToDisplayID t x) = x := by
  obtain ⟨m, hm, hmx, hd⟩ := toDisplayID_hit t x hx
  rw [hd, toCopilotID_of_mem t hu m hm, hmx]

/-- C9 amended, at `sampleTable` and the upstream id "claude-sonnet-4". -/
theorem toCopilotID_toDisplayID_witness :
    UniqueDisplay sampleTable ∧
    "claude-sonnet-4" ∈ sampleTable.map (fun m => m.CopilotID) ∧
    ToCopilotID sampleTable (ToDisplayID sampleTable "claude-sonnet-4") = "claude-sonnet-4" :=
  ⟨by decide, by decide,
    toCopilotID_toDisplayID sampleTable "claude-sonnet-4" (by decide) (by decide)⟩

/-- C10: for every mapping table with at most one mapping per upstream id, and
every display id `y` that appears in the table, `ToDisplayID (ToCopilotID y) = y`. -/
theorem toDisplayID_toCopilotID (t : List ModelMapping) (y : String)
    (hu : UniqueUpstream t) (hy : y ∈ t.map (fun m => m.DisplayID)) :
    ToDisplayID t (ToCopilotID t y) = y := by
  obtain ⟨m, hm, hmy, hd⟩ := toCopilotID_hit t y hy
  rw [hd, toDisplayID_of_mem t hu m hm, hmy]

/-- C10 at `sampleTable` and the display id "smart". -/
theorem toDisplayID_toCopilotID_witness :
    UniqueUpstream sampleTable ∧
    "smart" ∈ sampleTable.map (fun m => m.DisplayID) ∧
    ToDisplayID sampleTable (ToCopilotID sampleTable "smart") = "smart" :=
  ⟨by decide, by decide,
    toDisplayID_toCopilotID sampleTable "smart" (by decide) (by decide)⟩

end Store

namespace Instance

open Store

/-! ## Pool selector -/

theorem wrapInt64_of_range (x : Int) (h1 : -(2 ^ 63) ≤ x) (h2 : x ≤ 2 ^ 63 - 1) :
    wrapInt64 x = x := by
  unfold wrapInt64
  norm_num at h1 h2 ⊢
  omega

/-- One call of `selectRoundRobin` with a counter from `0` to `2^63 - 2`. -/
theorem selectRoundRobin_eq (accounts : List Account) (c : Int) (hne : accounts ≠ [])
    (h0 : 0 ≤ c) (h1 : c + 1 ≤ 2 ^ 63 - 1) :
    selectRoundRobin c accounts =
      (c + 1, accounts[(c % (accounts.length : Int)).toNat]?) := by
  have hlen : accounts.length ≠ 0 := by
    intro h; exact hne (List.length_eq_zero.1 h)
  have hw1 : wrapInt64 (c + 1) = c + 1 := wrapInt64_of_range _ (by norm_num; omega) h1
  have hw2 : wrapInt64 (c + 1 - 1) = c := by
    rw [show c + 1 - 1 = c by omega]
    exact wrapInt64_of_range _ (by norm_num; omega) (by omega)
  have hm : Int.tmod c (accounts.length : Int) = c % (accounts.length : Int) :=
    Int.tmod_eq_emod h0 (by omega)
  have hnn : ¬ c % (accounts.length : Int) < 0 := by
    have := Int.emod_nonneg c (b := (accounts.length : Int)) (by omega)
    omega
  simp only [selectRoundRobin, hw1, hw2, hlen, if_false, indexAccounts, hm, hnn]

theorem roundRobinCalls_eq (accounts : List Account) (hne : accounts ≠ []) (n : Nat) :
    ∀ c : Int, 0 ≤ c → c + n ≤ 2 ^ 63 - 1 →
      roundRobinCalls accounts c n =
        (List.range n).map
          (fun (k : Nat) => accounts[((c + (k : Int)) % (accounts.length : Int)).toNat]?) := by
  induction n with
  | zero => intro c _ _; rfl
  | succ n ih =>
    intro c h0 h1
    have h2 : c + 1 ≤ 2 ^ 63 - 1 := by push_cast at h1; omega
    rw [roundRobinCalls, selectRoundRobin_eq accounts c hne h0 h2, List.range_succ_eq_map]
    simp only [List.map_cons, List.map_map]
    rw [ih (c + 1) (by omega) (by push_cast at h1; omega)]
    congr 1
    · simp
    · apply List.map_congr_left
      intro k _
      simp only [Function.comp, Nat.succ_eq_add_one]
      push_cast
      rw [show c + 1 + (k : Int) = c + ((k : Int) + 1) by omega]

theorem position_lt (N : Nat) (hN : 0 < N) (x : Int) : (x % (N : Int)).toNat < N := by
  have h1 := Int.emod_nonneg x (b := (N : Int)) (by omega)
  have h2 := Int.emod_lt_of_pos x (b := (N : Int)) (by omega)
  omega

theorem position_injective (N : Nat) (c : Int) (k k2 : Nat) (hk : k < N) (hk2 : k2 < N)
    (h : ((c + (k : Int)) % (N : Int)).toNat = ((c + (k2 : Int)) % (N : Int)).toNat) :
    k = k2 := by
  have hN : (0 : Int) < N := by omega
  have h1 := Int.emod_nonneg (c + (k : Int)) (b := (N : Int)) (by omega)
  have h2 := Int.emod_nonneg (c + (k2 : Int)) (b := (N : Int)) (by omega)
  have h3 : (c + (k : Int)) % (N : Int) = (c + (k2 : Int)) % (N : Int) := by omega
  have h4 := Int.emod_eq_emod_iff_emod_sub_eq_zero.1 h3
  have h5 : ((N : Int)) ∣ ((k : Int) - (k2 : Int)) := by
    have := Int.dvd_of_emod_eq_zero h4
    rwa [show c + (k : Int) - (c + (k2 : Int)) = (k : Int) - (k2 : Int) by omega] at this
  have h6 : (k : Int) - (k2 : Int) = 0 := by
    apply Int.eq_zero_of_abs_lt_dvd h5
    rw [abs_lt]
    constructor <;> omega
  omega

theorem position_surjective (N : Nat) (c : Int) (p : Nat) (hp : p < N) :
    ∃ k : Nat, k < N ∧ ((c + (k : Int)) % (N : Int)).toNat = p := by
  have hN : (0 : Int) < N := by omega
  refine ⟨(((p : Int) - c) % (N : Int)).toNat, position_lt N (by omega) _, ?_⟩
  have h1 := Int.emod_nonneg ((p : Int) - c) (b := (N : Int)) (by omega)
  rw [Int.toNat_of_nonneg h1, Int.add_emod_emod,
    show c + ((p : Int) - c) = (p : Int) by omega,
    Int.emod_eq_of_lt (by omega) (by omega)]
  simp

/-- C11: round-robin fairness. For a non-empty account list of length `N` that
stays the same and a counter value `c` with `0 ≤ c` and `c + N` within the
`int64` range, `N` consecutive calls of `selectRoundRobin` return the accounts
at the positions `(c + k) mod N` for `k = 0, ..., N - 1`, in that cyclic order;
no call indexes outside the list, the positions are pairwise distinct, and
every position of the list is visited. -/
theorem roundRobin_fair (accounts : List Account) (c : Int) (hne : accounts ≠ [])
    (h0 : 0 ≤ c) (hc : c + accounts.length ≤ 2 ^ 63 - 1) :
    roundRobinCalls accounts c accounts.length =
      (List.range accounts.length).map
        (fun (k : Nat) => accounts[((c + (k : Int)) % (accounts.length : Int)).toNat]?) ∧
    (∀ k : Nat, k < accounts.length →
      ∃ a, accounts[((c + (k : Int)) % (accounts.length : Int)).toNat]? = some a) ∧
    (∀ k k2 : Nat, k < accounts.length → k2 < accounts.length →
      ((c + (k : Int)) % (accounts.length : Int)).toNat =
        ((c + (k2 : Int)) % (accounts.length : Int)).toNat → k = k2) ∧
    (∀ p : Nat, p < accounts.length →
      ∃ k : Nat, k < accounts.length ∧
        ((c + (k : Int)) % (accounts.length : Int)).toNat = p) := by
  have hlen : 0 < accounts.length := List.length_pos.2 hne
  refine ⟨roundRobinCalls_eq accounts hne _ c h0 hc, ?_, ?_, ?_⟩
  · intro k _
    have h := position_lt accounts.length hlen (c + (k : Int))
    exact ⟨accounts[((c + (k : Int)) % (accounts.length : Int)).toNat], by simp [h]⟩
  · intro k k2 hk hk2 h
    exact position_injective _ c k k2 hk hk2 h
  · intro p hp
    exact position_surjective _ c p hp


/-- C11 at three accounts and the counter value 7: the calls return the
accounts at positions 1, 2, 0. -/
theorem roundRobin_fair_witness :
    sampleAccounts ≠ [] ∧ (0 : Int) ≤ 7 ∧
    (7 : Int) + sampleAccounts.length ≤ 2 ^ 63 - 1 ∧
    roundRobinCalls sampleAccounts 7 sampleAccounts.length =
      (List.range sampleAccounts.length).map
        (fun (k : Nat) =>
          sampleAccounts[(((7 : Int) + (k : Int)) % (sampleAccounts.length : Int)).toNat]?) :=
  ⟨by decide, by decide, by decide,
    (roundRobin_fair sampleAccounts 7 (by decide) (by decide) (by decide)).1⟩

theorem priority_foldl (rest : List Account) :
    ∀ (pre : List Account) (best : Account) (i : Nat),
      pre[i]? = some best →
      (∀ a ∈ pre, a.Priority ≤ best.Priority) →
      (∀ j a, j < i → pre[j]? = some a → a.Priority < best.Priority) →
      ∃ i2 : Nat,
        (pre ++ rest)[i2]? =
          some (rest.foldl (fun best a => if a.Priority > best.Priority then a else best) best) ∧
        (∀ a ∈ pre ++ rest, a.Priority ≤
          (rest.foldl (fun best a => if a.Priority > best.Priority then a else best)
            best).Priority) ∧
        (∀ j a, j < i2 → (pre ++ rest)[j]? = some a → a.Priority <
          (rest.foldl (fun best a => if a.Priority > best.Priority then a else best)
            best).Priority) := by
  induction rest with
  | nil =>
    intro pre best i h1 h2 h3
    exact ⟨i, by simpa using h1, by simpa using h2, by simpa using h3⟩
  | cons x r ih =>
    intro pre best i h1 h2 h3
    have hi : i < pre.length := by
      by_contra hc
      rw [List.getElem?_eq_none (by omega)] at h1
      cases h1
    have happ : pre ++ x :: r = (pre ++ [x]) ++ r := by simp
    rw [List.foldl_cons, happ]
    by_cases hx : x.Priority > best.Priority
    · simp only [hx, if_true]
      apply ih (pre ++ [x]) x pre.length
      · simp
      · intro a ha
        rcases List.mem_append.1 ha with ha | ha
        · have := h2 a ha; omega
        · simp at ha; subst ha; exact le_refl _
      · intro j a hj hja
        rw [List.getElem?_append_left hj] at hja
        have := h2 a (List.getElem?_mem hja)
        omega
    · simp only [hx, if_false]
      apply ih (pre ++ [x]) best i
      · rw [List.getElem?_append_left hi]; exact h1
      · intro a ha
        rcases List.mem_append.1 ha with ha | ha
        · exact h2 a ha
        · simp at ha; subst ha; omega
      · intro j a hj hja
        rw [List.getElem?_append_left (by omega)] at hja
        exact h3 j a hj hja

/-- C12: for a non-empty list of eligible accounts, `selectByPriority` returns
an account of the list whose `Priority` is at least the `Priority` of every
account of the list, and every account at an earlier position has a strictly
smaller `Priority`: among the accounts of maximum priority it is the first. -/
theorem selectByPriority_max_first (accounts : List Account) (hne : accounts ≠ []) :
    ∃ (best : Account) (i : Nat),
      selectByPriority accounts = some best ∧ accounts[i]? = some best ∧
      (∀ a ∈ accounts, a.Priority ≤ best.Priority) ∧
      (∀ j a, j < i → accounts[j]? = some a → a.Priority < best.Priority) := by
  obtain ⟨first, rest, rfl⟩ := List.exists_cons_of_ne_nil hne
  obtain ⟨i, h1, h2, h3⟩ := priority_foldl rest [first] first 0 rfl (by simp) (by simp)
  exact ⟨_, i, rfl, h1, h2, h3⟩

/-- C12 at three accounts of priorities 1, 3, 3: the account at position 1. -/
theorem selectByPriority_max_first_witness :
    sampleAccounts ≠ [] ∧
    ∃ (best : Account) (i : Nat),
      selectByPriority sampleAccounts = some best ∧ sampleAccounts[i]? = some best ∧
      (∀ a ∈ sampleAccounts, a.Priority ≤ best.Priority) ∧
      (∀ j a, j < i → sampleAccounts[j]? = some a → a.Priority < best.Priority) :=
  ⟨by decide, selectByPriority_max_first sampleAccounts (by decide)⟩


theorem foldl_append_if {α : Type} (p : α → Bool) (l : List α) :
    ∀ init : List α,
      l.foldl (fun acc a => if p a = true then acc ++ [a] else acc) init =
        init ++ l.filter p := by
  induction l with
  | nil => intro init; simp
  | cons x r ih =>
    intro init
    rw [List.foldl_cons, ih]
    by_cases hx : p x = true <;> simp [hx, List.filter_cons]

theorem getEnabledAccounts_ok (accounts : List Account) :
    GetEnabledAccounts (.ok accounts) = .ok (accounts.filter (fun a => a.Enabled)) := by
  have h := foldl_append_if (fun a : Account => a.Enabled) accounts []
  simp only [List.nil_append] at h
  simp only [GetEnabledAccounts]
  rw [← h]

/-- The test of the filter loop of `SelectAccount`. -/
theorem availableAccounts_eq (instances : List (String × ProxyInstance))
    (exclude : Option (List (String × Bool))) (accounts : List Account) :
    availableAccounts instances exclude accounts =
      accounts.filter (fun a =>
        !isExcluded exclude a.ID &&
          match lookupInstance instances a.ID with
          | some inst => decide (inst.Status = "running")
          | none => false) := by
  have h := foldl_append_if (fun a : Account =>
        !isExcluded exclude a.ID &&
          match lookupInstance instances a.ID with
          | some inst => decide (inst.Status = "running")
          | none => false) accounts []
  simp only [List.nil_append] at h
  rw [← h]
  unfold availableAccounts
  congr 1
  funext available a
  cases he : isExcluded exclude a.ID <;> cases hl : lookupInstance instances a.ID <;> simp

theorem mem_available_iff (instances : List (String × ProxyInstance))
    (exclude : Option (List (String × Bool))) (accounts : List Account) (a : Account) :
    a ∈ availableAccounts instances exclude (accounts.filter (fun a => a.Enabled)) ↔
      a ∈ accounts ∧ Eligible instances exclude a := by
  rw [availableAccounts_eq]
  simp only [List.mem_filter, Eligible, Bool.and_eq_true, Bool.not_eq_true']
  cases hl : lookupInstance instances a.ID with
  | none => simp
  | some inst => simp; tauto

/-- One call of `selectRoundRobin` with a non-negative counter returns an
account of the list. -/
theorem selectRoundRobin_mem (accounts : List Account) (c : Int) (hne : accounts ≠ [])
    (h0 : 0 ≤ c) (h1 : c ≤ 2 ^ 63 - 1) :
    ∃ a ∈ accounts, (selectRoundRobin c accounts).2 = some a := by
  have hlen : accounts.length ≠ 0 := by
    intro h; exact hne (List.length_eq_zero.1 h)
  have hw2 : wrapInt64 (wrapInt64 (c + 1) - 1) = c := by
    unfold wrapInt64
    norm_num at h1 ⊢
    omega
  have hm : Int.tmod c (accounts.length : Int) = c % (accounts.length : Int) :=
    Int.tmod_eq_emod h0 (by omega)
  have hnn : ¬ c % (accounts.length : Int) < 0 := by
    have := Int.emod_nonneg c (b := (accounts.length : Int)) (by omega)
    omega
  have hlt := position_lt accounts.length (by omega) c
  refine ⟨accounts[(c % (accounts.length : Int)).toNat], List.getElem_mem _, ?_⟩
  simp only [selectRoundRobin, hw2, hlen, if_false, indexAccounts, hm, hnn]
  simp [hlt]

/-- What `selectRoundRobin` returns, whatever the counter, is an account of the
list. -/
theorem selectRoundRobin_some_mem (accounts : List Account) (c : Int) (a : Account)
    (h : (selectRoundRobin c accounts).2 = some a) : a ∈ accounts := by
  simp only [selectRoundRobin, indexAccounts] at h
  split_ifs at h
  exact List.getElem?_mem h

theorem selectByPriority_mem (accounts : List Account) (hne : accounts ≠ []) :
    ∃ a ∈ accounts, selectByPriority accounts = some a := by
  obtain ⟨first, rest, rfl⟩ := List.exists_cons_of_ne_nil hne
  obtain ⟨i, h1, _, _⟩ := priority_foldl rest [first] first 0 rfl (by simp) (by simp)
  exact ⟨_, List.getElem?_mem h1, rfl⟩

theorem selectionOf_selected (o : Option Account) (a : Account) :
    selectionOf o = .selected a ↔ o = some a := by
  cases o <;> simp [selectionOf]

theorem selectionOf_ne_noCandidate (o : Option Account) : selectionOf o ≠ .noCandidate := by
  cases o <;> simp [selectionOf]

/-- C13: for every account list, registry, exclude set and strategy,
`SelectAccount` returns no candidate exactly when no enabled account outside the
exclude set has a registered instance with status "running"; an account that it
returns is an account of the list that is enabled, not excluded and running; and
when such an account exists, one is returned (by the priority strategy always,
by round-robin for every counter value from `0` to `2^63 - 1`). -/
theorem selectAccount_eligible (accounts : List Account) (rrIndex : Int)
    (instances : List (String × ProxyInstance)) (strategy : String)
    (exclude : Option (List (String × Bool))) :
    ((SelectAccount (.ok accounts) rrIndex instances strategy exclude).2 = .noCandidate ↔
      ¬ ∃ a ∈ accounts, Eligible instances exclude a) ∧
    (∀ a, (SelectAccount (.ok accounts) rrIndex instances strategy exclude).2 = .selected a →
      a ∈ accounts ∧ Eligible instances exclude a) ∧
    ((strategy = "priority" ∨ (0 ≤ rrIndex ∧ rrIndex ≤ 2 ^ 63 - 1)) →
      (∃ a ∈ accounts, Eligible instances exclude a) →
      ∃ a, (SelectAccount (.ok accounts) rrIndex instances strategy exclude).2 =
        .selected a) := by
  have hmem := mem_available_iff instances exclude accounts
  simp only [SelectAccount, getEnabledAccounts_ok]
  generalize availableAccounts instances exclude (accounts.filter (fun a => a.Enabled)) = av
    at hmem ⊢
  by_cases hav : av = []
  · subst hav
    simp only [List.length_nil, if_true, true_iff]
    have hno : ¬ ∃ a ∈ accounts, Eligible instances exclude a := by
      rintro ⟨a, ha, he⟩
      have := (hmem a).2 ⟨ha, he⟩
      simp at this
    refine ⟨?_, ?_, ?_⟩
    · simpa using hno
    · intro a h; cases h
    · intro _ h; exact absurd h hno
  · have hlen : av.length ≠ 0 := fun h => hav (List.length_eq_zero.1 h)
    obtain ⟨x, rest, hx⟩ := List.exists_cons_of_ne_nil hav
    have hex : ∃ a ∈ accounts, Eligible instances exclude a :=
      ⟨x, (hmem x).1 (by rw [hx]; simp)⟩
    simp only [hlen, if_false]
    by_cases hs : strategy = "priority"
    · simp only [hs, if_true]
      obtain ⟨b, hb, hsel⟩ := selectByPriority_mem av hav
      refine ⟨?_, ?_, ?_⟩
      · simp [selectionOf_ne_noCandidate, hex]
      · intro a ha
        rw [selectionOf_selected, hsel] at ha
        cases ha
        exact (hmem b).1 hb
      · intro _ _
        exact ⟨b, (selectionOf_selected _ _).2 hsel⟩
    · simp only [hs, if_false]
      refine ⟨?_, ?_, ?_⟩
      · simp [selectionOf_ne_noCandidate, hex]
      · intro a ha
        rw [selectionOf_selected] at ha
        exact (hmem a).1 (selectRoundRobin_some_mem av rrIndex a ha)
      · intro hc _
        rcases hc with hc | ⟨h0, h1⟩
        · exact absurd hc (by simp [hs])
        · obtain ⟨b, _, hsel⟩ := selectRoundRobin_mem av rrIndex hav h0 h1
          exact ⟨b, (selectionOf_selected _ _).2 hsel⟩

/-- C13 at three enabled accounts of which "a" and "c" run, with "a" excluded,
round-robin and the counter value 0: an account is returned. -/
theorem selectAccount_eligible_witness :
    (("round-robin" = "priority" ∨ ((0 : Int) ≤ 0 ∧ (0 : Int) ≤ 2 ^ 63 - 1)) ∧
    (∃ a ∈ sampleAccounts, Eligible sampleInstances (some [("a", true)]) a)) ∧
    ∃ a, (SelectAccount (.ok sampleAccounts) 0 sampleInstances "round-robin"
      (some [("a", true)])).2 = .selected a :=
  ⟨⟨Or.inr (by decide), ⟨{ ID := "c", Enabled := true, Priority := 3 }, by decide,
      by decide, by decide, ⟨{ Status := "running" }, by decide, by decide⟩⟩⟩,
    (selectAccount_eligible sampleAccounts 0 sampleInstances "round-robin"
      (some [("a", true)])).2.2 (Or.inr (by decide))
      ⟨{ ID := "c", Enabled := true, Priority := 3 }, by decide,
        by decide, by decide, ⟨{ Status := "running" }, by decide, by decide⟩⟩⟩

end Instance

namespace Anthropic

/-! ## Request translator: user and assistant messages -/

theorem foldl_append_flatMap {α β : Type} (f : α → List β) (l : List α) :
    ∀ init : List β, l.foldl (fun acc x => acc ++ f x) init = init ++ l.flatMap f := by
  induction l with
  | nil => intro init; simp
  | cons x r ih => intro init; rw [List.foldl_cons, ih]; simp

theorem collectTexts_eq (items : List JSON) : collectTexts items = items.filterMap textOfItem := by
  have h : ∀ init : List String,
      items.foldl
        (fun parts item =>
          match item with
          | .obj m =>
            match JSON.asString (JSON.lookup m "text") with
            | some t => parts ++ [t]
            | none => parts
          | _ => parts) init = init ++ items.filterMap textOfItem := by
    induction items with
    | nil => intro init; simp
    | cons x r ih =>
      intro init
      rw [List.foldl_cons, ih]
      cases x with
      | obj m =>
        cases ht : JSON.asString (JSON.lookup m "text") <;>
          simp [List.filterMap_cons, textOfItem, ht]
      | _ => simp [List.filterMap_cons, textOfItem]
  simpa [collectTexts] using h []

theorem extractToolResultContent_eq (marshal : JSON → String) (block : ContentBlock) :
    extractToolResultContent marshal block = flattenedResult marshal block.Content2 := by
  unfold extractToolResultContent
  cases block.Content2 <;> simp [flattenedResult, collectTexts_eq]

theorem hasToolResults_eq (blocks : List ContentBlock) :
    ∀ init : Bool,
      blocks.foldl (fun has block => if block.Type_ = "tool_result" then true else has) init =
        (init || blocks.any (fun b => decide (b.Type_ = "tool_result"))) := by
  induction blocks with
  | nil => intro init; simp
  | cons x r ih =>
    intro init
    rw [List.foldl_cons, ih]
    by_cases hx : x.Type_ = "tool_result" <;> simp [hx]

theorem userSplitStep_eq (marshal : JSON → String) (result : List OpenAIMessage)
    (block : ContentBlock) :
    userSplitStep marshal result block = result ++ userBlockMessages marshal block := by
  unfold userSplitStep userBlockMessages
  by_cases h1 : block.Type_ = "tool_result"
  · simp [h1, extractToolResultContent_eq]
  · by_cases h2 : block.Type_ = "text"
    · simp [h2]
    · by_cases h3 : block.Type_ = "image"
      · cases hs : block.Source <;> simp [h3, hs, imagePart, dataURI]
      · simp [h1, h2, h3]

theorem userPartStep_eq (contentParts : List OpenAIContentPart) (block : ContentBlock) :
    userPartStep contentParts block = contentParts ++ userBlockParts block := by
  unfold userPartStep userBlockParts
  by_cases h2 : block.Type_ = "text"
  · simp [h2]
  · by_cases h3 : block.Type_ = "image"
    · cases hs : block.Source <;> simp [h3, hs, imagePart, dataURI]
    · simp [h2, h3]

/-- With a tool result among the blocks, `convertUserMessage` is the split
loop. -/
theorem convertUserMessage_split (marshal : JSON → String) (blocks : List ContentBlock)
    (h : ∃ b ∈ blocks, b.Type_ = "tool_result") :
    convertUserMessage marshal blocks = blocks.flatMap (userBlockMessages marshal) := by
  have hany : blocks.any (fun b => decide (b.Type_ = "tool_result")) = true := by
    simpa using h
  have hfold : (fun (result : List OpenAIMessage) block => userSplitStep marshal result block) =
      (fun result block => result ++ userBlockMessages marshal block) := by
    funext result block; exact userSplitStep_eq marshal result block
  unfold convertUserMessage
  simp only [hasToolResults_eq, hany, Bool.or_true, Bool.true_eq_false, if_false]
  show List.foldl (fun result block => userSplitStep marshal result block) [] blocks = _
  rw [hfold, foldl_append_flatMap]
  simp

/-- Without a tool result among the blocks, `convertUserMessage` gives one
user message built from the content parts. -/
theorem convertUserMessage_parts (marshal : JSON → String) (blocks : List ContentBlock)
    (h : ∀ b ∈ blocks, b.Type_ ≠ "tool_result") :
    convertUserMessage marshal blocks =
      match blocks.flatMap userBlockParts with
      | [tp] =>
        if tp.Type_ = "text" then [{ Role := "user", Content := .text tp.Text }]
        else [{ Role := "user", Content := .parts (blocks.flatMap userBlockParts) }]
      | _ => [{ Role := "user", Content := .parts (blocks.flatMap userBlockParts) }] := by
  have hany : blocks.any (fun b => decide (b.Type_ = "tool_result")) = false := by
    rw [List.any_eq_false]
    intro b hb
    simpa using h b hb
  have hfold : (fun (parts : List OpenAIContentPart) block => userPartStep parts block) =
      (fun parts block => parts ++ userBlockParts block) := by
    funext parts block; exact userPartStep_eq parts block
  have hparts : blocks.foldl userPartStep [] = blocks.flatMap userBlockParts := by
    show List.foldl (fun parts block => userPartStep parts block) [] blocks = _
    rw [hfold, foldl_append_flatMap]
    simp
  unfold convertUserMessage
  simp only [hasToolResults_eq, hany, Bool.or_false, if_true, hparts]

/-- C15: for every user message whose blocks contain a tool result,
`convertUserMessage` returns, in block order, one role "tool" message per
`tool_result` block (with `ToolCallID = ToolUseID` and the flattened result as
content: the string itself, or the newline-join of the text parts), one role
"user" message per `text` block and one role "user" message with one `image_url`
part per `image` block that has a source; the S3 blocks give the tool message
"42" for "t1" followed by the user message "done". -/
theorem convertUserMessage_tool_results (marshal : JSON → String)
    (blocks : List ContentBlock) (h : ∃ b ∈ blocks, b.Type_ = "tool_result") :
    convertUserMessage marshal blocks = blocks.flatMap (userBlockMessages marshal) ∧
    (∀ s, flattenedResult marshal (.str s) = s) ∧
    (∀ items, flattenedResult marshal (.arr items) =
      "\n".intercalate (items.filterMap textOfItem)) ∧
    convertUserMessage marshal s3Blocks =
      [ { Role := "tool", Content := .text "42", ToolCallID := "t1" },
        { Role := "user", Content := .text "done" } ] := by
  refine ⟨convertUserMessage_split marshal blocks h, fun _ => rfl, fun _ => rfl, ?_⟩
  rw [convertUserMessage_split marshal s3Blocks ⟨_, List.mem_cons_self _ _, rfl⟩]
  simp [s3Blocks, userBlockMessages, flattenedResult]

/-- C15 at the S3 blocks. -/
theorem convertUserMessage_tool_results_witness :
    (∃ b ∈ s3Blocks, b.Type_ = "tool_result") ∧
    convertUserMessage marshalUnused s3Blocks =
      s3Blocks.flatMap (userBlockMessages marshalUnused) :=
  ⟨by decide, (convertUserMessage_tool_results marshalUnused s3Blocks (by decide)).1⟩


theorem userBlockParts_kinds (blocks : List ContentBlock) :
    ∀ p ∈ blocks.flatMap userBlockParts,
      (p.Type_ = "text" ∧ p = { Type_ := "text", Text := p.Text }) ∨
      (p.Type_ = "image_url" ∧ ∃ source : ImageSource, p = imagePart source) := by
  intro p hp
  simp only [List.mem_flatMap] at hp
  obtain ⟨b, _, hp⟩ := hp
  unfold userBlockParts at hp
  by_cases h2 : b.Type_ = "text"
  · simp [h2] at hp; subst hp; left; exact ⟨rfl, rfl⟩
  · by_cases h3 : b.Type_ = "image"
    · cases hs : b.Source with
      | none => simp [h2, h3, hs] at hp
      | some source =>
        simp [h2, h3, hs] at hp; subst hp; right; exact ⟨rfl, source, rfl⟩
    · simp [h2, h3] at hp

/-- C18: for every user message whose blocks contain no tool result,
`convertUserMessage` returns exactly one role "user" message. With the parts in
block order (a text part per `text` block, an `image_url` part with url
`data:M;base64,D` per `image` block with source), its content is the raw text
when the parts are exactly one text part, and the sequence of parts otherwise;
media type "image/png" with data "AAA" gives "data:image/png;base64,AAA". -/
theorem convertUserMessage_no_tool_result (marshal : JSON → String)
    (blocks : List ContentBlock) (h : ∀ b ∈ blocks, b.Type_ ≠ "tool_result") :
    (∃ content : MessageContent,
      convertUserMessage marshal blocks = [{ Role := "user", Content := content }] ∧
      (∀ t, blocks.flatMap userBlockParts = [{ Type_ := "text", Text := t }] →
        content = .text t) ∧
      ((∀ t, blocks.flatMap userBlockParts ≠ [{ Type_ := "text", Text := t }]) →
        content = .parts (blocks.flatMap userBlockParts))) ∧
    (∀ b : ContentBlock, b.Type_ = "text" →
      userBlockParts b = [{ Type_ := "text", Text := b.Text }]) ∧
    (∀ (b : ContentBlock) (source : ImageSource), b.Type_ = "image" →
      b.Source = some source →
      userBlockParts b =
        [{ Type_ := "image_url",
           ImageURL := some { URL := "data:" ++ source.MediaType ++ ";base64," ++
             source.Data } }]) ∧
    (∀ b : ContentBlock, b.Type_ ≠ "text" → (b.Type_ ≠ "image" ∨ b.Source = none) →
      userBlockParts b = []) ∧
    (imagePart { MediaType := "image/png", Data := "AAA" }).ImageURL =
      some { URL := "data:image/png;base64,AAA" } := by
  refine ⟨?_, ?_, ?_, ?_, by decide⟩
  · rw [convertUserMessage_parts marshal blocks h]
    have hk := userBlockParts_kinds blocks
    generalize blocks.flatMap userBlockParts = parts at hk
    match parts, hk with
    | [], _ => exact ⟨_, rfl, by simp, by simp⟩
    | [tp], hk =>
      rcases hk tp (by simp) with ⟨h1, h2⟩ | ⟨h1, source, h2⟩
      · refine ⟨.text tp.Text, by simp [h1], ?_, ?_⟩
        · intro t ht
          simp only [List.cons.injEq, and_true] at ht
          rw [ht]
        · intro hne
          exact absurd (by rw [← h2]) (hne tp.Text)
      · refine ⟨.parts [tp], by simp [h1], ?_, ?_⟩
        · intro t ht
          simp only [List.cons.injEq, and_true] at ht
          rw [ht] at h1
          simp at h1
        · intro _; rfl
    | a :: b :: r, _ => exact ⟨_, rfl, by simp, by simp⟩
  · intro b hb
    simp [userBlockParts, hb]
  · intro b source hb hs
    have : b.Type_ ≠ "text" := by rw [hb]; decide
    simp [userBlockParts, hb, hs, imagePart]
  · intro b h1 h2
    rcases h2 with h2 | h2
    · simp [userBlockParts, h1, h2]
    · by_cases h3 : b.Type_ = "image" <;> simp [userBlockParts, h1, h2, h3]

/-- C18 at a text block followed by an image block. -/
theorem convertUserMessage_no_tool_result_witness :
    (∀ b ∈ textAndImageBlocks, b.Type_ ≠ "tool_result") ∧
    ∃ content : MessageContent,
      convertUserMessage marshalUnused textAndImageBlocks =
        [{ Role := "user", Content := content }] ∧
      (∀ t, textAndImageBlocks.flatMap userBlockParts = [{ Type_ := "text", Text := t }] →
        content = .text t) ∧
      ((∀ t, textAndImageBlocks.flatMap userBlockParts ≠ [{ Type_ := "text", Text := t }]) →
        content = .parts (textAndImageBlocks.flatMap userBlockParts)) :=
  ⟨by decide,
    (convertUserMessage_no_tool_result marshalUnused textAndImageBlocks (by decide)).1⟩

theorem assistantStep_eq (marshal : JSON → String) (acc : List String × List ToolCall)
    (block : ContentBlock) :
    assistantStep marshal acc block =
      (acc.1 ++ assistantBlockTexts block,
        acc.2 ++ (if block.Type_ = "tool_use" then [toolCallOfBlock marshal block] else [])) := by
  unfold assistantStep assistantBlockTexts
  by_cases h1 : block.Type_ = "text"
  · simp [h1]
  · by_cases h2 : block.Type_ = "thinking"
    · by_cases h3 : block.Thinking = "" <;> simp [h2, h3]
    · by_cases h3 : block.Type_ = "tool_use" <;> simp [h1, h2, h3, toolCallOfBlock]

theorem assistant_foldl (marshal : JSON → String) (blocks : List ContentBlock) :
    ∀ acc : List String × List ToolCall,
      blocks.foldl (assistantStep marshal) acc =
        (acc.1 ++ blocks.flatMap assistantBlockTexts,
          acc.2 ++ (blocks.filter (fun b => decide (b.Type_ = "tool_use"))).map
            (toolCallOfBlock marshal)) := by
  induction blocks with
  | nil => intro acc; simp
  | cons x r ih =>
    intro acc
    rw [List.foldl_cons, ih, assistantStep_eq]
    by_cases hx : x.Type_ = "tool_use" <;> simp [hx, List.filter_cons]

/-- C19 as stated fails: for a text "a", a thinking block with empty thinking
and a text "b", the content is "a\nb", while the newline-join of the text of
every text block and the thinking of every thinking block is "a\n\nb". -/
theorem assistant_empty_thinking_skipped :
    convertAssistantMessage marshalUnused emptyThinkingBlocks =
      [{ Role := "assistant", Content := .text "a\nb" }] ∧
    "\n".intercalate (emptyThinkingBlocks.flatMap assistantBlockTextsAll) = "a\n\nb" ∧
    MessageContent.text "a\nb" ≠
      MessageContent.text
        ("\n".intercalate (emptyThinkingBlocks.flatMap assistantBlockTextsAll)) := by
  decide

/-- C19 amended: for every list of blocks of an assistant message,
`convertAssistantMessage` returns exactly one role "assistant" message. Its
content is the newline-join, in block order, of the text of every text block and
the thinking of every thinking block whose thinking is not empty, and it is
absent when there is no such part; its `ToolCalls` has one entry per `tool_use`
block, in block order, with the id and name of the block, type "function" and
the JSON serialisation of the input as arguments. -/
theorem convertAssistantMessage_eq (marshal : JSON → String) (blocks : List ContentBlock) :
    convertAssistantMessage marshal blocks =
      [{ Role := "assistant",
         Content :=
           if blocks.flatMap assistantBlockTexts = [] then .absent
           else .text ("\n".intercalate (blocks.flatMap assistantBlockTexts)),
         ToolCalls :=
           (blocks.filter (fun b => decide (b.Type_ = "tool_use"))).map
             (fun b =>
               { ID := b.ID, Type_ := "function",
                 Function := { Name := b.Name, Arguments := marshal b.Input } }) }] := by
  unfold convertAssistantMessage
  rw [assistant_foldl]
  simp only [List.nil_append]
  have hcalls : (fun b : ContentBlock =>
      ({ ID := b.ID, Type_ := "function",
         Function := { Name := b.Name, Arguments := marshal b.Input } } : ToolCall)) =
      toolCallOfBlock marshal := by
    funext b; rfl
  rw [hcalls]
  generalize blocks.flatMap assistantBlockTexts = texts
  generalize (blocks.filter (fun b => decide (b.Type_ = "tool_use"))).map
    (toolCallOfBlock marshal) = calls
  cases texts <;> cases calls <;> simp


/-! ## Request translator: the payload -/

/-- The messages of the translated payload: those of the system prompt, then
those of every message in order. -/
theorem translateToOpenAI_messages (mappings : List Store.ModelMapping)
    (marshal : JSON → String) (unmarshalBlocks : JSON → Option (List ContentBlock))
    (payload : AnthropicMessagesPayload) :
    (TranslateToOpenAI mappings marshal unmarshalBlocks payload).Messages =
      systemMessages marshal payload.System ++
        payload.Messages.flatMap (convertMessage marshal unmarshalBlocks) := by
  have h := foldl_append_flatMap (convertMessage marshal unmarshalBlocks) payload.Messages
    (systemMessages marshal payload.System)
  unfold TranslateToOpenAI
  simp only []
  split_ifs <;> exact h

theorem systemMessages_not_tool (marshal : JSON → String) (system : JSON) :
    (systemMessages marshal system).filter (fun m => decide (m.Role = "tool")) = [] := by
  unfold systemMessages
  split_ifs <;> simp

theorem userBlockMessages_tool (marshal : JSON → String) (blocks : List ContentBlock) :
    (blocks.flatMap (userBlockMessages marshal)).filter (fun m => decide (m.Role = "tool")) =
      (blocks.filter (fun b => decide (b.Type_ = "tool_result"))).map
        (fun b =>
          { Role := "tool", Content := .text (flattenedResult marshal b.Content2),
            ToolCallID := b.ToolUseID }) := by
  induction blocks with
  | nil => rfl
  | cons x r ih =>
    rw [List.flatMap_cons, List.filter_append, ih]
    unfold userBlockMessages
    by_cases h1 : x.Type_ = "tool_result"
    · simp [h1, List.filter_cons]
    · by_cases h2 : x.Type_ = "text"
      · simp [h1, h2, List.filter_cons]
      · by_cases h3 : x.Type_ = "image"
        · cases hs : x.Source <;> simp [h1, h2, h3, hs, List.filter_cons]
        · simp [h1, h2, h3, List.filter_cons]

theorem convertAssistantMessage_role (marshal : JSON → String) (blocks : List ContentBlock) :
    ∀ m ∈ convertAssistantMessage marshal blocks, m.Role = "assistant" := by
  intro m hm
  unfold convertAssistantMessage at hm
  simp only [List.mem_singleton] at hm
  subst hm
  split_ifs <;> rfl

theorem convertUserMessage_tool (marshal : JSON → String) (blocks : List ContentBlock) :
    (convertUserMessage marshal blocks).filter (fun m => decide (m.Role = "tool")) =
      (blocks.filter (fun b => decide (b.Type_ = "tool_result"))).map
        (fun b =>
          { Role := "tool", Content := .text (flattenedResult marshal b.Content2),
            ToolCallID := b.ToolUseID }) := by
  by_cases ht : ∃ b ∈ blocks, b.Type_ = "tool_result"
  · rw [convertUserMessage_split marshal blocks ht, userBlockMessages_tool]
  · have hn : ∀ b ∈ blocks, b.Type_ ≠ "tool_result" := by
      intro b hb hc; exact ht ⟨b, hb, hc⟩
    have hf : blocks.filter (fun b => decide (b.Type_ = "tool_result")) = [] := by
      rw [List.filter_eq_nil_iff]
      intro b hb
      simpa using hn b hb
    rw [convertUserMessage_parts marshal blocks hn, hf]
    split
    · split_ifs <;> simp
    · simp

/-- The role "tool" messages that one message of the payload gives, when its
own role is not "tool". -/
theorem convertMessage_tool (marshal : JSON → String)
    (unmarshalBlocks : JSON → Option (List ContentBlock)) (msg : AnthropicMessage)
    (hr : msg.Role ≠ "tool") :
    (convertMessage marshal unmarshalBlocks msg).filter (fun m => decide (m.Role = "tool")) =
      (if msg.Role = "user" then
        (messageBlocks unmarshalBlocks msg).filter (fun b => decide (b.Type_ = "tool_result"))
       else []).map
        (fun b =>
          { Role := "tool", Content := .text (flattenedResult marshal b.Content2),
            ToolCallID := b.ToolUseID }) := by
  have hstr : ∀ s : String,
      List.filter (fun m : OpenAIMessage => decide (m.Role = "tool"))
        [{ Role := msg.Role, Content := .text s }] = [] := by
    intro s; simp [hr]
  have hblocks : ∀ blocks : List ContentBlock,
      (if blocks.length = 0 then [({ Role := msg.Role, Content := .text "" } : OpenAIMessage)]
        else if msg.Role = "assistant" then convertAssistantMessage marshal blocks
        else if msg.Role = "user" then convertUserMessage marshal blocks
        else
          [{ Role := msg.Role,
             Content := .text ("\n".intercalate
               (blocks.foldl
                 (fun texts b => if b.Type_ = "text" then texts ++ [b.Text] else texts)
                 [])) }]).filter (fun m => decide (m.Role = "tool")) =
      (if msg.Role = "user" then
        blocks.filter (fun b => decide (b.Type_ = "tool_result")) else []).map
        (fun b =>
          { Role := "tool", Content := .text (flattenedResult marshal b.Content2),
            ToolCallID := b.ToolUseID }) := by
    intro blocks
    by_cases h0 : blocks.length = 0
    · have : blocks = [] := List.length_eq_zero.1 h0
      subst this
      simp [hr]
    · by_cases ha : msg.Role = "assistant"
      · have hu : msg.Role ≠ "user" := by rw [ha]; decide
        rw [if_neg h0, if_pos ha, if_neg hu]
        have hrole := convertAssistantMessage_role marshal blocks
        rw [List.filter_eq_nil_iff.2 (by
          intro m hm
          rw [hrole m hm]
          decide)]
        rfl
      · by_cases hu : msg.Role = "user"
        · rw [if_neg h0, if_neg ha, if_pos hu, if_pos hu]
          exact convertUserMessage_tool marshal blocks
        · simp [h0, ha, hu, hr]
  unfold convertMessage messageBlocks
  cases hc : msg.Content with
  | str s => simp [hr]
  | null => exact hblocks _
  | bool b => exact hblocks _
  | number n => exact hblocks _
  | arr items => exact hblocks _
  | obj fields => exact hblocks _

theorem reads_filter_map (marshal : JSON → String) (items : List JSON)
    (blocks : List ContentBlock) (h : List.Forall₂ ReadsItem items blocks) :
    (blocks.filter (fun b => decide (b.Type_ = "tool_result"))).map
        (fun b =>
          ({ Role := "tool", Content := .text (flattenedResult marshal b.Content2),
             ToolCallID := b.ToolUseID } : OpenAIMessage)) =
      (items.filter isToolResultItem).map (toolMessageOfItem marshal) := by
  induction h with
  | nil => rfl
  | @cons item b items blocks hb _ ih =>
    obtain ⟨h1, h2, h3⟩ := hb
    by_cases ht : itemString item "type" = "tool_result"
    · have hbt : b.Type_ = "tool_result" := h1.trans ht
      simp only [List.filter_cons, isToolResultItem, ht, hbt, decide_True, if_true,
        List.map_cons]
      rw [ih]
      simp [toolMessageOfItem, h2, h3]
    · have hbt : ¬ b.Type_ = "tool_result" := fun e => ht (h1.symm.trans e)
      simp only [List.filter_cons, isToolResultItem, ht, hbt, decide_False,
        Bool.false_eq_true, if_false]
      exact ih

/-- The role "tool" messages that one message of the payload gives, in terms of
the elements of its content as the client sent them. -/
theorem convertMessage_tool_items (marshal : JSON → String)
    (unmarshalBlocks : JSON → Option (List ContentBlock)) (msg : AnthropicMessage)
    (hr : msg.Role ≠ "tool")
    (hd : msg.Role = "user" → (∀ s, msg.Content ≠ .str s) →
      ∀ blocks, unmarshalBlocks msg.Content = some blocks →
        List.Forall₂ ReadsItem (contentItems msg.Content) blocks) :
    (convertMessage marshal unmarshalBlocks msg).filter (fun m => decide (m.Role = "tool")) =
      (if msg.Role = "user" ∧ (unmarshalBlocks msg.Content).isSome = true then
        (contentItems msg.Content).filter isToolResultItem
       else []).map (toolMessageOfItem marshal) := by
  rw [convertMessage_tool marshal unmarshalBlocks msg hr]
  by_cases hu : msg.Role = "user"
  · rw [if_pos hu]
    by_cases hs : ∃ s, msg.Content = .str s
    · obtain ⟨s, hs⟩ := hs
      simp [messageBlocks, hs, contentItems]
    · have hns : ∀ s, msg.Content ≠ .str s := fun s e => hs ⟨s, e⟩
      have hmb : messageBlocks unmarshalBlocks msg =
          parseContentBlocks unmarshalBlocks msg.Content := by
        unfold messageBlocks
        cases hc : msg.Content with
        | str s => exact absurd hc (hns s)
        | null => rfl
        | bool b => rfl
        | number n => rfl
        | arr items => rfl
        | obj fields => rfl
      rw [hmb]
      unfold parseContentBlocks
      cases hb : unmarshalBlocks msg.Content with
      | none => simp
      | some blocks =>
        simp only [hu, Option.isSome_some, and_self, if_true]
        exact reads_filter_map marshal _ _ (hd hu hns blocks hb)
  · simp [hu]

theorem decodeStringField_eq (fields : List (String × JSON)) (key s : String)
    (h : decodeStringField fields key = some s) :
    s = itemString (.obj fields) key := by
  unfold decodeStringField at h
  show s = (JSON.asString (some ((JSON.lookup fields key).getD .null))).getD ""
  cases hl : JSON.lookup fields key with
  | none =>
    rw [hl] at h
    cases h
    rfl
  | some v =>
    rw [hl] at h
    cases v <;> simp at h <;> subst h <;> rfl

theorem decodeContentBlock_reads (item : JSON) (b : ContentBlock)
    (h : decodeContentBlock item = some b) : ReadsItem item b := by
  cases item with
  | null =>
    simp only [decodeContentBlock, Option.some.injEq] at h
    subst h
    exact ⟨rfl, rfl, rfl⟩
  | obj fields =>
    unfold decodeContentBlock at h
    cases h1 : decodeStringField fields "type" with
    | none => simp [h1] at h
    | some type =>
    cases h2 : decodeStringField fields "text" with
    | none => simp [h1, h2] at h
    | some text =>
    cases h3 : decodeSource fields with
    | none => simp [h1, h2, h3] at h
    | some source =>
    cases h4 : decodeStringField fields "id" with
    | none => simp [h1, h2, h3, h4] at h
    | some id =>
    cases h5 : decodeStringField fields "name" with
    | none => simp [h1, h2, h3, h4, h5] at h
    | some name =>
    cases h6 : decodeStringField fields "tool_use_id" with
    | none => simp [h1, h2, h3, h4, h5, h6] at h
    | some toolUseID =>
    cases h7 : decodeBoolField fields "is_error" with
    | none => simp [h1, h2, h3, h4, h5, h6, h7] at h
    | some isError =>
    cases h8 : decodeStringField fields "thinking" with
    | none => simp [h1, h2, h3, h4, h5, h6, h7, h8] at h
    | some thinking =>
      simp only [h1, h2, h3, h4, h5, h6, h7, h8, Option.some.injEq] at h
      subst h
      exact ⟨decodeStringField_eq fields "type" type h1,
        decodeStringField_eq fields "tool_use_id" toolUseID h6, rfl⟩
  | bool v => simp [decodeContentBlock] at h
  | number v => simp [decodeContentBlock] at h
  | str v => simp [decodeContentBlock] at h
  | arr v => simp [decodeContentBlock] at h

theorem mapM_decode_reads (items : List JSON) :
    ∀ blocks, items.mapM decodeContentBlock = some blocks →
      List.Forall₂ ReadsItem items blocks := by
  induction items with
  | nil =>
    intro blocks h
    rw [List.mapM_nil] at h
    cases h
    exact List.Forall₂.nil
  | cons item rest ih =>
    intro blocks h
    rw [List.mapM_cons] at h
    cases hb : decodeContentBlock item with
    | none =>
      rw [hb] at h
      cases h
    | some b =>
      cases hr : rest.mapM decodeContentBlock with
      | none =>
        rw [hb, hr] at h
        cases h
      | some bs =>
        rw [hb, hr] at h
        cases h
        exact List.Forall₂.cons (decodeContentBlock_reads item b hb) (ih bs hr)

/-- The sample decoder reads every element of every content it decodes. -/
theorem decodesItems_sample (payload : AnthropicMessagesPayload) :
    DecodesItems decodeContentBlocks payload := by
  intro m _ _ _ blocks h
  cases hc : m.Content with
  | null =>
    rw [hc] at h
    simp only [decodeContentBlocks, Option.some.injEq] at h
    subst h
    exact List.Forall₂.nil
  | arr items =>
    rw [hc] at h
    exact mapM_decode_reads items blocks h
  | bool v => rw [hc] at h; simp [decodeContentBlocks] at h
  | number v => rw [hc] at h; simp [decodeContentBlocks] at h
  | str v => rw [hc] at h; simp [decodeContentBlocks] at h
  | obj v => rw [hc] at h; simp [decodeContentBlocks] at h

/-- C14 as stated fails. An assistant message whose content holds a
`tool_result` block for "t1" is translated to one assistant message, so the
output has no role "tool" message for that block. And a user message whose
content holds a `tool_result` block for "t1" beside a text block whose `text` is
a number does not decode: it is translated to one user message with the empty
content, and the output has no role "tool" message for the block. -/
theorem assistant_tool_result_dropped :
    (toolResultBlocks decodeContentBlocks assistantToolResultPayload).map
      (fun b => b.ToolUseID) = ["t1"] ∧
    (TranslateToOpenAI [] marshalUnused decodeContentBlocks
      assistantToolResultPayload).Messages = [{ Role := "assistant" }] ∧
    toolMessages (TranslateToOpenAI [] marshalUnused decodeContentBlocks
      assistantToolResultPayload) = [] ∧
    (assistantToolResultPayload.Messages.flatMap
      (fun m => (contentItems m.Content).filter isToolResultItem)).map
        (fun item => itemString item "tool_use_id") = ["t1"] ∧
    (malformedSiblingPayload.Messages.flatMap
      (fun m => (contentItems m.Content).filter isToolResultItem)).map
        (fun item => itemString item "tool_use_id") = ["t1"] ∧
    malformedSiblingPayload.Messages.map (fun m => decodeContentBlocks m.Content) = [none] ∧
    (TranslateToOpenAI [] marshalUnused decodeContentBlocks
      malformedSiblingPayload).Messages = [{ Role := "user", Content := .text "" }] ∧
    toolMessages (TranslateToOpenAI [] marshalUnused decodeContentBlocks
      malformedSiblingPayload) = [] := by
  decide

/-- C14 amended: for every Anthropic payload none of whose messages has role
"tool", and every `json.Unmarshal` that reads, where it succeeds, the type,
tool-use id and content of each element, the role "tool" messages of the output
of `TranslateToOpenAI` are, in order, exactly one per `tool_result` element of
the structured content of those role "user" messages whose content decodes, with
`ToolCallID` equal to the `tool_use_id` of the element and the flattened result
as content; a message of another role, and a user message whose content does not
decode, gives no role "tool" message. -/
theorem translateToOpenAI_tool_messages (mappings : List Store.ModelMapping)
    (marshal : JSON → String) (unmarshalBlocks : JSON → Option (List ContentBlock))
    (payload : AnthropicMessagesPayload) (hr : ∀ m ∈ payload.Messages, m.Role ≠ "tool")
    (hd : DecodesItems unmarshalBlocks payload) :
    toolMessages (TranslateToOpenAI mappings marshal unmarshalBlocks payload) =
      (userToolResultItems unmarshalBlocks payload).map (toolMessageOfItem marshal) ∧
    (toolMessages (TranslateToOpenAI mappings marshal unmarshalBlocks payload)).map
        (fun m => m.ToolCallID) =
      (userToolResultItems unmarshalBlocks payload).map
        (fun item => itemString item "tool_use_id") ∧
    (∀ m ∈ payload.Messages, m.Role ≠ "user" ∨ unmarshalBlocks m.Content = none →
      (convertMessage marshal unmarshalBlocks m).filter
        (fun x => decide (x.Role = "tool")) = []) := by
  have h1 : toolMessages (TranslateToOpenAI mappings marshal unmarshalBlocks payload) =
      (userToolResultItems unmarshalBlocks payload).map (toolMessageOfItem marshal) := by
    unfold toolMessages userToolResultItems
    rw [translateToOpenAI_messages, List.filter_append, systemMessages_not_tool,
      List.nil_append]
    unfold DecodesItems at hd
    generalize payload.Messages = msgs at hr hd
    induction msgs with
    | nil => rfl
    | cons m r ih =>
      rw [List.flatMap_cons, List.filter_append, List.flatMap_cons, List.map_append,
        ih (fun x hx => hr x (by simp [hx])) (fun x hx => hd x (by simp [hx])),
        convertMessage_tool_items marshal unmarshalBlocks m (hr m (by simp))
          (hd m (by simp))]
  refine ⟨h1, ?_, ?_⟩
  · rw [h1, List.map_map]
    rfl
  · intro m hm hc
    rw [convertMessage_tool_items marshal unmarshalBlocks m (hr m hm) (hd m hm)]
    rcases hc with hc | hc
    · simp [hc]
    · simp [hc]

/-- C14 amended, at a payload with one user message that carries the S3 blocks:
the output has the one role "tool" message "42" for "t1". -/
theorem translateToOpenAI_tool_messages_witness :
    (∀ m ∈ s3Payload.Messages, m.Role ≠ "tool") ∧
    DecodesItems decodeContentBlocks s3Payload ∧
    toolMessages (TranslateToOpenAI [] marshalUnused decodeContentBlocks s3Payload) =
      (userToolResultItems decodeContentBlocks s3Payload).map
        (toolMessageOfItem marshalUnused) ∧
    (userToolResultItems decodeContentBlocks s3Payload).map
        (toolMessageOfItem marshalUnused) =
      [{ Role := "tool", Content := .text "42", ToolCallID := "t1" }] :=
  ⟨by decide, decodesItems_sample s3Payload,
    (translateToOpenAI_tool_messages [] marshalUnused decodeContentBlocks s3Payload
      (by decide) (decodesItems_sample s3Payload)).1,
    by decide⟩


theorem extractSystemText_arr (marshal : JSON → String) (items : List JSON) :
    extractSystemText marshal (.arr items) =
      "\n".intercalate (items.filterMap textOfItem) := by
  simp [extractSystemText, collectTexts_eq]

theorem systemMessages_eq (marshal : JSON → String) (system : JSON) (h : system ≠ .null) :
    systemMessages marshal system =
      if extractSystemText marshal system = "" then []
      else [{ Role := "system", Content := .text (extractSystemText marshal system) }] := by
  unfold systemMessages
  by_cases he : extractSystemText marshal system = "" <;> simp [h, he]

theorem convertUserMessage_roles (marshal : JSON → String) (blocks : List ContentBlock) :
    ∀ x ∈ convertUserMessage marshal blocks, x.Role = "user" ∨ x.Role = "tool" := by
  intro x hx
  by_cases ht : ∃ b ∈ blocks, b.Type_ = "tool_result"
  · rw [convertUserMessage_split marshal blocks ht] at hx
    obtain ⟨b, -, hb⟩ := List.mem_flatMap.1 hx
    unfold userBlockMessages at hb
    split_ifs at hb
    · simp only [List.mem_singleton] at hb
      subst hb
      exact Or.inr rfl
    · simp only [List.mem_singleton] at hb
      subst hb
      exact Or.inl rfl
    · cases hs : b.Source with
      | none => simp [hs] at hb
      | some source =>
        simp only [hs, List.mem_singleton] at hb
        subst hb
        exact Or.inl rfl
    · simp at hb
  · have hn : ∀ b ∈ blocks, b.Type_ ≠ "tool_result" := by
      intro b hb hc; exact ht ⟨b, hb, hc⟩
    rw [convertUserMessage_parts marshal blocks hn] at hx
    left
    split at hx
    · split_ifs at hx <;> simp only [List.mem_singleton] at hx <;> subst hx <;> rfl
    · simp only [List.mem_singleton] at hx
      subst hx
      rfl

/-- A message of the payload whose role is not "system" gives no role "system"
message. -/
theorem convertMessage_not_system (marshal : JSON → String)
    (unmarshalBlocks : JSON → Option (List ContentBlock)) (msg : AnthropicMessage)
    (hr : msg.Role ≠ "system") :
    ∀ x ∈ convertMessage marshal unmarshalBlocks msg, x.Role ≠ "system" := by
  have hblocks : ∀ blocks : List ContentBlock,
      ∀ x ∈ (if blocks.length = 0 then
          [({ Role := msg.Role, Content := .text "" } : OpenAIMessage)]
        else if msg.Role = "assistant" then convertAssistantMessage marshal blocks
        else if msg.Role = "user" then convertUserMessage marshal blocks
        else
          [{ Role := msg.Role,
             Content := .text ("\n".intercalate
               (blocks.foldl
                 (fun texts b => if b.Type_ = "text" then texts ++ [b.Text] else texts)
                 [])) }]), x.Role ≠ "system" := by
    intro blocks x hx
    split_ifs at hx
    · simp only [List.mem_singleton] at hx
      subst hx
      exact hr
    · rw [convertAssistantMessage_role marshal blocks x hx]
      decide
    · rcases convertUserMessage_roles marshal blocks x hx with h | h <;> rw [h] <;> decide
    · simp only [List.mem_singleton] at hx
      subst hx
      exact hr
  unfold convertMessage
  cases hc : msg.Content with
  | str s =>
    intro x hx
    simp only [List.mem_singleton] at hx
    subst hx
    exact hr
  | null => exact hblocks _
  | bool b => exact hblocks _
  | number n => exact hblocks _
  | arr items => exact hblocks _
  | obj fields => exact hblocks _

theorem flatMap_convertMessage_not_system (marshal : JSON → String)
    (unmarshalBlocks : JSON → Option (List ContentBlock)) (msgs : List AnthropicMessage)
    (hr : ∀ m ∈ msgs, m.Role ≠ "system") :
    ∀ x ∈ msgs.flatMap (convertMessage marshal unmarshalBlocks), x.Role ≠ "system" := by
  intro x hx
  obtain ⟨m, hm, hxm⟩ := List.mem_flatMap.1 hx
  exact convertMessage_not_system marshal unmarshalBlocks m (hr m hm) x hxm

/-- C16 as stated fails when a message of the payload has itself the role
"system": `convertMessage` passes the role through. Without a system field the
output of `systemRolePayload` is one role "system" message; and with the empty
string as system field, whose flattened string is empty, the output of
`emptySystemPayload` starts with a role "system" message that carries that empty
string. -/
theorem system_role_message_passed_through :
    systemRolePayload.System = .null ∧
    (TranslateToOpenAI [] marshalUnused decodeContentBlocks systemRolePayload).Messages =
      [{ Role := "system", Content := .text "be brief" }] ∧
    extractSystemText marshalUnused emptySystemPayload.System = "" ∧
    (TranslateToOpenAI [] marshalUnused decodeContentBlocks emptySystemPayload).Messages =
      [{ Role := "system",
         Content := .text (extractSystemText marshalUnused emptySystemPayload.System) }] := by
  decide

/-- C16 amended: for every payload whose system field is a string or a sequence,
the system prompt is flattened to one string (the string itself, or the text
parts joined with "\n" in order, which for `{type, text}` blocks are their
texts), and the output messages are a leading role "system" message with that
string when it is not empty, and no message when it is empty, followed by the
messages converted from the messages of the payload; when the system field is
absent the output has no message for it. When no message of the payload has
itself the role "system", the output starts with a role "system" message if and
only if the flattened string is not empty, and when it is empty or the system
field is absent the output has no role "system" message at all. -/
theorem system_prompt_flattened (mappings : List Store.ModelMapping)
    (marshal : JSON → String) (unmarshalBlocks : JSON → Option (List ContentBlock))
    (payload : AnthropicMessagesPayload) :
    (((∃ s, payload.System = .str s) ∨ (∃ items, payload.System = .arr items)) →
      (TranslateToOpenAI mappings marshal unmarshalBlocks payload).Messages =
        (if extractSystemText marshal payload.System = "" then []
         else [{ Role := "system",
                 Content := .text (extractSystemText marshal payload.System) }]) ++
        payload.Messages.flatMap (convertMessage marshal unmarshalBlocks)) ∧
    (payload.System = .null →
      (TranslateToOpenAI mappings marshal unmarshalBlocks payload).Messages =
        payload.Messages.flatMap (convertMessage marshal unmarshalBlocks)) ∧
    (∀ s, extractSystemText marshal (.str s) = s) ∧
    (∀ items, extractSystemText marshal (.arr items) =
      "\n".intercalate (items.filterMap textOfItem)) ∧
    (∀ blocks : List SystemBlock,
      extractSystemText marshal (.arr (blocks.map SystemBlock.toJSON)) =
        "\n".intercalate (blocks.map (fun b => b.Text))) ∧
    (((∃ s, payload.System = .str s) ∨ (∃ items, payload.System = .arr items)) →
      extractSystemText marshal payload.System ≠ "" →
      ∃ rest, (TranslateToOpenAI mappings marshal unmarshalBlocks payload).Messages =
        { Role := "system", Content := .text (extractSystemText marshal payload.System) } ::
          rest) ∧
    ((∀ m ∈ payload.Messages, m.Role ≠ "system") →
      (((∃ s, payload.System = .str s) ∨ (∃ items, payload.System = .arr items)) →
        ((∃ x rest,
            (TranslateToOpenAI mappings marshal unmarshalBlocks payload).Messages = x :: rest ∧
            x.Role = "system") ↔
          extractSystemText marshal payload.System ≠ "")) ∧
      (((∃ s, payload.System = .str s) ∨ (∃ items, payload.System = .arr items)) →
        extractSystemText marshal payload.System = "" →
        ∀ x ∈ (TranslateToOpenAI mappings marshal unmarshalBlocks payload).Messages,
          x.Role ≠ "system") ∧
      (payload.System = .null →
        ∀ x ∈ (TranslateToOpenAI mappings marshal unmarshalBlocks payload).Messages,
          x.Role ≠ "system")) := by
  have hsys : ((∃ s, payload.System = .str s) ∨ (∃ items, payload.System = .arr items)) →
      (TranslateToOpenAI mappings marshal unmarshalBlocks payload).Messages =
        (if extractSystemText marshal payload.System = "" then []
         else [{ Role := "system",
                 Content := .text (extractSystemText marshal payload.System) }]) ++
        payload.Messages.flatMap (convertMessage marshal unmarshalBlocks) := by
    intro h
    have hn : payload.System ≠ .null := by
      rcases h with ⟨s, hs⟩ | ⟨items, hs⟩ <;> rw [hs] <;> simp
    rw [translateToOpenAI_messages, systemMessages_eq marshal _ hn]
  have hnull : payload.System = .null →
      (TranslateToOpenAI mappings marshal unmarshalBlocks payload).Messages =
        payload.Messages.flatMap (convertMessage marshal unmarshalBlocks) := by
    intro h
    rw [translateToOpenAI_messages, h]
    simp [systemMessages]
  refine ⟨hsys, hnull, fun _ => rfl, extractSystemText_arr marshal, ?_, ?_, ?_⟩
  · intro blocks
    rw [extractSystemText_arr, List.filterMap_map]
    congr 1
    induction blocks with
    | nil => rfl
    | cons b r ih =>
      simp only [List.filterMap_cons, List.map_cons, Function.comp]
      rw [ih]
      simp [textOfItem, SystemBlock.toJSON, JSON.lookup, JSON.asString]
  · intro h hne
    rw [hsys h, if_neg hne]
    exact ⟨_, rfl⟩
  · intro hr
    have hconv := flatMap_convertMessage_not_system marshal unmarshalBlocks payload.Messages hr
    refine ⟨?_, ?_, ?_⟩
    · intro h
      constructor
      · rintro ⟨x, rest, hx, hrole⟩ hempty
        rw [hsys h, if_pos hempty, List.nil_append] at hx
        exact hconv x (by rw [hx]; exact List.mem_cons_self _ _) hrole
      · intro hne
        rw [hsys h, if_neg hne]
        exact ⟨_, _, rfl, rfl⟩
    · intro h hempty x hx
      rw [hsys h, if_pos hempty, List.nil_append] at hx
      exact hconv x hx
    · intro h x hx
      rw [hnull h] at hx
      exact hconv x hx

/-- C16 amended, at a payload whose system prompt is two text blocks and whose
only message has the role "user": the output starts with the system message
"You are terse.\nAnswer in French.". -/
theorem system_prompt_flattened_witness :
    ((∃ s, systemBlocksPayload.System = .str s) ∨
      (∃ items, systemBlocksPayload.System = .arr items)) ∧
    (TranslateToOpenAI [] marshalUnused decodeContentBlocks systemBlocksPayload).Messages =
      (if extractSystemText marshalUnused systemBlocksPayload.System = "" then []
       else [{ Role := "system",
               Content := .text (extractSystemText marshalUnused
                 systemBlocksPayload.System) }]) ++
      systemBlocksPayload.Messages.flatMap
        (convertMessage marshalUnused decodeContentBlocks) ∧
    extractSystemText marshalUnused systemBlocksPayload.System =
      "You are terse.\nAnswer in French." ∧
    (∀ m ∈ systemBlocksPayload.Messages, m.Role ≠ "system") ∧
    ((∃ x rest,
        (TranslateToOpenAI [] marshalUnused decodeContentBlocks systemBlocksPayload).Messages =
          x :: rest ∧ x.Role = "system") ↔
      extractSystemText marshalUnused systemBlocksPayload.System ≠ "") :=
  ⟨Or.inr ⟨_, rfl⟩,
    (system_prompt_flattened [] marshalUnused decodeContentBlocks systemBlocksPayload).1
      (Or.inr ⟨_, rfl⟩),
    by decide, by decide,
    ((system_prompt_flattened [] marshalUnused decodeContentBlocks
      systemBlocksPayload).2.2.2.2.2.2 (by decide)).1 (Or.inr ⟨_, rfl⟩)⟩

/-- C17: `convertToolChoice` returns "auto" for "auto", "required" for "any",
"none" for "none", the object `{type: "function", function: {name: X}}` for an
object of type "tool" with name `X`, and "auto" for every other value: another
string, an object whose type is missing, not a string, or none of "auto", "any",
"none", "tool", and every value that is neither a string nor an object. An
object of type "auto", "any" or "none" is mapped like the string; a missing or
non-string name of a "tool" object gives the empty name. -/
theorem convertToolChoice_cases :
    convertToolChoice (.str "auto") = .str "auto" ∧
    convertToolChoice (.str "any") = .str "required" ∧
    convertToolChoice (.str "none") = .str "none" ∧
    (∀ (fields : List (String × JSON)) (X : String),
      JSON.asString (JSON.lookup fields "type") = some "tool" →
      JSON.asString (JSON.lookup fields "name") = some X →
      convertToolChoice (.obj fields) =
        .obj [("type", .str "function"), ("function", .obj [("name", .str X)])]) ∧
    (∀ s : String, s ≠ "auto" → s ≠ "any" → s ≠ "none" →
      convertToolChoice (.str s) = .str "auto") ∧
    (∀ fields : List (String × JSON),
      JSON.asString (JSON.lookup fields "type") ≠ some "auto" →
      JSON.asString (JSON.lookup fields "type") ≠ some "any" →
      JSON.asString (JSON.lookup fields "type") ≠ some "none" →
      JSON.asString (JSON.lookup fields "type") ≠ some "tool" →
      convertToolChoice (.obj fields) = .str "auto") ∧
    convertToolChoice .null = .str "auto" ∧
    (∀ b, convertToolChoice (.bool b) = .str "auto") ∧
    (∀ n, convertToolChoice (.number n) = .str "auto") ∧
    (∀ items, convertToolChoice (.arr items) = .str "auto") ∧
    (∀ fields : List (String × JSON),
      (JSON.asString (JSON.lookup fields "type") = some "auto" →
        convertToolChoice (.obj fields) = .str "auto") ∧
      (JSON.asString (JSON.lookup fields "type") = some "any" →
        convertToolChoice (.obj fields) = .str "required") ∧
      (JSON.asString (JSON.lookup fields "type") = some "none" →
        convertToolChoice (.obj fields) = .str "none") ∧
      (JSON.asString (JSON.lookup fields "type") = some "tool" →
        JSON.asString (JSON.lookup fields "name") = none →
        convertToolChoice (.obj fields) =
          .obj [("type", .str "function"), ("function", .obj [("name", .str "")])])) := by
  refine ⟨rfl, rfl, rfl, ?_, ?_, ?_, rfl, fun _ => rfl, fun _ => rfl, fun _ => rfl, ?_⟩
  · intro fields X ht hn
    simp [convertToolChoice, ht, hn]
  · intro s h1 h2 h3
    simp [convertToolChoice, h1, h2, h3]
  · intro fields h1 h2 h3 h4
    cases ht : JSON.asString (JSON.lookup fields "type") with
    | none => simp [convertToolChoice, ht]
    | some t =>
      rw [ht] at h1 h2 h3 h4
      simp only [ne_eq, Option.some.injEq] at h1 h2 h3 h4
      simp [convertToolChoice, ht, h1, h2, h3, h4]
  · intro fields
    refine ⟨?_, ?_, ?_, ?_⟩
    · intro ht; simp [convertToolChoice, ht]
    · intro ht; simp [convertToolChoice, ht]
    · intro ht; simp [convertToolChoice, ht]
    · intro ht hn; simp [convertToolChoice, ht, hn]

/-- C17 at the object `{"type": "tool", "name": "get_weather"}` and at the
unknown string "maybe". -/
theorem convertToolChoice_cases_witness :
    convertToolChoice (.obj [("type", .str "tool"), ("name", .str "get_weather")]) =
      .obj [("type", .str "function"), ("function", .obj [("name", .str "get_weather")])] ∧
    convertToolChoice (.str "maybe") = .str "auto" :=
  ⟨convertToolChoice_cases.2.2.2.1 [("type", .str "tool"), ("name", .str "get_weather")]
      "get_weather" (by decide) (by decide),
    convertToolChoice_cases.2.2.2.2.1 "maybe" (by decide) (by decide) (by decide)⟩

/-! ## Response translator -/

theorem responseToolStep_foldl (unmarshal : String → Option JSON) (tcs : List ToolCall) :
    ∀ content : List AnthropicContentBlock,
      tcs.foldl (responseToolStep unmarshal) content =
        content ++ tcs.map
          (fun tc =>
            { Type_ := "tool_use", ID := tc.ID, Name := tc.Function.Name,
              Input := if tc.Function.Arguments = "" then .null
                       else parseJSONSafe unmarshal tc.Function.Arguments }) := by
  induction tcs with
  | nil => intro content; simp
  | cons tc r ih =>
    intro content
    rw [List.foldl_cons, ih]
    by_cases h : tc.Function.Arguments = "" <;> simp [responseToolStep, h]

theorem responseChoiceStep_content (unmarshal : String → Option JSON)
    (acc : List AnthropicContentBlock × String) (choice : Choice) :
    (responseChoiceStep unmarshal acc choice).1 = acc.1 ++ choiceBlocks unmarshal choice := by
  unfold responseChoiceStep choiceBlocks
  cases choice.Message with
  | none => simp
  | some msg =>
    simp only [responseToolStep_foldl]
    by_cases h : msg.Content = "" <;> simp [h]

theorem responseChoice_foldl (unmarshal : String → Option JSON) (choices : List Choice) :
    ∀ acc : List AnthropicContentBlock × String,
      (choices.foldl (responseChoiceStep unmarshal) acc).1 =
        acc.1 ++ choices.flatMap (choiceBlocks unmarshal) := by
  induction choices with
  | nil => intro acc; simp
  | cons c r ih =>
    intro acc
    rw [List.foldl_cons, ih, responseChoiceStep_content]
    simp

/-- C20: for every OpenAI unary response, the content list returned by
`TranslateToAnthropic` is never empty: it is the concatenation over the choices
in order, skipping choices without a message, of a text block when the message
content is not empty followed by one `tool_use` block per tool call in order
(with the id and name of the call), and when that concatenation is empty it is
the single block of type "text" with the empty text. -/
theorem translateToAnthropic_content (unmarshal : String → Option JSON) (now : Int)
    (resp : ChatCompletionResponse) :
    (TranslateToAnthropic unmarshal now resp).Content ≠ [] ∧
    (TranslateToAnthropic unmarshal now resp).Content =
      (if resp.Choices.flatMap (choiceBlocks unmarshal) = [] then
        [{ Type_ := "text", Text := "" }]
       else resp.Choices.flatMap (choiceBlocks unmarshal)) := by
  have h : (TranslateToAnthropic unmarshal now resp).Content =
      (if resp.Choices.flatMap (choiceBlocks unmarshal) = [] then
        [{ Type_ := "text", Text := "" }]
       else resp.Choices.flatMap (choiceBlocks unmarshal)) := by
    unfold TranslateToAnthropic
    simp only [responseChoice_foldl, List.nil_append]
    generalize resp.Choices.flatMap (choiceBlocks unmarshal) = blocks
    cases blocks <;> simp
  refine ⟨?_, h⟩
  rw [h]
  split_ifs with he
  · simp
  · exact he

end Anthropic

namespace Handler

open Store

/-! ## proxyAuth -/

theorem trimPrefix_append (pre t : String) : TrimPrefix (pre ++ t) pre = t := by
  unfold TrimPrefix
  have h : pre.data.isPrefixOf (pre ++ t).data = true := by
    rw [String.data_append, List.isPrefixOf_iff_prefix]
    exact List.prefix_append _ _
  rw [if_pos h, String.data_append, List.drop_left]

theorem bearer_ne_empty (t : String) : "Bearer " ++ t ≠ "" := by
  intro h
  have h2 := congrArg String.length h
  rw [String.length_append] at h2
  have h3 : "Bearer ".length = 7 := by decide
  have h4 : "".length = 0 := by decide
  omega

theorem getPoolConfig_some (storedPool : Option PoolConfig) :
    ∃ cfg, GetPoolConfig storedPool = some cfg ∧
      (storedPool = none → cfg.Enabled = false) ∧
      (∀ stored, storedPool = some stored →
        cfg.Enabled = stored.Enabled ∧ cfg.ApiKey = stored.ApiKey) := by
  cases storedPool with
  | none => exact ⟨_, rfl, (fun _ => rfl), (fun _ h => by cases h)⟩
  | some stored =>
    by_cases hs : stored.Strategy = ""
    · refine ⟨{ stored with Strategy := "round-robin" }, by simp [GetPoolConfig, hs],
        (fun h => by cases h), ?_⟩
      intro s h
      cases h
      exact ⟨rfl, rfl⟩
    · refine ⟨stored, by simp [GetPoolConfig, hs], (fun h => by cases h), ?_⟩
      intro s h
      cases h
      exact ⟨rfl, rfl⟩

theorem proxyAuth_bearer (storedPool : Option PoolConfig) (accounts : List Account)
    (token xApiKey : String) (cfg : PoolConfig) (hc : GetPoolConfig storedPool = some cfg) :
    proxyAuth storedPool (.ok accounts) ("Bearer " ++ token) xApiKey =
      if cfg.Enabled = true ∧ cfg.ApiKey = token then .pool cfg.Strategy
      else
        match accounts.find? (fun a => decide (a.ApiKey = token)) with
        | some account => .account account.ID
        | none => .unauthorized "invalid API key" := by
  unfold proxyAuth
  simp only [bearer_ne_empty, if_false, trimPrefix_append, hc, GetAccountByApiKey]
  by_cases hp : cfg.Enabled = true ∧ cfg.ApiKey = token
  · simp [hp]
  · simp only [hp, if_false]
    cases accounts.find? (fun a => decide (a.ApiKey = token)) <;> rfl

/-- C23: token resolution in `proxyAuth` checks the pool key first. For every
stored pool configuration, account list and bearer token: when the pool is
enabled and its key equals the token the request is pool-authenticated, whatever
the accounts; otherwise the request is bound to the first account whose key
equals the token; otherwise, when no account has the key, it is rejected with
status 401. The key of a disabled pool never pool-authenticates. A token sent in
the header `x-api-key` resolves as the same token sent as a bearer token. -/
theorem proxyAuth_resolution (storedPool : Option PoolConfig) (accounts : List Account)
    (token xApiKey : String) :
    ∃ cfg, GetPoolConfig storedPool = some cfg ∧
      (storedPool = none → cfg.Enabled = false) ∧
      (∀ stored, storedPool = some stored →
        cfg.Enabled = stored.Enabled ∧ cfg.ApiKey = stored.ApiKey) ∧
      (cfg.Enabled = true → cfg.ApiKey = token →
        proxyAuth storedPool (.ok accounts) ("Bearer " ++ token) xApiKey =
          .pool cfg.Strategy) ∧
      (¬ (cfg.Enabled = true ∧ cfg.ApiKey = token) →
        ∀ pre a suf, accounts = pre ++ a :: suf → a.ApiKey = token →
          (∀ b ∈ pre, b.ApiKey ≠ token) →
          proxyAuth storedPool (.ok accounts) ("Bearer " ++ token) xApiKey =
            .account a.ID) ∧
      (¬ (cfg.Enabled = true ∧ cfg.ApiKey = token) →
        (∀ a ∈ accounts, a.ApiKey ≠ token) →
        proxyAuth storedPool (.ok accounts) ("Bearer " ++ token) xApiKey =
          .unauthorized "invalid API key") ∧
      (cfg.Enabled = false →
        ∀ strategy,
          proxyAuth storedPool (.ok accounts) ("Bearer " ++ token) xApiKey ≠
            .pool strategy) ∧
      (token ≠ "" →
        proxyAuth storedPool (.ok accounts) "" token =
          proxyAuth storedPool (.ok accounts) ("Bearer " ++ token) xApiKey) := by
  obtain ⟨cfg, hc, hn, hs⟩ := getPoolConfig_some storedPool
  refine ⟨cfg, hc, hn, hs, ?_, ?_, ?_, ?_, ?_⟩
  · intro he hk
    rw [proxyAuth_bearer _ _ _ _ cfg hc, if_pos ⟨he, hk⟩]
  · intro hp pre a suf ha hk hpre
    rw [proxyAuth_bearer _ _ _ _ cfg hc, if_neg hp]
    have hf : accounts.find? (fun a => decide (a.ApiKey = token)) = some a := by
      rw [ha, List.find?_append]
      have h1 : pre.find? (fun a => decide (a.ApiKey = token)) = none := by
        rw [List.find?_eq_none]
        intro b hb
        simpa using hpre b hb
      rw [h1]
      simp [hk]
    rw [hf]
  · intro hp hall
    rw [proxyAuth_bearer _ _ _ _ cfg hc, if_neg hp]
    have hf : accounts.find? (fun a => decide (a.ApiKey = token)) = none := by
      rw [List.find?_eq_none]
      intro b hb
      simpa using hall b hb
    rw [hf]
  · intro hd strategy
    rw [proxyAuth_bearer _ _ _ _ cfg hc]
    have hp : ¬ (cfg.Enabled = true ∧ cfg.ApiKey = token) := by
      rintro ⟨he, -⟩
      rw [hd] at he
      cases he
    rw [if_neg hp]
    cases accounts.find? (fun a => decide (a.ApiKey = token)) <;> simp
  · intro ht
    have h1 : proxyAuth storedPool (.ok accounts) "" token =
        proxyAuth storedPool (.ok accounts) ("Bearer " ++ token) "" := by
      unfold proxyAuth
      simp [ht, bearer_ne_empty]
    rw [h1, proxyAuth_bearer _ _ _ _ cfg hc, proxyAuth_bearer _ _ _ _ cfg hc]

/-- C23 at a pool key that an account shares: with the pool enabled the request
is pool-authenticated, with the pool disabled it is bound to the first of the two
accounts that have the key, and an unknown token is rejected. -/
theorem proxyAuth_resolution_witness :
    proxyAuth (some { Enabled := true, ApiKey := "k" })
        (.ok [{ ID := "a", ApiKey := "k" }, { ID := "b", ApiKey := "k" }]) "Bearer k" "" =
      .pool "round-robin" ∧
    proxyAuth (some { Enabled := false, ApiKey := "k" })
        (.ok [{ ID := "a", ApiKey := "k" }, { ID := "b", ApiKey := "k" }]) "Bearer k" "" =
      .account "a" ∧
    proxyAuth (some { Enabled := false, ApiKey := "k" })
        (.ok [{ ID := "a", ApiKey := "k" }]) "Bearer z" "" =
      .unauthorized "invalid API key" ∧
    ∃ cfg, GetPoolConfig (some { Enabled := true, ApiKey := "k" }) = some cfg ∧
      proxyAuth (some { Enabled := true, ApiKey := "k" })
        (.ok [{ ID := "a", ApiKey := "k" }]) ("Bearer " ++ "k") "" = .pool cfg.Strategy := by
  refine ⟨by decide, by decide, by decide, ?_⟩
  obtain ⟨cfg, hc, -, hs, hp, -⟩ :=
    proxyAuth_resolution (some { Enabled := true, ApiKey := "k" })
      [{ ID := "a", ApiKey := "k" }] "k" ""
  exact ⟨cfg, hc, hp (by rw [(hs _ rfl).1]) (by rw [(hs _ rfl).2])⟩

end Handler

namespace Instance

open Store

/-! ## Instance manager: the registry -/

theorem lookup_cons (p : String × ProxyInstance) (rest : List (String × ProxyInstance))
    (id : String) :
    lookupInstance (p :: rest) id = if p.1 = id then some p.2 else lookupInstance rest id := by
  unfold lookupInstance
  by_cases h : p.1 = id <;> simp [List.find?_cons, h]

theorem lookup_setInstance_same (instances : List (String × ProxyInstance)) (id : String)
    (inst : ProxyInstance) : lookupInstance (setInstance instances id inst) id = some inst := by
  induction instances with
  | nil => simp [setInstance, lookup_cons]
  | cons p rest ih =>
    by_cases h : p.1 = id
    · simp [setInstance, lookup_cons, h]
    · simp [setInstance, lookup_cons, h, ih]

theorem lookup_setInstance_other (instances : List (String × ProxyInstance)) (id other : String)
    (inst : ProxyInstance) (h : other ≠ id) :
    lookupInstance (setInstance instances id inst) other = lookupInstance instances other := by
  induction instances with
  | nil =>
    have h2 : ¬ id = other := fun e => h e.symm
    simp [setInstance, lookup_cons, h2, lookupInstance]
  | cons p rest ih =>
    by_cases hp : p.1 = id
    · have h2 : ¬ id = other := fun e => h e.symm
      have h3 : ¬ p.1 = other := fun e => h (e.symm.trans hp)
      simp [setInstance, lookup_cons, hp, h2]
    · by_cases ho : p.1 = other
      · subst ho
        simp [setInstance, lookup_cons, hp]
      · simp [setInstance, lookup_cons, hp, ho, ih]

theorem lookup_updateInstance_same (instances : List (String × ProxyInstance)) (id : String)
    (f : ProxyInstance → ProxyInstance) :
    lookupInstance (updateInstance instances id f) id = (lookupInstance instances id).map f := by
  induction instances with
  | nil => simp [updateInstance, lookupInstance]
  | cons p rest ih =>
    by_cases h : p.1 = id
    · simp [updateInstance, lookup_cons, h]
    · simp [updateInstance, lookup_cons, h, ih]

theorem lookup_updateInstance_other (instances : List (String × ProxyInstance))
    (id other : String) (f : ProxyInstance → ProxyInstance) (h : other ≠ id) :
    lookupInstance (updateInstance instances id f) other = lookupInstance instances other := by
  induction instances with
  | nil => simp [updateInstance]
  | cons p rest ih =>
    by_cases hp : p.1 = id
    · have h2 : ¬ id = other := fun e => h e.symm
      simp [updateInstance, lookup_cons, hp, h2]
    · by_cases ho : p.1 = other
      · subst ho
        simp [updateInstance, lookup_cons, hp]
      · simp [updateInstance, lookup_cons, hp, ho, ih]

theorem lookup_mem (instances : List (String × ProxyInstance)) (id : String)
    (inst : ProxyInstance) (h : lookupInstance instances id = some inst) :
    ∃ p ∈ instances, p.2 = inst := by
  induction instances with
  | nil => simp [lookupInstance] at h
  | cons p rest ih =>
    rw [lookup_cons] at h
    by_cases hp : p.1 = id
    · rw [if_pos hp] at h
      exact ⟨p, List.mem_cons_self _ _, Option.some.inj h⟩
    · rw [if_neg hp] at h
      obtain ⟨q, hq, he⟩ := ih h
      exact ⟨q, List.mem_cons_of_mem _ hq, he⟩

theorem mem_setInstance (instances : List (String × ProxyInstance)) (id : String)
    (inst : ProxyInstance) (p : String × ProxyInstance)
    (h : p ∈ setInstance instances id inst) : p ∈ instances ∨ p = (id, inst) := by
  induction instances with
  | nil => simpa [setInstance] using h
  | cons q rest ih =>
    by_cases hq : q.1 = id
    · simp only [setInstance, hq, if_true, List.mem_cons] at h
      rcases h with h | h
      · exact Or.inr h
      · exact Or.inl (List.mem_cons_of_mem _ h)
    · simp only [setInstance, hq, if_false, List.mem_cons] at h
      rcases h with h | h
      · exact Or.inl (h ▸ List.mem_cons_self _ _)
      · rcases ih h with h2 | h2
        · exact Or.inl (List.mem_cons_of_mem _ h2)
        · exact Or.inr h2

theorem mem_updateInstance (instances : List (String × ProxyInstance)) (id : String)
    (f : ProxyInstance → ProxyInstance) (p : String × ProxyInstance)
    (h : p ∈ updateInstance instances id f) :
    p ∈ instances ∨ ∃ q ∈ instances, p = (q.1, f q.2) := by
  induction instances with
  | nil => simp [updateInstance] at h
  | cons q rest ih =>
    by_cases hq : q.1 = id
    · simp only [updateInstance, hq, if_true, List.mem_cons] at h
      rcases h with h | h
      · exact Or.inr ⟨q, List.mem_cons_self _ _, by rw [h, hq]⟩
      · exact Or.inl (List.mem_cons_of_mem _ h)
    · simp only [updateInstance, hq, if_false, List.mem_cons] at h
      rcases h with h | h
      · exact Or.inl (h ▸ List.mem_cons_self _ _)
      · rcases ih h with h2 | ⟨r, hr, h2⟩
        · exact Or.inl (List.mem_cons_of_mem _ h2)
        · exact Or.inr ⟨r, List.mem_cons_of_mem _ hr, h2⟩

/-! ## Instance manager: the functions by cases -/

theorem startInstance_running (vsVer : String) (exchange : Except String String)
    (fetch : Except String Config.ModelsResponse) (instances : List (String × ProxyInstance))
    (account : Account) (inst : ProxyInstance)
    (h : lookupInstance instances account.ID = some inst) (hr : inst.Status = "running") :
    StartInstance vsVer exchange fetch instances account =
      { instances := instances, err := none, calls := [] } := by
  unfold StartInstance
  simp [h, hr]

/-- The three ways through `StartInstance`: the early return on a running
instance, the failed token exchange, and the start. -/
theorem startInstance_cases (vsVer : String) (exchange : Except String String)
    (fetch : Except String Config.ModelsResponse) (instances : List (String × ProxyInstance))
    (account : Account) :
    (∃ inst, lookupInstance instances account.ID = some inst ∧ inst.Status = "running" ∧
      StartInstance vsVer exchange fetch instances account =
        { instances := instances, err := none, calls := [] }) ∨
    ((∀ inst, lookupInstance instances account.ID = some inst → inst.Status ≠ "running") ∧
      ∃ msg, exchange = .error msg ∧
      StartInstance vsVer exchange fetch instances account =
        { instances := setInstance instances account.ID
            { Account := account,
              State := { GithubToken := account.GithubToken,
                         AccountType := account.AccountType, VSCodeVersion := vsVer },
              Status := "error", Error := msg },
          err := some msg, calls := [.vsCodeVersion, .copilotToken] }) ∨
    ((∀ inst, lookupInstance instances account.ID = some inst → inst.Status ≠ "running") ∧
      ∃ token, exchange = .ok token ∧
      StartInstance vsVer exchange fetch instances account =
        { instances := setInstance instances account.ID
            { Account := account,
              State := (fetchModels fetch
                { GithubToken := account.GithubToken, CopilotToken := token,
                  AccountType := account.AccountType, VSCodeVersion := vsVer }).1,
              Status := "running", stopChan := .made },
          err := none, calls := [.vsCodeVersion, .copilotToken, .models] }) := by
  cases hl : lookupInstance instances account.ID with
  | some inst =>
    by_cases hr : inst.Status = "running"
    · exact Or.inl ⟨inst, rfl, hr, startInstance_running _ _ _ _ _ inst hl hr⟩
    · have hn : ∀ i, some inst = some i → i.Status ≠ "running" := by
        intro i hi
        cases hi
        exact hr
      cases exchange with
      | error msg =>
        exact Or.inr (Or.inl ⟨hn, msg, rfl,
          by simp [StartInstance, hl, hr, refreshCopilotToken, Config.NewState]⟩)
      | ok token =>
        exact Or.inr (Or.inr ⟨hn, token, rfl,
          by simp [StartInstance, hl, hr, refreshCopilotToken, Config.NewState]⟩)
  | none =>
    have hn : ∀ i, (none : Option ProxyInstance) = some i → i.Status ≠ "running" := by
      intro i hi
      cases hi
    cases exchange with
    | error msg =>
      exact Or.inr (Or.inl ⟨hn, msg, rfl,
        by simp [StartInstance, hl, refreshCopilotToken, Config.NewState]⟩)
    | ok token =>
      exact Or.inr (Or.inr ⟨hn, token, rfl,
        by simp [StartInstance, hl, refreshCopilotToken, Config.NewState]⟩)

theorem refreshTick_error (msg : String) (fetch : Except String Config.ModelsResponse)
    (inst : ProxyInstance) :
    refreshTick (.error msg) fetch inst = { inst with Status := "error", Error := msg } := by
  simp [refreshTick, refreshCopilotToken]

theorem refreshTick_ok (token : String) (fetch : Except String Config.ModelsResponse)
    (inst : ProxyInstance) :
    (refreshTick (.ok token) fetch inst).Status = inst.Status ∧
    (refreshTick (.ok token) fetch inst).Error = inst.Error ∧
    (refreshTick (.ok token) fetch inst).stopChan = inst.stopChan ∧
    (refreshTick (.ok token) fetch inst).Account = inst.Account := by
  simp [refreshTick, refreshCopilotToken]

/-! ## Instance manager: registries that the manager builds -/

theorem runningOpen_step (instances after : List (String × ProxyInstance)) (op : Op)
    (hw : RunningOpen instances) (h : step instances op = some after) : RunningOpen after := by
  cases op with
  | start vsVer exchange fetch account =>
    simp only [step, Option.some.injEq] at h
    subst h
    rcases startInstance_cases vsVer exchange fetch instances account with
      ⟨_, _, _, he⟩ | ⟨_, _, _, he⟩ | ⟨_, _, _, he⟩
    · rw [he]; exact hw
    · rw [he]
      intro p hp hr
      rcases mem_setInstance _ _ _ _ hp with h1 | h1
      · exact hw p h1 hr
      · subst h1
        simp at hr
    · rw [he]
      intro p hp hr
      rcases mem_setInstance _ _ _ _ hp with h1 | h1
      · exact hw p h1 hr
      · subst h1
        rfl
  | stop accountID =>
    simp only [step, StopInstance] at h
    cases hl : lookupInstance instances accountID with
    | none =>
      simp only [hl, Option.some.injEq] at h
      subst h
      exact hw
    | some inst =>
      simp only [hl] at h
      by_cases hr : inst.Status = "running"
      · simp only [hr, if_true] at h
        cases hc : closeChan inst.stopChan with
        | none => simp [hc] at h
        | some ch =>
          simp only [hc, Option.some.injEq] at h
          subst h
          intro p hp hs
          rcases mem_updateInstance _ _ _ _ hp with h1 | ⟨q, _, h1⟩
          · exact hw p h1 hs
          · subst h1
            simp at hs
      · simp only [hr, if_false, Option.some.injEq] at h
        subst h
        intro p hp hs
        rcases mem_updateInstance _ _ _ _ hp with h1 | ⟨q, _, h1⟩
        · exact hw p h1 hs
        · subst h1
          simp at hs
  | tick accountID exchange fetch =>
    simp only [step] at h
    cases hl : lookupInstance instances accountID with
    | none =>
      simp only [hl, Option.some.injEq] at h
      subst h
      exact hw
    | some inst =>
      simp only [hl] at h
      by_cases hu : inst.stopChan = .unmade
      · simp only [hu, if_true, Option.some.injEq] at h
        subst h
        exact hw
      · simp only [hu, if_false, Option.some.injEq] at h
        subst h
        intro p hp hs
        rcases mem_updateInstance _ _ _ _ hp with h1 | ⟨q, hq, h1⟩
        · exact hw p h1 hs
        · subst h1
          cases exchange with
          | error msg =>
            rw [refreshTick_error] at hs
            simp at hs
          | ok token =>
            have ht := refreshTick_ok token fetch q.2
            simp only at hs ⊢
            rw [ht.1] at hs
            rw [ht.2.2.1]
            exact hw q hq hs

theorem step_total (instances : List (String × ProxyInstance)) (op : Op)
    (hw : RunningOpen instances) : ∃ after, step instances op = some after := by
  cases op with
  | start vsVer exchange fetch account => exact ⟨_, rfl⟩
  | stop accountID =>
    simp only [step, StopInstance]
    cases hl : lookupInstance instances accountID with
    | none => exact ⟨_, rfl⟩
    | some inst =>
      by_cases hr : inst.Status = "running"
      · obtain ⟨p, hp, he⟩ := lookup_mem _ _ _ hl
        have hm : inst.stopChan = .made := by
          rw [← he]
          exact hw p hp (by rw [he]; exact hr)
        simp [hr, hm, closeChan]
      · simp [hr]
  | tick accountID exchange fetch =>
    simp only [step]
    cases hl : lookupInstance instances accountID with
    | none => exact ⟨_, rfl⟩
    | some inst =>
      by_cases hu : inst.stopChan = .unmade
      · simp [hu]
      · simp [hu]

/-- From the empty registry no sequence of steps panics, and in the registry it
leaves every instance with status "running" has a made, open `stopChan`. -/
theorem run_total (ops : List Op) :
    ∀ instances, RunningOpen instances →
      ∃ after, run instances ops = some after ∧ RunningOpen after := by
  induction ops with
  | nil => intro instances hw; exact ⟨instances, rfl, hw⟩
  | cons op rest ih =>
    intro instances hw
    obtain ⟨next, hn⟩ := step_total instances op hw
    obtain ⟨after, ha, hwa⟩ := ih next (runningOpen_step _ _ _ hw hn)
    exact ⟨after, by simp [run, hn, ha], hwa⟩


/-! ## StopInstance -/

/-- C24 as stated fails for an instance with status "error". After a start whose
token exchange failed the instance has no stop channel and no loop, and
`StopInstance` leaves the channel nil. After a start and a tick whose token
exchange failed the loop is alive and the channel open, and `StopInstance` sets
the status to "stopped" without closing the channel: only a "running" instance
has its channel closed. -/
theorem stopInstance_error_channel_not_closed :
    (∃ inst stopped,
      run [] [.start "1.0" (.error "denied") (.ok {}) sampleAccount] = some [("a", inst)] ∧
      inst.Status = "error" ∧ inst.stopChan = .unmade ∧
      StopInstance [("a", inst)] "a" = some [("a", stopped)] ∧
      stopped.Status = "stopped" ∧ stopped.stopChan ≠ .closed) ∧
    (∃ inst stopped,
      run [] [.start "1.0" (.ok "t") (.ok {}) sampleAccount,
              .tick "a" (.error "denied") (.ok {})] = some [("a", inst)] ∧
      inst.Status = "error" ∧ inst.stopChan = .made ∧
      StopInstance [("a", inst)] "a" = some [("a", stopped)] ∧
      stopped.Status = "stopped" ∧ stopped.stopChan = .made ∧ stopped.stopChan ≠ .closed) := by
  refine ⟨⟨_, _, rfl, rfl, rfl, rfl, rfl, by decide⟩, ⟨_, _, rfl, rfl, rfl, rfl, rfl, rfl, by decide⟩⟩

/-- C24 amended: in a registry where every "running" instance has an open stop
channel (every registry the manager builds), `StopInstance` does not fail; it
leaves the registry unchanged when no instance is registered for the id;
otherwise the instance afterwards has status "stopped" and its account, state
and error as before, no other instance is changed, the stop channel is closed
when the status was "running", and a channel that was not open (never made, or
closed before) stays as it was. -/
theorem stopInstance_stops (instances : List (String × ProxyInstance)) (accountID : String)
    (hw : RunningOpen instances) :
    (lookupInstance instances accountID = none →
      StopInstance instances accountID = some instances) ∧
    (∀ inst, lookupInstance instances accountID = some inst →
      ∃ after stopped, StopInstance instances accountID = some after ∧
        lookupInstance after accountID = some stopped ∧
        stopped.Status = "stopped" ∧
        stopped.Account = inst.Account ∧ stopped.State = inst.State ∧
        stopped.Error = inst.Error ∧
        (inst.Status = "running" → inst.stopChan = .made ∧ stopped.stopChan = .closed) ∧
        (inst.Status ≠ "running" → inst.stopChan ≠ .made →
          stopped.stopChan = inst.stopChan) ∧
        (∀ other, other ≠ accountID →
          lookupInstance after other = lookupInstance instances other)) := by
  refine ⟨fun hl => by simp [StopInstance, hl], ?_⟩
  intro inst hl
  by_cases hr : inst.Status = "running"
  · obtain ⟨p, hp, he⟩ := lookup_mem _ _ _ hl
    have hm : inst.stopChan = .made := by
      rw [← he]
      exact hw p hp (by rw [he]; exact hr)
    refine ⟨_, { inst with stopChan := .closed, Status := "stopped" },
      by simp [StopInstance, hl, hr, hm, closeChan]; rfl, ?_, rfl, rfl, rfl, rfl,
      (fun _ => ⟨hm, rfl⟩), (fun h => absurd hr h), ?_⟩
    · rw [lookup_updateInstance_same, hl]
      rfl
    · intro other ho
      exact lookup_updateInstance_other _ _ _ _ ho
  · refine ⟨_, { inst with Status := "stopped" },
      by simp [StopInstance, hl, hr]; rfl, ?_, rfl, rfl, rfl, rfl,
      (fun h => absurd h hr), (fun _ _ => rfl), ?_⟩
    · rw [lookup_updateInstance_same, hl]
      rfl
    · intro other ho
      exact lookup_updateInstance_other _ _ _ _ ho

/-- C24 amended, on a registry with the running instance "a" and the stopped
instance "b": stopping "a" sets its status to "stopped", closes its channel and
leaves "b". -/
theorem stopInstance_stops_witness :
    RunningOpen
      [ ("a", { Status := "running", stopChan := .made }), ("b", { Status := "stopped" }) ] ∧
    ∃ after stopped,
      StopInstance
        [ ("a", { Status := "running", stopChan := .made }), ("b", { Status := "stopped" }) ]
        "a" = some after ∧
      lookupInstance after "a" = some stopped ∧ stopped.Status = "stopped" ∧
      stopped.stopChan = .closed ∧
      lookupInstance after "b" = some { Status := "stopped" } := by
  have hw : RunningOpen
      [ ("a", { Status := "running", stopChan := .made }), ("b", { Status := "stopped" }) ] := by
    unfold RunningOpen
    decide
  obtain ⟨after, stopped, h1, h2, h3, -, -, -, h4, -, h5⟩ :=
    (stopInstance_stops _ "a" hw).2 { Status := "running", stopChan := .made } (by decide)
  exact ⟨hw, after, stopped, h1, h2, h3, (h4 rfl).2, by rw [h5 "b" (by decide)]; decide⟩

/-! ## StartInstance -/

/-- C25: `StartInstance` is idempotent on a running instance. In every registry
where an instance of the account is registered with status "running", the call
returns no error, makes no upstream request (so no token exchange) and leaves
the registry as it is, whatever the requests would have returned. And after a
call of `StartInstance` that returned no error, a second call for the same
account returns no error, makes no request and leaves the registry of the
first. -/
theorem startInstance_idempotent (vsVer : String) (exchange : Except String String)
    (fetch : Except String Config.ModelsResponse) (instances : List (String × ProxyInstance))
    (account : Account) :
    (∀ inst, lookupInstance instances account.ID = some inst → inst.Status = "running" →
      StartInstance vsVer exchange fetch instances account =
        { instances := instances, err := none, calls := [] }) ∧
    ((StartInstance vsVer exchange fetch instances account).err = none →
      ∀ vsVer2 exchange2 fetch2,
        StartInstance vsVer2 exchange2 fetch2
            (StartInstance vsVer exchange fetch instances account).instances account =
          { instances := (StartInstance vsVer exchange fetch instances account).instances,
            err := none, calls := [] }) := by
  refine ⟨fun inst hl hr => startInstance_running _ _ _ _ _ inst hl hr, ?_⟩
  intro he vsVer2 exchange2 fetch2
  rcases startInstance_cases vsVer exchange fetch instances account with
    ⟨inst, hl, hr, h⟩ | ⟨_, msg, _, h⟩ | ⟨_, token, _, h⟩
  · rw [h]
    exact startInstance_running _ _ _ _ _ inst hl hr
  · rw [h] at he
    cases he
  · rw [h]
    exact startInstance_running _ _ _ _ _ _ (lookup_setInstance_same _ _ _) rfl

/-- C25 on the empty registry: the first start of `sampleAccount` makes the three
requests and registers a running instance; the second start, and a start on a
registry with the running instance, change nothing and make no request. -/
theorem startInstance_idempotent_witness :
    (StartInstance "1.0" (.ok "t") (.ok {}) [] sampleAccount).calls =
      [.vsCodeVersion, .copilotToken, .models] ∧
    StartInstance "1.1" (.error "denied") (.error "down")
        (StartInstance "1.0" (.ok "t") (.ok {}) [] sampleAccount).instances sampleAccount =
      { instances := (StartInstance "1.0" (.ok "t") (.ok {}) [] sampleAccount).instances,
        err := none, calls := [] } ∧
    StartInstance "1.1" (.error "denied") (.error "down")
        [("a", { Status := "running", stopChan := .made })] sampleAccount =
      { instances := [("a", { Status := "running", stopChan := .made })],
        err := none, calls := [] } :=
  ⟨rfl,
    (startInstance_idempotent "1.0" (.ok "t") (.ok {}) [] sampleAccount).2 rfl
      "1.1" (.error "denied") (.error "down"),
    (startInstance_idempotent "1.1" (.error "denied") (.error "down")
      [("a", { Status := "running", stopChan := .made })] sampleAccount).1
      { Status := "running", stopChan := .made } rfl rfl⟩


/-! ## Status over the steps of the manager -/

theorem statusOf_setInstance_same (instances : List (String × ProxyInstance)) (id : String)
    (inst : ProxyInstance) :
    statusOf (setInstance instances id inst) id = some (inst.Status, inst.Error) := by
  simp [statusOf, lookup_setInstance_same]

theorem statusOf_setInstance_other (instances : List (String × ProxyInstance))
    (id other : String) (inst : ProxyInstance) (h : other ≠ id) :
    statusOf (setInstance instances id inst) other = statusOf instances other := by
  simp [statusOf, lookup_setInstance_other _ _ _ _ h]

theorem statusOf_updateInstance_other (instances : List (String × ProxyInstance))
    (id other : String) (f : ProxyInstance → ProxyInstance) (h : other ≠ id) :
    statusOf (updateInstance instances id f) other = statusOf instances other := by
  simp [statusOf, lookup_updateInstance_other _ _ _ _ h]

theorem statusOf_updateInstance_same (instances : List (String × ProxyInstance))
    (id : String) (f : ProxyInstance → ProxyInstance) (inst : ProxyInstance)
    (h : lookupInstance instances id = some inst) :
    statusOf (updateInstance instances id f) id = some ((f inst).Status, (f inst).Error) := by
  simp [statusOf, lookup_updateInstance_same, h]

/-- What a step does to the status and error of the instance registered for
`id`: it leaves them, or it is a stop of `id` and the status is "stopped", or a
start of `id` that registers a running instance, or it makes a token exchange
for `id` that fails, and the status is "error" with the message. -/
theorem step_status (instances after : List (String × ProxyInstance)) (op : Op)
    (h : step instances op = some after) (id : String) :
    statusOf after id = statusOf instances id ∨
    (op = .stop id ∧ ∃ msg, statusOf after id = some ("stopped", msg)) ∨
    ((∃ vsVer token fetch account, op = .start vsVer (.ok token) fetch account ∧
        account.ID = id) ∧ statusOf after id = some ("running", "")) ∨
    (∃ msg, exchangeOf instances id op = some (.error msg) ∧
      statusOf after id = some ("error", msg)) := by
  cases op with
  | start vsVer exchange fetch account =>
    simp only [step, Option.some.injEq] at h
    subst h
    rcases startInstance_cases vsVer exchange fetch instances account with
      ⟨_, _, _, he⟩ | ⟨_, msg, hx, he⟩ | ⟨_, token, hx, he⟩
    · rw [he]; exact Or.inl rfl
    · by_cases hi : id = account.ID
      · subst hi
        refine Or.inr (Or.inr (Or.inr ⟨msg, ?_, ?_⟩))
        · subst hx
          simp [exchangeOf, he]
        · rw [he]
          exact statusOf_setInstance_same _ _ _
      · rw [he]
        exact Or.inl (statusOf_setInstance_other _ _ _ _ hi)
    · by_cases hi : id = account.ID
      · subst hi
        refine Or.inr (Or.inr (Or.inl ⟨⟨vsVer, token, fetch, account, by rw [hx], rfl⟩, ?_⟩))
        rw [he]
        exact statusOf_setInstance_same _ _ _
      · rw [he]
        exact Or.inl (statusOf_setInstance_other _ _ _ _ hi)
  | stop accountID =>
    simp only [step, StopInstance] at h
    cases hl : lookupInstance instances accountID with
    | none =>
      simp only [hl, Option.some.injEq] at h
      subst h
      exact Or.inl rfl
    | some inst =>
      simp only [hl] at h
      by_cases hi : id = accountID
      · subst hi
        refine Or.inr (Or.inl ⟨rfl, inst.Error, ?_⟩)
        by_cases hr : inst.Status = "running"
        · simp only [hr, if_true] at h
          cases hc : closeChan inst.stopChan with
          | none => simp [hc] at h
          | some ch =>
            simp only [hc, Option.some.injEq] at h
            subst h
            rw [statusOf_updateInstance_same _ _ _ inst hl]
        · simp only [hr, if_false, Option.some.injEq] at h
          subst h
          rw [statusOf_updateInstance_same _ _ _ inst hl]
      · left
        by_cases hr : inst.Status = "running"
        · simp only [hr, if_true] at h
          cases hc : closeChan inst.stopChan with
          | none => simp [hc] at h
          | some ch =>
            simp only [hc, Option.some.injEq] at h
            subst h
            exact statusOf_updateInstance_other _ _ _ _ hi
        · simp only [hr, if_false, Option.some.injEq] at h
          subst h
          exact statusOf_updateInstance_other _ _ _ _ hi
  | tick accountID exchange fetch =>
    simp only [step] at h
    cases hl : lookupInstance instances accountID with
    | none =>
      simp only [hl, Option.some.injEq] at h
      subst h
      exact Or.inl rfl
    | some inst =>
      simp only [hl] at h
      by_cases hu : inst.stopChan = .unmade
      · simp only [hu, if_true, Option.some.injEq] at h
        subst h
        exact Or.inl rfl
      · simp only [hu, if_false, Option.some.injEq] at h
        subst h
        by_cases hi : id = accountID
        · subst hi
          cases exchange with
          | error msg =>
            refine Or.inr (Or.inr (Or.inr ⟨msg, ?_, ?_⟩))
            · simp [exchangeOf, hl, hu]
            · rw [statusOf_updateInstance_same _ _ _ inst hl, refreshTick_error]
          | ok token =>
            left
            rw [statusOf_updateInstance_same _ _ _ inst hl]
            have ht := refreshTick_ok token fetch inst
            rw [ht.1, ht.2.1]
            simp [statusOf, hl]
        · exact Or.inl (statusOf_updateInstance_other _ _ _ _ hi)

/-- The status and error after a step do not depend on the result of its model
fetch. -/
theorem step_fetch_irrelevant (instances after : List (String × ProxyInstance)) (op : Op)
    (h : step instances op = some after) (fetch2 : Except String Config.ModelsResponse)
    (id : String) :
    ∃ after2, step instances (op.withFetch fetch2) = some after2 ∧
      statusOf after2 id = statusOf after id := by
  cases op with
  | start vsVer exchange fetch account =>
    simp only [step, Option.some.injEq] at h
    subst h
    refine ⟨_, rfl, ?_⟩
    rcases startInstance_cases vsVer exchange fetch instances account with
      ⟨inst, hl, hr, he⟩ | ⟨hn, msg, hx, he⟩ | ⟨hn, token, hx, he⟩
    · rw [he, startInstance_running _ _ _ _ _ inst hl hr]
    · rcases startInstance_cases vsVer exchange fetch2 instances account with
        ⟨inst, hl, hr, _⟩ | ⟨_, msg2, hx2, he2⟩ | ⟨_, token2, hx2, _⟩
      · exact absurd hr (hn inst hl)
      · rw [hx] at hx2
        cases hx2
        rw [he, he2]
      · rw [hx] at hx2
        cases hx2
    · rcases startInstance_cases vsVer exchange fetch2 instances account with
        ⟨inst, hl, hr, _⟩ | ⟨_, msg2, hx2, _⟩ | ⟨_, token2, hx2, he2⟩
      · exact absurd hr (hn inst hl)
      · rw [hx] at hx2
        cases hx2
      · rw [he, he2]
        by_cases hi : id = account.ID
        · subst hi
          rw [statusOf_setInstance_same, statusOf_setInstance_same]
        · rw [statusOf_setInstance_other _ _ _ _ hi, statusOf_setInstance_other _ _ _ _ hi]
  | stop accountID => exact ⟨after, h, rfl⟩
  | tick accountID exchange fetch =>
    simp only [step, Op.withFetch] at h ⊢
    cases hl : lookupInstance instances accountID with
    | none =>
      simp only [hl, Option.some.injEq] at h
      subst h
      exact ⟨_, rfl, rfl⟩
    | some inst =>
      simp only [hl] at h
      by_cases hu : inst.stopChan = .unmade
      · simp only [hu, if_true, Option.some.injEq] at h
        subst h
        exact ⟨_, by simp [hu], rfl⟩
      · simp only [hu, if_false, Option.some.injEq] at h
        subst h
        refine ⟨updateInstance instances accountID (refreshTick exchange fetch2),
          by simp only [hu, if_false], ?_⟩
        by_cases hi : id = accountID
        · subst hi
          rw [statusOf_updateInstance_same _ _ _ inst hl,
            statusOf_updateInstance_same _ _ _ inst hl]
          cases exchange with
          | error msg => rw [refreshTick_error, refreshTick_error]
          | ok token =>
            have h1 := refreshTick_ok token fetch inst
            have h2 := refreshTick_ok token fetch2 inst
            rw [h1.1, h1.2.1, h2.1, h2.2.1]
        · rw [statusOf_updateInstance_other _ _ _ _ hi, statusOf_updateInstance_other _ _ _ _ hi]

/-- C26: over the steps of the instance manager (a start, a stop, a tick of a
refresh loop, each with any result of its token exchange and of its model
fetch), whenever the instance registered for an id has status "error" with a
message after a step and did not have that status and message before it, the
step made a session-token exchange for that id which failed with that message.
The status and error after a step are the same whatever the model fetch of the
step returned. -/
theorem error_only_from_token_failure (instances after : List (String × ProxyInstance))
    (op : Op) (h : step instances op = some after) (id : String) :
    (∀ msg, statusOf after id = some ("error", msg) →
      statusOf instances id ≠ some ("error", msg) →
      exchangeOf instances id op = some (.error msg)) ∧
    (∀ fetch2, ∃ after2, step instances (op.withFetch fetch2) = some after2 ∧
      statusOf after2 id = statusOf after id) := by
  refine ⟨?_, fun fetch2 => step_fetch_irrelevant instances after op h fetch2 id⟩
  intro msg ha hb
  rcases step_status instances after op h id with h1 | ⟨_, m, h1⟩ | ⟨_, h1⟩ | ⟨m, hx, h1⟩
  · rw [h1] at ha
    exact absurd ha hb
  · rw [h1] at ha
    simp at ha
  · rw [h1] at ha
    simp at ha
  · rw [h1] at ha
    simp only [Option.some.injEq, Prod.mk.injEq, true_and] at ha
    rw [← ha]
    exact hx

/-- C26 on a running instance: a tick whose token exchange fails with "denied"
sets status "error" with that message, and with a failed model fetch alone the
status stays "running". -/
theorem error_only_from_token_failure_witness :
    step [("a", { Status := "running", stopChan := .made })]
        (.tick "a" (.error "denied") (.ok {})) =
      some [("a", { Status := "error", Error := "denied", stopChan := .made })] ∧
    exchangeOf [("a", { Status := "running", stopChan := .made })] "a"
        (.tick "a" (.error "denied") (.ok {})) = some (.error "denied") ∧
    (∃ after2,
      step [("a", { Status := "running", stopChan := .made })]
        (.tick "a" (.error "denied") (.error "down")) = some after2 ∧
      statusOf after2 "a" = some ("error", "denied")) ∧
    statusOf [("a", { Status := "running", stopChan := .made })] "a" = some ("running", "") ∧
    (step [("a", { Status := "running", stopChan := .made })]
        (.tick "a" (.ok "t") (.error "down"))).map (fun r => statusOf r "a") =
      some (some ("running", "")) :=
  ⟨rfl,
    (error_only_from_token_failure [("a", { Status := "running", stopChan := .made })]
      [("a", { Status := "error", Error := "denied", stopChan := .made })]
      (.tick "a" (.error "denied") (.ok {})) rfl "a").1 "denied" (by decide) (by decide),
    (error_only_from_token_failure [("a", { Status := "running", stopChan := .made })]
      [("a", { Status := "error", Error := "denied", stopChan := .made })]
      (.tick "a" (.error "denied") (.ok {})) rfl "a").2 (.error "down"),
    by decide, by decide⟩

/-- C30: the status "error" is sticky under refresh. A tick whose token exchange
succeeds leaves the status and the error of its instance as they were, whatever
the status (so also "error" and "stopped"), and leaves the status and error of
every registered instance; no tick gives an instance the status "running"
unless it had it; and when the instance registered for an id has status "error"
before a step and another status after it, the step is `StopInstance` of that
id or `StartInstance` of an account with that id. -/
theorem error_sticky_under_refresh :
    (∀ (token : String) (fetch : Except String Config.ModelsResponse) (inst : ProxyInstance),
      (refreshTick (.ok token) fetch inst).Status = inst.Status ∧
      (refreshTick (.ok token) fetch inst).Error = inst.Error) ∧
    (∀ (exchange : Except String String) (fetch : Except String Config.ModelsResponse)
      (inst : ProxyInstance),
      (refreshTick exchange fetch inst).Status = "running" → inst.Status = "running") ∧
    (∀ (instances : List (String × ProxyInstance)) (accountID token : String)
      (fetch : Except String Config.ModelsResponse) (id : String),
      ∃ after, step instances (.tick accountID (.ok token) fetch) = some after ∧
        statusOf after id = statusOf instances id) ∧
    (∀ (instances after : List (String × ProxyInstance)) (op : Op) (id msg : String),
      step instances op = some after →
      statusOf instances id = some ("error", msg) →
      (∀ msg2, statusOf after id ≠ some ("error", msg2)) →
      op = .stop id ∨
        ∃ vsVer exchange fetch account, op = .start vsVer exchange fetch account ∧
          account.ID = id) := by
  refine ⟨fun token fetch inst => ⟨(refreshTick_ok token fetch inst).1,
    (refreshTick_ok token fetch inst).2.1⟩, ?_, ?_, ?_⟩
  · intro exchange fetch inst h
    cases exchange with
    | error msg =>
      rw [refreshTick_error] at h
      simp at h
    | ok token =>
      rw [(refreshTick_ok token fetch inst).1] at h
      exact h
  · intro instances accountID token fetch id
    simp only [step]
    cases hl : lookupInstance instances accountID with
    | none => exact ⟨_, rfl, rfl⟩
    | some inst =>
      by_cases hu : inst.stopChan = .unmade
      · exact ⟨_, by simp [hu], rfl⟩
      · refine ⟨updateInstance instances accountID (refreshTick (.ok token) fetch),
          by simp only [hu, if_false], ?_⟩
        by_cases hi : id = accountID
        · subst hi
          rw [statusOf_updateInstance_same _ _ _ inst hl]
          have ht := refreshTick_ok token fetch inst
          rw [ht.1, ht.2.1]
          simp [statusOf, hl]
        · exact statusOf_updateInstance_other _ _ _ _ hi
  · intro instances after op id msg h hb ha
    rcases step_status instances after op h id with h1 | ⟨h1, _⟩ | ⟨⟨v, t, f, a, h1, h2⟩, _⟩ |
      ⟨m, _, h1⟩
    · rw [h1] at ha
      exact absurd hb (ha msg)
    · exact Or.inl h1
    · exact Or.inr ⟨v, .ok t, f, a, h1, h2⟩
    · exact absurd h1 (ha m)

/-- C30 on an instance with status "error": a tick whose token exchange succeeds
leaves status and error, and a stop is a step that takes it out of "error". -/
theorem error_sticky_under_refresh_witness :
    (refreshTick (.ok "t") (.ok {})
        { Status := "error", Error := "denied", stopChan := .made }).Status = "error" ∧
    (refreshTick (.ok "t") (.ok {})
        { Status := "error", Error := "denied", stopChan := .made }).Error = "denied" ∧
    ((.stop "a" : Op) = .stop "a" ∨
      ∃ vsVer exchange fetch account,
        (.stop "a" : Op) = .start vsVer exchange fetch account ∧ account.ID = "a") :=
  ⟨(error_sticky_under_refresh.1 "t" (.ok {})
      { Status := "error", Error := "denied", stopChan := .made }).1,
    (error_sticky_under_refresh.1 "t" (.ok {})
      { Status := "error", Error := "denied", stopChan := .made }).2,
    error_sticky_under_refresh.2.2.2
      [("a", { Status := "error", Error := "denied", stopChan := .made })]
      [("a", { Status := "stopped", Error := "denied", stopChan := .made })]
      (.stop "a") "a" "denied" rfl (by decide)
      (fun msg2 h => by simp [statusOf, lookupInstance] at h)⟩

end Instance

namespace Anthropic

/-! ## Response translator: tool-call arguments and scenario S1 -/

theorem translateToAnthropic_content_eq (unmarshal : String → Option JSON) (now : Int)
    (resp : ChatCompletionResponse) :
    (TranslateToAnthropic unmarshal now resp).Content =
      (if resp.Choices.flatMap (choiceBlocks unmarshal) = [] then
        [{ Type_ := "text", Text := "" }]
       else resp.Choices.flatMap (choiceBlocks unmarshal)) := by
  unfold TranslateToAnthropic
  simp only [responseChoice_foldl, List.nil_append]
  generalize resp.Choices.flatMap (choiceBlocks unmarshal) = blocks
  cases blocks <;> simp

theorem toolUseBlocks_choiceBlocks (unmarshal : String → Option JSON) (choice : Choice) :
    toolUseBlocks (choiceBlocks unmarshal choice) =
      (choiceToolCalls choice).map
        (fun tc =>
          { Type_ := "tool_use", ID := tc.ID, Name := tc.Function.Name,
            Input := if tc.Function.Arguments = "" then .null
                     else parseJSONSafe unmarshal tc.Function.Arguments }) := by
  unfold toolUseBlocks choiceBlocks choiceToolCalls
  cases choice.Message with
  | none => rfl
  | some msg =>
    simp only [List.filter_append]
    have h1 : List.filter (fun b : AnthropicContentBlock => decide (b.Type_ = "tool_use"))
        (if msg.Content = "" then [] else [{ Type_ := "text", Text := msg.Content }]) = [] := by
      split_ifs <;> simp
    rw [h1, List.nil_append, List.filter_eq_self]
    intro b hb
    obtain ⟨tc, -, rfl⟩ := List.mem_map.1 hb
    simp

theorem toolUseBlocks_flatMap (unmarshal : String → Option JSON) (choices : List Choice) :
    toolUseBlocks (choices.flatMap (choiceBlocks unmarshal)) =
      (choices.flatMap choiceToolCalls).map
        (fun tc =>
          { Type_ := "tool_use", ID := tc.ID, Name := tc.Function.Name,
            Input := if tc.Function.Arguments = "" then .null
                     else parseJSONSafe unmarshal tc.Function.Arguments }) := by
  induction choices with
  | nil => rfl
  | cons c r ih =>
    have h := toolUseBlocks_choiceBlocks unmarshal c
    unfold toolUseBlocks at h ih ⊢
    simp only [List.flatMap_cons, List.filter_append, List.map_append, h, ih]

theorem toolUseBlocks_translate (unmarshal : String → Option JSON) (now : Int)
    (resp : ChatCompletionResponse) :
    toolUseBlocks (TranslateToAnthropic unmarshal now resp).Content =
      (resp.Choices.flatMap choiceToolCalls).map
        (fun tc =>
          { Type_ := "tool_use", ID := tc.ID, Name := tc.Function.Name,
            Input := if tc.Function.Arguments = "" then .null
                     else parseJSONSafe unmarshal tc.Function.Arguments }) := by
  rw [translateToAnthropic_content_eq, ← toolUseBlocks_flatMap]
  split_ifs with he
  · rw [he]
    rfl
  · rfl

/-- C21 as stated fails on the empty arguments string. The empty string is not
JSON, so the claim asks for the input `{}`; the second tool call of
`toolCallsResponse` has empty arguments and its `tool_use` block has the nil
input, which is not the empty object. The first call (arguments that parse) and
the third (text that is not JSON) get the parsed value and `{}`. -/
theorem empty_arguments_input_nil :
    unmarshalSample "" = none ∧
    (TranslateToAnthropic unmarshalSample 0 toolCallsResponse).Content =
      [ { Type_ := "tool_use", ID := "t1", Name := "f", Input := .obj [("x", .number 1)] },
        { Type_ := "tool_use", ID := "t2", Name := "g", Input := .null },
        { Type_ := "tool_use", ID := "t3", Name := "h", Input := .obj [] } ] ∧
    JSON.null ≠ JSON.obj [] := by
  refine ⟨by decide, by decide, by decide⟩

/-- C21 amended: for every unary response and every `json.Unmarshal`, the
`tool_use` blocks of the content returned by `TranslateToAnthropic` are, in
order, one per tool call of the choices, with the id and name of the call; the
input is the value parsed from the arguments when they are not empty and parse,
the empty object when they are not empty and do not parse, and nil when the
arguments are the empty string. The function is total: no arguments string makes
the translation fail. -/
theorem tool_use_input (unmarshal : String → Option JSON) (now : Int)
    (resp : ChatCompletionResponse) :
    List.Forall₂
      (fun (tc : ToolCall) (b : AnthropicContentBlock) =>
        b.Type_ = "tool_use" ∧ b.ID = tc.ID ∧ b.Name = tc.Function.Name ∧
        (tc.Function.Arguments = "" → b.Input = .null) ∧
        (tc.Function.Arguments ≠ "" → ∀ v, unmarshal tc.Function.Arguments = some v →
          b.Input = v) ∧
        (tc.Function.Arguments ≠ "" → unmarshal tc.Function.Arguments = none →
          b.Input = .obj []))
      (resp.Choices.flatMap choiceToolCalls)
      (toolUseBlocks (TranslateToAnthropic unmarshal now resp).Content) := by
  rw [toolUseBlocks_translate, List.forall₂_map_right_iff, List.forall₂_same]
  intro tc _
  refine ⟨rfl, rfl, rfl, ?_, ?_, ?_⟩
  · intro h
    simp [h]
  · intro h v hv
    simp [h, parseJSONSafe, hv]
  · intro h hv
    simp [h, parseJSONSafe, hv]

/-- C21 amended on `toolCallsResponse`: the three `tool_use` blocks, for
arguments that parse, empty arguments and text that is not JSON. -/
theorem tool_use_input_witness :
    toolUseBlocks (TranslateToAnthropic unmarshalSample 0 toolCallsResponse).Content =
      [ { Type_ := "tool_use", ID := "t1", Name := "f", Input := .obj [("x", .number 1)] },
        { Type_ := "tool_use", ID := "t2", Name := "g", Input := .null },
        { Type_ := "tool_use", ID := "t3", Name := "h", Input := .obj [] } ] ∧
    List.Forall₂
      (fun (tc : ToolCall) (b : AnthropicContentBlock) =>
        b.Type_ = "tool_use" ∧ b.ID = tc.ID ∧ b.Name = tc.Function.Name ∧
        (tc.Function.Arguments = "" → b.Input = .null) ∧
        (tc.Function.Arguments ≠ "" → ∀ v, unmarshalSample tc.Function.Arguments = some v →
          b.Input = v) ∧
        (tc.Function.Arguments ≠ "" → unmarshalSample tc.Function.Arguments = none →
          b.Input = .obj []))
      (toolCallsResponse.Choices.flatMap choiceToolCalls)
      (toolUseBlocks (TranslateToAnthropic unmarshalSample 0 toolCallsResponse).Content) :=
  ⟨by decide, tool_use_input unmarshalSample 0 toolCallsResponse⟩

/-- C22: scenario S1 generalised. For every unary response with a non-empty id,
one choice whose message has non-empty content and no tool calls, a finish
reason `f` and a usage record, `TranslateToAnthropic` returns the id and model
of the response, type "message", role "assistant", the single text block with
the content, the stop reason `MapOpenAIStopReasonToAnthropic f`, the prompt and
completion tokens as input and output tokens, and as cache-read tokens the
cached tokens of the prompt details when present (zero otherwise). -/
theorem translateToAnthropic_text_response (unmarshal : String → Option JSON) (now : Int)
    (resp : ChatCompletionResponse) (choice : Choice) (msg : ChoiceMsg) (f : String)
    (u : OpenAIUsage) (hid : resp.ID ≠ "") (hc : resp.Choices = [choice])
    (hm : choice.Message = some msg) (hcontent : msg.Content ≠ "")
    (ht : msg.ToolCalls = []) (hf : choice.FinishReason = some f)
    (hu : resp.Usage = some u) :
    (TranslateToAnthropic unmarshal now resp).ID = resp.ID ∧
    (TranslateToAnthropic unmarshal now resp).Type_ = "message" ∧
    (TranslateToAnthropic unmarshal now resp).Role = "assistant" ∧
    (TranslateToAnthropic unmarshal now resp).Model = resp.Model ∧
    (TranslateToAnthropic unmarshal now resp).Content =
      [{ Type_ := "text", Text := msg.Content }] ∧
    (TranslateToAnthropic unmarshal now resp).StopReason =
      MapOpenAIStopReasonToAnthropic f ∧
    (TranslateToAnthropic unmarshal now resp).StopSequence = none ∧
    (TranslateToAnthropic unmarshal now resp).Usage.InputTokens = u.PromptTokens ∧
    (TranslateToAnthropic unmarshal now resp).Usage.OutputTokens = u.CompletionTokens ∧
    (TranslateToAnthropic unmarshal now resp).Usage.CacheCreationInputTokens = 0 ∧
    (∀ d, u.PromptTokensDetails = some d →
      (TranslateToAnthropic unmarshal now resp).Usage.CacheReadInputTokens = d.CachedTokens) ∧
    (u.PromptTokensDetails = none →
      (TranslateToAnthropic unmarshal now resp).Usage.CacheReadInputTokens = 0) := by
  have hfold : resp.Choices.foldl (responseChoiceStep unmarshal) ([], "end_turn") =
      ([{ Type_ := "text", Text := msg.Content }], MapOpenAIStopReasonToAnthropic f) := by
    rw [hc]
    simp [responseChoiceStep, hm, hf, ht, hcontent]
  unfold TranslateToAnthropic
  rw [hfold, hu]
  cases hd : u.PromptTokensDetails <;> simp [hid, hd]

/-- C22 at scenario S1: id "x", text "hello", stop reason "end_turn", one input
token and one output token. -/
theorem translateToAnthropic_text_response_witness :
    TranslateToAnthropic unmarshalSample 0 s1Response =
      { ID := "x", Type_ := "message", Role := "assistant",
        Content := [{ Type_ := "text", Text := "hello" }], Model := "gpt-4o",
        StopReason := "end_turn",
        Usage := { InputTokens := 1, OutputTokens := 1 } } ∧
    (TranslateToAnthropic unmarshalSample 0 s1Response).ID = s1Response.ID ∧
    (TranslateToAnthropic unmarshalSample 0 s1Response).StopReason =
      MapOpenAIStopReasonToAnthropic "stop" ∧
    (TranslateToAnthropic unmarshalSample 0 s1Response).Usage.InputTokens = 1 :=
  ⟨by decide,
    (translateToAnthropic_text_response unmarshalSample 0 s1Response
      { Message := some { Content := "hello" }, FinishReason := some "stop" }
      { Content := "hello" } "stop"
      { PromptTokens := 1, CompletionTokens := 1, TotalTokens := 0 }
      (by decide) rfl rfl (by decide) rfl rfl rfl).1,
    (translateToAnthropic_text_response unmarshalSample 0 s1Response
      { Message := some { Content := "hello" }, FinishReason := some "stop" }
      { Content := "hello" } "stop"
      { PromptTokens := 1, CompletionTokens := 1, TotalTokens := 0 }
      (by decide) rfl rfl (by decide) rfl rfl rfl).2.2.2.2.2.1,
    (translateToAnthropic_text_response unmarshalSample 0 s1Response
      { Message := some { Content := "hello" }, FinishReason := some "stop" }
      { Content := "hello" } "stop"
      { PromptTokens := 1, CompletionTokens := 1, TotalTokens := 0 }
      (by decide) rfl rfl (by decide) rfl rfl rfl).2.2.2.2.2.2.2.1⟩


/-! ## Text path, finish path and the usage of message_start -/

theorem choiceStep_deltaSteps (c : Cfg) (choice : Choice) :
    choiceStep c choice = finishStep (deltaSteps c choice) choice.FinishReason := by
  unfold choiceStep deltaSteps
  cases choice.Delta <;> rfl

theorem perform_outputTokens (c : Cfg) (a : Action)
    (ha : ∀ now chunk, a ≠ Action.head now chunk) :
    (perform c a).1.OutputTokens = c.1.OutputTokens := by
  cases a with
  | head now chunk => exact absurd rfl (ha now chunk)
  | text content =>
    simp only [perform, textStep, appendClose, appendEvent, closeContentBlock]
    split_ifs <;> simp
  | toolStart idx tc =>
    simp only [perform, toolStartStep, appendClose, appendEvent, closeContentBlock]
    split_ifs <;> simp
  | toolArguments idx tc =>
    simp only [perform, toolArgumentsStep, appendClose, appendEvent, closeContentBlock]
    split_ifs <;> cases mapGet c.1.ToolCalls idx <;> simp
  | finish reason =>
    simp only [perform, finishStep, appendClose, appendEvent, closeContentBlock,
      messageDeltaEvent]
    split_ifs <;> simp

theorem foldl_outputTokens (as : List Action)
    (ha : ∀ a ∈ as, ∀ now chunk, a ≠ Action.head now chunk) (c : Cfg) :
    (as.foldl perform c).1.OutputTokens = c.1.OutputTokens := by
  induction as generalizing c with
  | nil => rfl
  | cons a r ih =>
    rw [List.foldl_cons, ih (fun b hb => ha b (List.mem_cons_of_mem _ hb)),
      perform_outputTokens c a (ha a (List.mem_cons_self _ _))]

theorem perform_last_not_stop (c : Cfg) (a : Action)
    (ha : ∀ now chunk, a ≠ Action.head now chunk) (hf : ∀ r, a ≠ Action.finish r) :
    ∃ l, (perform c a).2 = c.2 ++ l ∧
      ∀ e, l.getLast? = some e → e.Event ≠ "content_block_stop" := by
  cases a with
  | head now chunk => exact absurd rfl (ha now chunk)
  | finish reason => exact absurd rfl (hf reason)
  | text content =>
    simp only [perform, textStep, appendClose, appendEvent, closeContentBlock]
    split_ifs <;> simp
  | toolStart idx tc =>
    simp only [perform, toolStartStep, appendClose, appendEvent, closeContentBlock]
    split_ifs <;> simp
  | toolArguments idx tc =>
    simp only [perform, toolArgumentsStep, appendClose, appendEvent, closeContentBlock]
    split_ifs <;> cases mapGet c.1.ToolCalls idx <;> simp

theorem foldl_last_not_stop (as : List Action)
    (ha : ∀ a ∈ as, (∀ now chunk, a ≠ Action.head now chunk) ∧ ∀ r, a ≠ Action.finish r)
    (c : Cfg) :
    ∃ l, (as.foldl perform c).2 = c.2 ++ l ∧
      ∀ e, l.getLast? = some e → e.Event ≠ "content_block_stop" := by
  induction as generalizing c with
  | nil => exact ⟨[], by simp, by simp⟩
  | cons a r ih =>
    obtain ⟨l1, h1, g1⟩ := perform_last_not_stop c a (ha a (List.mem_cons_self _ _)).1
      (ha a (List.mem_cons_self _ _)).2
    obtain ⟨l2, h2, g2⟩ := ih (fun b hb => ha b (List.mem_cons_of_mem _ hb)) (perform c a)
    refine ⟨l1 ++ l2, by rw [List.foldl_cons, h2, h1, List.append_assoc], ?_⟩
    intro e he
    rw [List.getLast?_append] at he
    cases hl : l2.getLast? with
    | none =>
      rw [hl] at he
      exact g1 e he
    | some x =>
      rw [hl] at he
      cases he
      exact g2 e hl

theorem deltaSteps_eq (c : Cfg) (choice : Choice) :
    ∃ as : List Action,
      (∀ a ∈ as, (∀ now chunk, a ≠ Action.head now chunk) ∧ ∀ r, a ≠ Action.finish r) ∧
      deltaSteps c choice = as.foldl perform c := by
  unfold deltaSteps
  cases choice.Delta with
  | none => exact ⟨[], by simp, rfl⟩
  | some delta =>
    refine ⟨(if delta.Content = "" then [] else [Action.text delta.Content]) ++
      delta.ToolCalls.flatMap actionsOfToolCall, ?_, ?_⟩
    · intro a ha
      rcases List.mem_append.1 ha with h | h
      · split_ifs at h
        · simp at h
        · simp only [List.mem_singleton] at h
          subst h
          simp
      · obtain ⟨tc, -, h2⟩ := List.mem_flatMap.1 h
        unfold actionsOfToolCall at h2
        rcases List.mem_append.1 h2 with h3 | h3
        · split_ifs at h3
          · simp at h3
          · simp only [List.mem_singleton] at h3
            subst h3
            simp
        · split_ifs at h3
          · simp at h3
          · simp only [List.mem_singleton] at h3
            subst h3
            simp
    · show delta.ToolCalls.foldl toolCallStep (textStep c delta.Content) = _
      rw [foldl_toolCallStep_eq, List.foldl_append]
      by_cases h1 : delta.Content = ""
      · simp [h1, textStep]
      · simp [h1, perform]

theorem deltaSteps_fields (c : Cfg) (choice : Choice) :
    (deltaSteps c choice).1.OutputTokens = c.1.OutputTokens ∧
    ∃ l, (deltaSteps c choice).2 = c.2 ++ l ∧
      ∀ e, l.getLast? = some e → e.Event ≠ "content_block_stop" := by
  obtain ⟨as, ha, he⟩ := deltaSteps_eq c choice
  rw [he]
  exact ⟨foldl_outputTokens as (fun a h => (ha a h).1) c, foldl_last_not_stop as ha c⟩

/-- C27 as stated fails when a tool call came earlier in the stream. After the
chunks of `toolThenTextChunks` the text block of index 1 is open (the last
`content_block_start` has type `text` and no `content_block_stop` follows it); a
further choice with the content "B", no tool calls and no finish reason emits
three events, closes that block and opens a new text block at index 2. -/
theorem text_after_tool_call_reopens :
    TextBlockOpen (translateAll 0 toolThenTextChunks).2 ∧
    (translateAll 0 toolThenTextChunks).1.ContentBlockOpen = true ∧
    (translateAll 0 toolThenTextChunks).1.ContentBlockIndex = 1 ∧
    (choiceStep ((translateAll 0 toolThenTextChunks).1, [])
        { Delta := some { Content := "B" } }).2 =
      [blockStopEvent 1, textStartEvent 2, textDeltaEvent 2 "B"] ∧
    (choiceStep ((translateAll 0 toolThenTextChunks).1, [])
        { Delta := some { Content := "B" } }).1.ContentBlockIndex = 2 := by
  refine ⟨⟨(translateAll 0 toolThenTextChunks).2.take 5, textStartEvent 1,
    [textDeltaEvent 1 "A"], by decide, rfl, rfl, by decide⟩, by decide, by decide,
    by decide, by decide⟩

/-- C27 amended: for every stream state and every choice whose delta has
non-empty content, no tool calls and no finish reason. When a block is open and
the state has recorded no tool call, the step emits exactly one event, the
`text_delta` at the current index, and leaves the state as it is. When a block is
open and a tool call has been recorded, the step emits the `content_block_stop`
of the open block, the `content_block_start` of a new text block at the next
index and the `text_delta` there. When no block is open, it emits the
`content_block_start` of a text block at the current index and the `text_delta`
there. So a new text block is started exactly when no block is open or a tool
call has been recorded. -/
theorem text_continuation (c : Cfg) (choice : Choice) (delta : ChoiceMsg)
    (hd : choice.Delta = some delta) (hc : delta.Content ≠ "")
    (ht : delta.ToolCalls = []) (hf : choice.FinishReason = none) :
    (c.1.ContentBlockOpen = true → c.1.ToolCalls = [] →
      choiceStep c choice =
        (c.1, c.2 ++ [textDeltaEvent c.1.ContentBlockIndex delta.Content])) ∧
    (c.1.ContentBlockOpen = true → c.1.ToolCalls ≠ [] →
      choiceStep c choice =
        ({ c.1 with ContentBlockIndex := c.1.ContentBlockIndex + 1 },
          c.2 ++ [blockStopEvent c.1.ContentBlockIndex,
                  textStartEvent (c.1.ContentBlockIndex + 1),
                  textDeltaEvent (c.1.ContentBlockIndex + 1) delta.Content])) ∧
    (c.1.ContentBlockOpen = false →
      choiceStep c choice =
        ({ c.1 with ContentBlockOpen := true },
          c.2 ++ [textStartEvent c.1.ContentBlockIndex,
                  textDeltaEvent c.1.ContentBlockIndex delta.Content])) := by
  obtain ⟨st, evs⟩ := c
  unfold choiceStep
  simp only [hd, ht, hf, List.foldl_nil, finishStep, textStep, hc, if_false, appendClose,
    appendEvent, closeContentBlock, textDeltaEvent, textStartEvent, blockStopEvent]
  refine ⟨?_, ?_, ?_⟩
  · intro ho hn
    simp [ho, hn]
  · intro ho hn
    have hl : st.ToolCalls.length > 0 := List.length_pos.2 hn
    simp [ho, hl]
  · intro ho
    simp [ho]

/-- C27 amended on the state of a stream after the text delta "A": the next text
delta "B" is one `text_delta` event at index 0 and the state is unchanged. -/
theorem text_continuation_witness :
    choiceStep (translateAll 0 [{ Choices := [{ Delta := some { Content := "A" } }] }])
        { Delta := some { Content := "B" } } =
      ((translateAll 0 [{ Choices := [{ Delta := some { Content := "A" } }] }]).1,
        (translateAll 0 [{ Choices := [{ Delta := some { Content := "A" } }] }]).2 ++
          [textDeltaEvent
            (translateAll 0
              [{ Choices := [{ Delta := some { Content := "A" } }] }]).1.ContentBlockIndex "B"]) :=
  (text_continuation (translateAll 0 [{ Choices := [{ Delta := some { Content := "A" } }] }])
    { Delta := some { Content := "B" } } { Content := "B" } rfl (by decide) rfl rfl).1
    (by decide) (by decide)

/-- C28: for every stream state and every choice with a finish reason `r`, with
a nil delta or with a delta. The events of the choice are those of its own
deltas (the last of which, if any, is no `content_block_stop`), then a
`content_block_stop` at the current index exactly when a block is open after
those deltas, then one `message_delta` whose stop reason is
`MapOpenAIStopReasonToAnthropic r` and whose output tokens are the
`OutputTokens` of the state; afterwards no block is open. -/
theorem finish_path (c : Cfg) (choice : Choice) (r : String)
    (hf : choice.FinishReason = some r) :
    ∃ l, (deltaSteps c choice).2 = c.2 ++ l ∧
      (∀ e, l.getLast? = some e → e.Event ≠ "content_block_stop") ∧
      (choiceStep c choice).2 =
        c.2 ++ l ++
          (if (deltaSteps c choice).1.ContentBlockOpen = true then
            [blockStopEvent (deltaSteps c choice).1.ContentBlockIndex]
           else []) ++
          [{ Event := "message_delta",
             Data := .messageDelta
               { Type_ := "message_delta",
                 Delta := { StopReason := MapOpenAIStopReasonToAnthropic r },
                 Usage := some { OutputTokens := c.1.OutputTokens } } }] ∧
      (choiceStep c choice).1.ContentBlockOpen = false ∧
      (choiceStep c choice).1.OutputTokens = c.1.OutputTokens := by
  obtain ⟨ho, l, hl, hg⟩ := deltaSteps_fields c choice
  refine ⟨l, hl, hg, ?_, ?_, ?_⟩
  · rw [choiceStep_deltaSteps, hf, ← hl]
    simp only [finishStep, appendClose, appendEvent, closeContentBlock, messageDeltaEvent,
      blockStopEvent]
    cases hb : (deltaSteps c choice).1.ContentBlockOpen <;> simp [ho]
  · rw [choiceStep_deltaSteps, hf]
    simp only [finishStep, appendClose, appendEvent, closeContentBlock]
    cases hb : (deltaSteps c choice).1.ContentBlockOpen <;> simp [hb]
  · rw [choiceStep_deltaSteps, hf]
    simp only [finishStep, appendClose, appendEvent, closeContentBlock]
    cases hb : (deltaSteps c choice).1.ContentBlockOpen <;> simp [ho]

/-- C28 on the state of a stream after the text delta "A": a choice with the
finish reason "stop" and a nil delta closes the block of index 0 and emits the
`message_delta` with the stop reason "end_turn"; a choice with the finish reason
and a delta of its own emits its text delta first. -/
theorem finish_path_witness :
    (∃ l, [] ++ l ++
        (if (deltaSteps ((translateAll 0 [usageFirstChunk]).1, [])
            { FinishReason := some "stop" }).1.ContentBlockOpen = true then
          [blockStopEvent (deltaSteps ((translateAll 0 [usageFirstChunk]).1, [])
            { FinishReason := some "stop" }).1.ContentBlockIndex]
         else []) ++
        [{ Event := "message_delta",
           Data := .messageDelta
             { Type_ := "message_delta",
               Delta := { StopReason := MapOpenAIStopReasonToAnthropic "stop" },
               Usage := some { OutputTokens := (translateAll 0 [usageFirstChunk]).1.OutputTokens } } }] =
      (choiceStep ((translateAll 0 [usageFirstChunk]).1, []) { FinishReason := some "stop" }).2) ∧
    (choiceStep ((translateAll 0 [usageFirstChunk]).1, []) { FinishReason := some "stop" }).2 =
      [ blockStopEvent 0,
        { Event := "message_delta",
          Data := .messageDelta
            { Type_ := "message_delta", Delta := { StopReason := "end_turn" },
              Usage := some { OutputTokens := 2 } } } ] ∧
    (choiceStep (NewStreamState, [])
        { Delta := some { Content := "B" }, FinishReason := some "length" }).2 =
      [ textStartEvent 0, textDeltaEvent 0 "B", blockStopEvent 0,
        { Event := "message_delta",
          Data := .messageDelta
            { Type_ := "message_delta", Delta := { StopReason := "max_tokens" },
              Usage := some { OutputTokens := 0 } } } ] := by
  obtain ⟨l, -, -, h, -, -⟩ := finish_path ((translateAll 0 [usageFirstChunk]).1, [])
    { FinishReason := some "stop" } "stop" rfl
  exact ⟨⟨l, h.symm⟩, by decide, by decide⟩

theorem chunkHead_new (now : Int) (chunk : ChatCompletionResponse) :
    (chunkHead now chunk NewStreamState).2 =
      [ firstMessageStart now chunk,
        { Event := "ping", Data := .ping { Type_ := "ping" } } ] := by
  unfold chunkHead firstMessageStart NewStreamState
  cases chunk.Usage <;> by_cases hm : chunk.Model = "" <;> by_cases hi : chunk.ID = "" <;>
    simp [hm, hi]

theorem onlyStart_perform (m : StreamEvent) (c : Cfg) (a : Action) (h : OnlyStart m c) :
    OnlyStart m (perform c a) := by
  cases a with
  | head now chunk =>
    simp only [perform, headStep]
    refine ⟨(chunkHead_fields now chunk c.1).2.2.2, ?_⟩
    rw [(chunkHead_events now chunk c.1).1 h.1, List.append_nil]
    exact h.2
  | text content =>
    obtain ⟨h1, l, h2, h3⟩ := perform_appends c (.text content) (by simp)
    refine ⟨h1.trans h.1, ?_⟩
    rw [h2]
    intro e he hs
    rcases List.mem_append.1 he with h4 | h4
    · exact h.2 e h4 hs
    · exact absurd hs (h3 e h4)
  | toolStart idx tc =>
    obtain ⟨h1, l, h2, h3⟩ := perform_appends c (.toolStart idx tc) (by simp)
    refine ⟨h1.trans h.1, ?_⟩
    rw [h2]
    intro e he hs
    rcases List.mem_append.1 he with h4 | h4
    · exact h.2 e h4 hs
    · exact absurd hs (h3 e h4)
  | toolArguments idx tc =>
    obtain ⟨h1, l, h2, h3⟩ := perform_appends c (.toolArguments idx tc) (by simp)
    refine ⟨h1.trans h.1, ?_⟩
    rw [h2]
    intro e he hs
    rcases List.mem_append.1 he with h4 | h4
    · exact h.2 e h4 hs
    · exact absurd hs (h3 e h4)
  | finish reason =>
    obtain ⟨h1, l, h2, h3⟩ := perform_appends c (.finish reason) (by simp)
    refine ⟨h1.trans h.1, ?_⟩
    rw [h2]
    intro e he hs
    rcases List.mem_append.1 he with h4 | h4
    · exact h.2 e h4 hs
    · exact absurd hs (h3 e h4)

theorem onlyStart_foldl (m : StreamEvent) (as : List Action) (c : Cfg) (h : OnlyStart m c) :
    OnlyStart m (as.foldl perform c) := by
  induction as generalizing c with
  | nil => exact h
  | cons a r ih => exact ih _ (onlyStart_perform m c a h)

theorem translateAll_cons (now : Int) (chunk : ChatCompletionResponse)
    (chunks : List ChatCompletionResponse) :
    translateAll now (chunk :: chunks) =
      (chunk.Choices.flatMap actionsOfChoice ++ actionsOfChunks now chunks).foldl perform
        ((chunkHead now chunk NewStreamState).1,
          [ firstMessageStart now chunk,
            { Event := "ping", Data := .ping { Type_ := "ping" } } ]) := by
  unfold translateAll
  rw [translateFrom_eq]
  simp only [actionsOfChunks, List.flatMap_cons, actionsOfChunk, List.cons_append,
    List.foldl_cons, perform, headStep, List.nil_append, chunkHead_new]

/-- C29: for every stream started from `NewStreamState`, every `message_start`
event reports zero input tokens and zero output tokens. A stream with a first
chunk starts with the `message_start` built from the id and model of that chunk
and the zero usage, and has no other `message_start`; this holds whatever usage
the first chunk carries, as for `usageFirstChunk` with 7 prompt tokens, which
are recorded in the state after the event is built. -/
theorem message_start_usage_zero (now : Int) (chunks : List ChatCompletionResponse) :
    (∀ e ∈ (translateAll now chunks).2, e.Event = "message_start" →
      ∃ d : MessageStartEvent, e.Data = .messageStart d ∧
        d.Message.Usage.InputTokens = 0 ∧ d.Message.Usage.OutputTokens = 0) ∧
    (∀ chunk rest, chunks = chunk :: rest →
      (translateAll now chunks).2.head? = some (firstMessageStart now chunk) ∧
      ∀ e ∈ (translateAll now chunks).2, e.Event = "message_start" →
        e = firstMessageStart now chunk) ∧
    ((translateAll 0 [usageFirstChunk]).2.head? = some (firstMessageStart 0 usageFirstChunk) ∧
      (translateAll 0 [usageFirstChunk]).1.InputTokens = 7) := by
  have key : ∀ chunk rest,
      (translateAll now (chunk :: rest)).2.head? = some (firstMessageStart now chunk) ∧
      ∀ e ∈ (translateAll now (chunk :: rest)).2, e.Event = "message_start" →
        e = firstMessageStart now chunk := by
    intro chunk rest
    rw [translateAll_cons]
    constructor
    · have h := appending_foldl (chunk.Choices.flatMap actionsOfChoice ++ actionsOfChunks now rest)
        (chunkHead now chunk NewStreamState).1
        [ firstMessageStart now chunk, { Event := "ping", Data := .ping { Type_ := "ping" } } ] []
      beta_reduce at h
      rw [List.append_nil] at h
      rw [h]
      rfl
    · refine (onlyStart_foldl (firstMessageStart now chunk) _ _ ⟨?_, ?_⟩).2
      · exact (chunkHead_fields now chunk NewStreamState).2.2.2
      · intro e he hs
        simp only [List.mem_cons, List.mem_singleton, List.not_mem_nil, or_false] at he
        rcases he with h1 | h1
        · exact h1
        · subst h1
          simp at hs
  refine ⟨?_, ?_, by decide, by decide⟩
  · intro e he hs
    cases chunks with
    | nil => simp [translateAll, translateFrom] at he
    | cons chunk rest =>
      rw [(key chunk rest).2 e he hs]
      exact ⟨_, rfl, rfl, rfl⟩
  · intro chunk rest hc
    subst hc
    exact key chunk rest

/-- C29 on a stream whose first chunk carries 7 prompt tokens: its
`message_start` reports zero input tokens and zero output tokens. -/
theorem message_start_usage_zero_witness :
    firstMessageStart 0 usageFirstChunk ∈ (translateAll 0 [usageFirstChunk]).2 ∧
    ∃ d : MessageStartEvent, (firstMessageStart 0 usageFirstChunk).Data = .messageStart d ∧
      d.Message.Usage.InputTokens = 0 ∧ d.Message.Usage.OutputTokens = 0 :=
  ⟨by decide,
    (message_start_usage_zero 0 [usageFirstChunk]).1 (firstMessageStart 0 usageFirstChunk)
      (by decide) rfl⟩

end Anthropic
